import Mathlib

/-!
Shallow embedding of the codestats-core structural extractor
(src/pythonParser.ts, src/parserUtils.ts, src/jsParser.ts, src/phpParser.ts,
src/analyzers.ts, src/languageRouter.ts, src/types.ts) and proofs about it.

Strings are processed as `List Char`; every JavaScript regular expression used
by the source is hand-translated into a dedicated total matcher that follows
the backtracking semantics of the original pattern on the inputs the source
feeds it.  Machine integers do not occur (all counters are small naturals or
integers); file-system and process effects of the dependency resolver are
passed in as explicit parameters.
-/

/-- ASCII word character, the JS regex class `\w` = `[A-Za-z0-9_]`. -/
def wordC (c : Char) : Bool := c.isAlpha || c.isDigit || c == '_'

/-- Whitespace as matched by the JS regex class `\s` (ASCII part). -/
def spaceC (c : Char) : Bool :=
  c == ' ' || c == '\t' || c == '\n' || c == '\r' || c == '\x0b' || c == '\x0c'

/-- The single-quote character (written via its code point). -/
def sqC : Char := Char.ofNat 39

/-- The backtick character (written via its code point). -/
def btC : Char := Char.ofNat 96

/-- Does `s` start with the literal `pat`? -/
def begins : List Char → List Char → Bool
  | [], _ => true
  | _ :: _, [] => false
  | p :: ps, c :: cs => c == p && begins ps cs

/-- Does `s` contain `pat` as a contiguous substring? -/
def hasSub (pat : List Char) : List Char → Bool
  | [] => begins pat []
  | c :: cs => begins pat (c :: cs) || hasSub pat cs

/-- Does `s` end with the literal `pat`? -/
def endsL (pat s : List Char) : Bool := begins pat.reverse s.reverse

/-- JS `String.prototype.trim` on char lists. -/
def trimL (s : List Char) : List Char :=
  ((s.dropWhile spaceC).reverse.dropWhile spaceC).reverse

/-- JS `String.prototype.trim`. -/
def jsTrim (s : String) : String := (trimL s.data).asString

/-- String version of `begins` (JS `startsWith`). -/
def beginsS (s pat : String) : Bool := begins pat.data s.data

/-- String version of `hasSub` (JS `includes`). -/
def hasSubS (s pat : String) : Bool := hasSub pat.data s.data

/-- Match a literal, returning the rest of the input. -/
def litP : List Char → List Char → Option (List Char)
  | [], s => some s
  | _ :: _, [] => none
  | p :: ps, c :: cs => if c == p then litP ps cs else none

/-- Match a literal case-insensitively (JS `/i` flag), returning the rest. -/
def litCIP : List Char → List Char → Option (List Char)
  | [], s => some s
  | _ :: _, [] => none
  | p :: ps, c :: cs => if c.toLower == p.toLower then litCIP ps cs else none

/-- `\s*`: drop any run of whitespace. -/
def ws0 (s : List Char) : List Char := s.dropWhile spaceC

/-- `\s+`: require at least one whitespace character, drop the whole run. -/
def ws1 : List Char → Option (List Char)
  | [] => none
  | c :: cs => if spaceC c then some (ws0 cs) else none

/-- `\w+`: a nonempty run of word characters together with the rest. -/
def word1 (s : List Char) : Option (List Char × List Char) :=
  let run := s.takeWhile wordC
  if run.isEmpty then none else some (run, s.drop run.length)

/-- `\d+`: a nonempty run of digits together with the rest. -/
def digits1 (s : List Char) : Option (List Char × List Char) :=
  let run := s.takeWhile Char.isDigit
  if run.isEmpty then none else some (run, s.drop run.length)

/-- The prefix of `s` that was consumed to reach the suffix `rest`. -/
def matchedPart (s rest : List Char) : List Char := s.take (s.length - rest.length)

/-- Take the prefix of `s` up to (excluding) the first character satisfying
`p`; the whole of `s` when none does.  (JS `split(c)[0]`.) -/
def takeUntilC (p : Char → Bool) (s : List Char) : List Char :=
  s.takeWhile (fun c => !(p c))

/-- Insert a string into a JS `Set<string>` modelled as a list in insertion
order: a repeated element is ignored, a new one is appended at the end
(`Array.from` then returns exactly this list). -/
def insertUniq (l : List String) (s : String) : List String :=
  if s ∈ l then l else l ++ [s]

/-- Set a key in a JS plain object modelled as an association list in
insertion order: an existing key is overwritten in place. -/
def setKey (m : List (String × String)) (k v : String) : List (String × String) :=
  match m with
  | [] => [(k, v)]
  | (k0, v0) :: rest => if k0 == k then (k0, v) :: rest else (k0, v0) :: setKey rest k v

/-- Look a key up in a JS plain object modelled as an association list. -/
def getKey (m : List (String × String)) (k : String) : Option String :=
  match m with
  | [] => none
  | (k0, v0) :: rest => if k0 == k then some v0 else getKey rest k

/-- JS `s.split(sep)` for a one-character separator, implemented
structurally (kernel-reducible). -/
def splitCh (sep : Char) (s : String) : List String :=
  go s.data []
where
  go : List Char → List Char → List String
    | [], cur => [cur.reverse.asString]
    | c :: cs, cur => if c == sep then cur.reverse.asString :: go cs [] else go cs (c :: cur)

/-- JS `toLowerCase` (kernel-reducible). -/
def lowerS (s : String) : String := (s.data.map Char.toLower).asString

/-- JS `toUpperCase` (kernel-reducible). -/
def upperS (s : String) : String := (s.data.map Char.toUpper).asString

/-- JS `replace` of every occurrence of one character by another. -/
def replCh (a b : Char) (s : String) : String :=
  (s.data.map (fun c => if c == a then b else c)).asString

/-- JS `code.split(newline)`: the list of lines of a file. -/
def splitLines (code : String) : List String := splitCh '\n' code

/-- `s.search(non-whitespace)`: index of the first non-`\s` character, `-1`
when there is none (used by the brace-based extractors to skip nested code). -/
def searchNonWs (s : List Char) : Int :=
  match s with
  | [] => -1
  | c :: cs =>
    if spaceC c then
      match searchNonWs cs with
      | -1 => -1
      | i => i + 1
    else 0

-- ══════════════════════════════════════════════
-- Data model (src/types.ts)
-- ══════════════════════════════════════════════

/-- `PortInfo` of src/types.ts: a parameter or attribute slot. -/
structure PortInfo where
  name : String
  type : String
  default : Option String := none
deriving DecidableEq, Repr

/-- `MethodInfo` of src/types.ts. -/
structure MethodInfo where
  name : String
  params : List PortInfo
  returnType : String
  decorators : List String
  lineNumber : Nat
  isAsync : Bool
  isPrivate : Bool
  complexity : Nat
deriving DecidableEq, Repr

/-- `ClassInfo` of src/types.ts. -/
structure ClassInfo where
  name : String
  bases : List String
  methods : List MethodInfo
  attributes : List PortInfo
  decorators : List String
  lineNumber : Nat
deriving DecidableEq, Repr

/-- `ImportInfo` of src/types.ts. -/
structure ImportInfo where
  module : String
  names : List String
  isFrom : Bool
  lineNumber : Nat
deriving DecidableEq, Repr

/-- `MetaBlock` of src/types.ts; `raw` is the JS string-keyed object. -/
structure MetaBlock where
  name : Option String
  type : Option String
  desc : Option String
  inputs : Option (List String)
  outputs : Option (List String)
  deps : Option (List String)
  methods : Option (List String)
  errors : Option (List String)
  raw : List (String × String)
deriving DecidableEq, Repr

/-- The `type` field of `HardcodedValue` in src/types.ts. -/
inductive HKind where
  | credential | url | ip | path | number | string
deriving DecidableEq, Repr

/-- `HardcodedValue` of src/types.ts. -/
structure HardcodedValue where
  value : String
  type : HKind
  lineNumber : Nat
  context : String
deriving DecidableEq, Repr

/-- The `kind` field of `UnusedItem` in src/types.ts
(the string literals are `import`, `method`, `variable`). -/
inductive UKind where
  | uimport | umethod | uvariable
deriving DecidableEq, Repr

/-- `UnusedItem` of src/types.ts. -/
structure UnusedItem where
  name : String
  kind : UKind
  lineNumber : Nat
deriving DecidableEq, Repr

/-- `DiagnosticItem` of src/types.ts (populated only by the host editor). -/
structure DiagnosticItem where
  message : String
  severity : String
  lineNumber : Nat
  source : String
  code : String
deriving DecidableEq, Repr

/-- The `status` field of `DepIssue` in src/types.ts. -/
inductive DepStatus where
  | missing | installed | unknown
deriving DecidableEq, Repr

/-- `DepIssue` of src/types.ts; the source always stores a string in
`installCmd` (possibly empty, which JS treats as absent/falsy). -/
structure DepIssue where
  name : String
  status : DepStatus
  lineNumber : Nat
  installCmd : String
deriving DecidableEq, Repr

/-- The `type` field of `TodoItem` in src/types.ts. -/
inductive TKind where
  | todo | fixme | hack | bug | note
deriving DecidableEq, Repr

/-- `TodoItem` of src/types.ts. -/
structure TodoItem where
  text : String
  type : TKind
  lineNumber : Nat
deriving DecidableEq, Repr

/-- `ExternalUsage` of src/types.ts (filled by the cross-file scan, outside
the extraction core). -/
structure ExternalUsage where
  name : String
  kind : String
  usedIn : List String
deriving DecidableEq, Repr

/-- `FileStats` of src/types.ts: the aggregate extraction result
(the structural summary of the spec). -/
structure FileStats where
  fileName : String
  language : String
  meta : Option MetaBlock
  classes : List ClassInfo
  functions : List MethodInfo
  imports : List ImportInfo
  globalVars : List PortInfo
  connections : List String
  errorTypes : List String
  debugPoints : List Nat
  totalLines : Nat
  codeLines : Nat
  warnings : List String
  description : String
  classDescriptions : List (String × String)
  hardcoded : List HardcodedValue
  unused : List UnusedItem
  diagnostics : List DiagnosticItem
  depIssues : List DepIssue
  todos : List TodoItem
  externalUsage : List ExternalUsage
deriving DecidableEq, Repr

-- ══════════════════════════════════════════════
-- Comment/string stripping and word-boundary search
-- (the regex replaces of detectUnused / detectUnusedCode)
-- ══════════════════════════════════════════════

/-- `litP` consumes exactly the pattern: the rest is never longer. -/
theorem litP_len : ∀ (p s r : List Char), litP p s = some r → r.length ≤ s.length := by
  intro p
  induction p with
  | nil => intro s r h; simp [litP] at h; simp [h]
  | cons a ps ih =>
    intro s r h
    cases s with
    | nil => simp [litP] at h
    | cons c cs =>
      simp only [litP] at h
      by_cases hc : c == a
      · simp [hc] at h
        have := ih cs r h
        simp; omega
      · simp [hc] at h

/-- `ws1` consumes at least one character. -/
theorem ws1_len (s r : List Char) (h : ws1 s = some r) : r.length < s.length := by
  cases s with
  | nil => simp [ws1] at h
  | cons c cs =>
    simp only [ws1] at h
    by_cases hc : spaceC c
    · simp [hc] at h
      have h2 : r.length ≤ cs.length := by
        rw [← h]; exact (List.dropWhile_suffix spaceC).length_le
      simp; omega
    · simp [hc] at h

/-- `word1` consumes at least one character. -/
theorem word1_len (s w r : List Char) (h : word1 s = some (w, r)) : r.length < s.length := by
  unfold word1 at h
  by_cases he : (s.takeWhile wordC).isEmpty
  · simp [he] at h
  · simp [he] at h
    have h1 : r = s.drop (s.takeWhile wordC).length := by rw [← h.2]
    have h2 : (s.takeWhile wordC).length ≠ 0 := by
      intro h0; rw [List.isEmpty_iff_length_eq_zero] at he; exact he h0
    have h3 : (s.takeWhile wordC).length ≤ s.length := (List.takeWhile_prefix wordC).length_le
    rw [h1, List.length_drop]; omega

/-- `digits1` consumes at least one character. -/
theorem digits1_len (s w r : List Char) (h : digits1 s = some (w, r)) : r.length < s.length := by
  unfold digits1 at h
  by_cases he : (s.takeWhile Char.isDigit).isEmpty
  · simp [he] at h
  · simp [he] at h
    have h1 : r = s.drop (s.takeWhile Char.isDigit).length := by rw [← h.2]
    have h2 : (s.takeWhile Char.isDigit).length ≠ 0 := by
      intro h0; rw [List.isEmpty_iff_length_eq_zero] at he; exact he h0
    have h3 : (s.takeWhile Char.isDigit).length ≤ s.length := (List.takeWhile_prefix Char.isDigit).length_le
    rw [h1, List.length_drop]; omega

/-- Scan for the first occurrence of `pat` and return the suffix after it
(the lazy `[\s\S]*?pat` step of a block-remove regex). -/
def findAfter (pat : List Char) : List Char → Option (List Char)
  | [] => none
  | c :: cs => if begins pat (c :: cs) then some ((c :: cs).drop pat.length) else findAfter pat cs

theorem findAfter_len (pat : List Char) : ∀ (s r : List Char), findAfter pat s = some r →
    r.length ≤ s.length := by
  intro s
  induction s with
  | nil => intro r h; simp [findAfter] at h
  | cons c cs ih =>
    intro r h
    simp only [findAfter] at h
    by_cases hb : begins pat (c :: cs)
    · simp [hb] at h
      rw [← h, List.length_drop]; omega
    · simp [hb] at h
      have := ih r h
      simp; omega

/-- The Python triple-quote remove
`replace` of triple-double or triple-single quoted regions (lazy close,
removed entirely); the two alternatives start with different characters,
so the alternation is scanned directly.  The fuel argument (always called
with the length of the input, which each step strictly decreases) only
makes the recursion structural. -/
def stripTripleF : Nat → List Char → List Char
  | 0, s => s
  | _ + 1, [] => []
  | fuel + 1, c :: cs =>
    if begins ['"', '"', '"'] (c :: cs) then
      match findAfter ['"', '"', '"'] ((c :: cs).drop 3) with
      | some after => stripTripleF fuel after
      | none => c :: stripTripleF fuel cs
    else if begins [sqC, sqC, sqC] (c :: cs) then
      match findAfter [sqC, sqC, sqC] ((c :: cs).drop 3) with
      | some after => stripTripleF fuel after
      | none => c :: stripTripleF fuel cs
    else c :: stripTripleF fuel cs

/-- `stripTripleF` with its sufficient fuel. -/
def stripTriple (s : List Char) : List Char := stripTripleF s.length s

/-- Scan a quoted-literal body for its closing quote, treating a backslash
plus any character as an escape (`(?:[^q\\]|\\.)*q`); returns the suffix
after the closing quote. -/
def qClose (q : Char) : List Char → Option (List Char)
  | [] => none
  | c :: cs =>
    if c == q then some cs
    else if c == '\\' then
      match cs with
      | [] => none
      | _ :: cs2 => qClose q cs2
    else qClose q cs

theorem qClose_lenN (q : Char) : ∀ (n : Nat) (s r : List Char), s.length ≤ n →
    qClose q s = some r → r.length < s.length := by
  intro n
  induction n with
  | zero =>
    intro s r hle h
    cases s with
    | nil => simp [qClose] at h
    | cons c cs => simp at hle
  | succ n ih =>
    intro s r hle h
    cases s with
    | nil => simp [qClose] at h
    | cons c cs =>
      unfold qClose at h
      by_cases h1 : c = q
      · simp [h1] at h; subst h; simp
      · simp [h1] at h
        by_cases h2 : c = '\\'
        · simp [h2] at h
          cases cs with
          | nil => simp at h
          | cons x cs2 =>
            simp at h
            have := ih cs2 r (by simp at hle ⊢; omega) h
            simp; omega
        · simp [h2] at h
          have := ih cs r (by simp at hle ⊢; omega) h
          simp; omega

/-- `qClose` consumes at least the closing quote. -/
theorem qClose_len (q : Char) (s r : List Char) (h : qClose q s = some r) :
    r.length < s.length :=
  qClose_lenN q s.length s r (Nat.le_refl _) h

/-- Replace every complete `q…q` literal (with `\\`-escapes) by an empty
pair `qq` (the quote replaces of the unused-symbol scanners).  An
unterminated opener is kept verbatim.  Fuel as in `stripTripleF`. -/
def stripQuoteF (q : Char) : Nat → List Char → List Char
  | 0, s => s
  | _ + 1, [] => []
  | fuel + 1, c :: cs =>
    if c == q then
      match qClose q cs with
      | some after => q :: q :: stripQuoteF q fuel after
      | none => c :: stripQuoteF q fuel cs
    else c :: stripQuoteF q fuel cs

/-- `stripQuoteF` with its sufficient fuel. -/
def stripQuote (q : Char) (s : List Char) : List Char := stripQuoteF q s.length s

/-- Replace every complete `fq…q` literal by `qq` (the f-string replaces of
detectUnusedCode, run after the plain quote replaces).  Fuel as in
`stripTripleF`. -/
def stripFQuoteF (q : Char) : Nat → List Char → List Char
  | 0, s => s
  | _ + 1, [] => []
  | fuel + 1, c :: cs =>
    if c == 'f' && cs.head? == some q then
      match qClose q cs.tail with
      | some after => q :: q :: stripFQuoteF q fuel after
      | none => c :: stripFQuoteF q fuel cs
    else c :: stripFQuoteF q fuel cs

/-- `stripFQuoteF` with its sufficient fuel. -/
def stripFQuote (q : Char) (s : List Char) : List Char := stripFQuoteF q s.length s

/-- Remove everything from the first occurrence of `pat` to the end of the
line (the comment replaces `/#.*$/g` and `/\/\/.*$/g` on one line). -/
def cutFrom (pat : List Char) : List Char → List Char
  | [] => []
  | c :: cs => if begins pat (c :: cs) then [] else c :: cutFrom pat cs

/-- JS `\b` between an optional left character and an optional right
character: exactly one side is a word character. -/
def boundaryB (a b : Option Char) : Bool :=
  (match a with | some c => wordC c | none => false) !=
  (match b with | some c => wordC c | none => false)

/-- Test of `new RegExp('\\b' + name + '\\b')` for a literal (regex-escaped)
`name`: some position carries the name with word boundaries on both sides.
Empty names never occur on the call paths and are reported absent. -/
def wordOccursL (name : List Char) : Option Char → List Char → Bool
  | _, [] => false
  | prev, c :: cs =>
    (match name with
     | [] => false
     | n0 :: _ =>
       begins name (c :: cs) &&
       boundaryB prev (some n0) &&
       boundaryB (name.reverse.head? ) (((c :: cs).drop name.length).head?)) ||
    wordOccursL name (some c) cs

/-- String form of `wordOccursL` starting at the beginning of the text. -/
def wordOccursS (name text : String) : Bool := wordOccursL name.data none text.data

/-- Test of `new RegExp('(?:alt1|…|\\b)' + name + '\\s*\\(')`: at some
position, either one of the literal prefixes or a word boundary, then the
name, optional whitespace and an opening parenthesis (the call-style search
of the unused-callable scanners). -/
def callOccursL (alts : List (List Char)) (name : List Char) : Option Char → List Char → Bool
  | _, [] => false
  | prev, c :: cs =>
    (alts.any fun a =>
      match litP a (c :: cs) with
      | some r => begins name r && (ws0 (r.drop name.length)).head? == some '('
      | none => false) ||
    (match name with
     | [] => false
     | n0 :: _ =>
       boundaryB prev (some n0) && begins name (c :: cs) &&
       (ws0 ((c :: cs).drop name.length)).head? == some '(') ||
    callOccursL alts name (some c) cs

/-- String form of `callOccursL`. -/
def callOccursS (alts : List String) (name text : String) : Bool :=
  callOccursL (alts.map String.data) name.data none text.data

/-- From `l.get? i = some a` conclude `i < l.length`. -/
theorem get?_lt {α : Type} (l : List α) (i : Nat) (a : α) (h : l.get? i = some a) :
    i < l.length := by
  rcases List.get?_eq_some.1 h with ⟨h2, _⟩
  exact h2

/-- `\s+(.+)$`: at least one whitespace, then the (greedy, backtracked)
nonempty remainder group, exactly as the JS engine resolves it. -/
def ws1Plus (r : List Char) : Option (List Char) :=
  let k := (r.takeWhile spaceC).length
  if k == 0 then none
  else
    let rest := r.drop k
    if rest.isEmpty then (if k ≥ 2 then some (r.drop (k - 1)) else none)
    else some rest

/-- `\s*(.+)$`: optional whitespace, then the nonempty remainder group,
exactly as the JS engine resolves it. -/
def wsStarPlus (r : List Char) : Option (List Char) :=
  let k := (r.takeWhile spaceC).length
  let rest := r.drop k
  if rest.isEmpty then (if r.isEmpty then none else some (r.drop (r.length - 1)))
  else some rest

-- ══════════════════════════════════════════════
-- src/pythonParser.ts
-- ══════════════════════════════════════════════

namespace PythonParser

/-- `getIndent` of src/pythonParser.ts: length of the leading `\s*` run. -/
def getIndent (line : String) : Nat := (line.data.takeWhile spaceC).length

/-- `split(/\s+as\s+/)[0]`: the prefix before the first ` as ` delimiter. -/
def splitAsHead (s : String) : String :=
  go s.data |>.asString
where
  isDelim (t : List Char) : Bool :=
    match ws1 t with
    | some r =>
      match litP ['a', 's'] r with
      | some r2 => (ws1 r2).isSome
      | none => false
    | none => false
  go : List Char → List Char
    | [] => []
    | c :: cs => if isDelim (c :: cs) then [] else c :: go cs

/-- `/^from\s+([\w.]+)\s+import\s+(.+)$/` on a trimmed line:
returns (module, names part). -/
def fromImportM (l : String) : Option (String × String) :=
  match litP ['f', 'r', 'o', 'm'] l.data with
  | none => none
  | some r =>
    match ws1 r with
    | none => none
    | some r1 =>
      let modRun := r1.takeWhile (fun c => wordC c || c == '.')
      if modRun.isEmpty then none
      else
        let r2 := r1.drop modRun.length
        match ws1 r2 with
        | none => none
        | some r3 =>
          -- `\s+` is greedy and `import` starts with a non-space, so the
          -- whitespace run is consumed exactly
          match litP ['i', 'm', 'p', 'o', 'r', 't'] r3 with
          | none => none
          | some r4 =>
            match ws1Plus r4 with
            | none => none
            | some rest => some (modRun.asString, rest.asString)

/-- `/^import\s+(.+)$/` on a trimmed line. -/
def importM (l : String) : Option String :=
  match litP ['i', 'm', 'p', 'o', 'r', 't'] l.data with
  | none => none
  | some r =>
    match ws1Plus r with
    | none => none
    | some rest => some rest.asString

/-- The import records contributed by line index `i` (`parseImports` body). -/
def importsAt (i : Nat) (rawLine : String) : List ImportInfo :=
  let line := jsTrim rawLine
  match fromImportM line with
  | some (m, namesPart) =>
    let names := ((splitCh ',' namesPart).map
      (fun n => jsTrim (splitAsHead (jsTrim n)))).filter (fun n => n ≠ "")
    [{ module := m, names := names, isFrom := true, lineNumber := i + 1 }]
  | none =>
    match importM line with
    | some modsPart =>
      ((splitCh ',' modsPart).map (fun m => jsTrim (splitAsHead (jsTrim m)))).map
        (fun mod => { module := mod, names := [mod], isFrom := false, lineNumber := i + 1 })
    | none => []

/-- `parseImports` of src/pythonParser.ts. -/
def parseImports (lines : List String) : List ImportInfo :=
  (List.range lines.length).flatMap fun i =>
    match lines.get? i with
    | some l => importsAt i l
    | none => []

/-- `/^class\s+(\w+)\s*(?:\(([^)]*)\))?\s*:/`: returns (name, bases text). -/
def classM (line : String) : Option (String × Option String) :=
  match litP ['c', 'l', 'a', 's', 's'] line.data with
  | none => none
  | some r =>
    match ws1 r with
    | none => none
    | some r1 =>
      match word1 r1 with
      | none => none
      | some (name, r2) =>
        let r3 := ws0 r2
        match r3 with
        | '(' :: r4 =>
          let inner := r4.takeWhile (fun c => c ≠ ')')
          match r4.drop inner.length with
          | ')' :: r5 =>
            if (ws0 r5).head? == some ':' then some (name.asString, some inner.asString)
            else none
          | _ => none
        | _ => if r3.head? == some ':' then some (name.asString, none) else none

/-- `collectDecorators` of src/pythonParser.ts: walk upward gathering
`@…` lines, skipping blank ones. -/
def collectDecorators (lines : List String) (defLineIdx : Nat) : List String :=
  go defLineIdx []
where
  go : Nat → List String → List String
    | 0, acc => acc
    | j + 1, acc =>
      let prev := jsTrim (lines.getD j "")
      if beginsS prev "@" then go j (prev :: acc)
      else if prev == "" then go j acc
      else acc

/-- The branch keywords of `countBranches`
(`/^(if|elif|else|for|while|except|case)\b/`). -/
def branchKw (t : String) : Bool :=
  ["if", "elif", "else", "for", "while", "except", "case"].any fun kw =>
    begins kw.data t.data &&
    (match (t.data.drop kw.length).head? with
     | some c => !wordC c
     | none => true)

/-- `countBranches` of src/pythonParser.ts: scan the indentation body below
`startIdx`, counting branch keywords and inline `if` expressions. -/
def countBranchesAux (lines : List String) (base : Nat) : Nat → Nat → Nat → Nat
  | 0, _, b => b
  | fuel + 1, i, b =>
    match lines.get? i with
    | none => b
    | some line =>
      if jsTrim line == "" then countBranchesAux lines base fuel (i + 1) b
      else if getIndent line ≤ base then b
      else
        let t := jsTrim line
        let b1 := if branchKw t then b + 1 else b
        let b2 :=
          if wordOccursS "if" t && !beginsS t "if" && !beginsS t "elif" then b1 + 1 else b1
        countBranchesAux lines base fuel (i + 1) b2

/-- `countBranches` of src/pythonParser.ts. -/
def countBranches (lines : List String) (startIdx : Nat) : Nat :=
  countBranchesAux lines (getIndent (lines.getD startIdx "")) lines.length (startIdx + 1) 0

/-- `splitParams` of src/pythonParser.ts: split on top-level commas only. -/
def splitParamsAux : List Char → Int → List Char → List String
  | [], _, cur => if (trimL cur).isEmpty then [] else [cur.asString]
  | ch :: rest, depth, cur =>
    let d1 := if ch == '(' || ch == '[' then depth + 1 else depth
    let d2 := if ch == ')' || ch == ']' then d1 - 1 else d1
    if ch == ',' && d2 == 0 then cur.asString :: splitParamsAux rest d2 []
    else splitParamsAux rest d2 (cur ++ [ch])

/-- `splitParams` of src/pythonParser.ts. -/
def splitParams (paramStr : String) : List String := splitParamsAux paramStr.data 0 []

/-- `splitNameType` of src/pythonParser.ts: split on the first colon. -/
def splitNameType (s : String) : String × String :=
  let before := s.data.takeWhile (fun c => c ≠ ':')
  if before.length == s.data.length then (jsTrim s, "Any")
  else (jsTrim before.asString, jsTrim ((s.data.drop (before.length + 1)).asString))

/-- `parseParams` of src/pythonParser.ts. -/
def parseParams (paramStr : String) : List PortInfo :=
  if jsTrim paramStr == "" then []
  else
    (splitParams paramStr).filterMap fun part =>
      let trimmed := jsTrim part
      if trimmed == "" || trimmed == "*" || trimmed == "/" then none
      else if beginsS trimmed "**" || beginsS trimmed "*" then
        let clean :=
          if beginsS trimmed "**" then (trimmed.data.drop 2).asString
          else (trimmed.data.drop 1).asString
        let (name, ty) := splitNameType clean
        let star := if beginsS trimmed "**" then "**" else "*"
        some { name := star ++ name, type := if ty == "" then "Any" else ty }
      else
        let before := trimmed.data.takeWhile (fun c => c ≠ '=')
        let (mainPart, defaultVal) :=
          if before.length == trimmed.data.length then (trimmed, none)
          else (jsTrim before.asString,
                some (jsTrim ((trimmed.data.drop (before.length + 1)).asString)))
        let (name, ty) := splitNameType mainPart
        some { name := name, type := if ty == "" then "Any" else ty, default := defaultVal }

/-- `(.+?)\s*:` — the lazy return-type group: the minimal nonempty prefix
followed by optional whitespace and a colon; returns (group, rest). -/
def lazyDot1 (s : List Char) : Option (List Char × List Char) :=
  go [] s
where
  go (acc : List Char) : List Char → Option (List Char × List Char)
    | [] => none
    | c :: cs =>
      let acc2 := acc ++ [c]
      let r := ws0 cs
      if r.head? == some ':' then some (acc2, r.drop 1) else go acc2 cs

/-- `\s*(.+?)\s*:` with JS backtracking: the greedy leading `\s*` is tried
from longest to shortest, the lazy group from shortest to longest. -/
def retGroup (r : List Char) : Option (List Char × List Char) :=
  go ((r.takeWhile spaceC).length)
where
  go : Nat → Option (List Char × List Char)
    | 0 => lazyDot1 r
    | w + 1 =>
      match lazyDot1 (r.drop (w + 1)) with
      | some x => some x
      | none => go w

/-- Common tail of the two `def` regexes: after `def`, match
`\s+(\w+)\s*\(([^)]*)\)\s*(?:->\s*(.+?))?\s*:` and return
(name, params text, return type text). -/
def defTail (r : List Char) : Option (String × String × Option String) :=
  match ws1 r with
  | none => none
  | some r1 =>
    match word1 r1 with
    | none => none
    | some (name, r2) =>
      match ws0 r2 with
      | '(' :: r4 =>
        let inner := r4.takeWhile (fun c => c ≠ ')')
        match r4.drop inner.length with
        | ')' :: r5 =>
          let r6 := ws0 r5
          if begins ['-', '>'] r6 then
            match retGroup (r6.drop 2) with
            | some (g, _) => some (name.asString, inner.asString, some g.asString)
            | none => none
          else if r6.head? == some ':' then some (name.asString, inner.asString, none)
          else none
        | _ => none
      | _ => none

/-- `/^(\s*)(async\s+)?def\s+(\w+)\s*\(([^)]*)\)\s*(?:->\s*(.+?))?\s*:/`
(the class-method form, leading whitespace allowed):
returns (isAsync, name, params, returnType). -/
def defMethodM (line : String) : Option (Bool × String × String × Option String) :=
  let r := ws0 line.data
  let (isAsync, r1) :=
    match litP ['a', 's', 'y', 'n', 'c'] r with
    | some ra =>
      match ws1 ra with
      | some rb => (true, rb)
      | none => (false, r)
    | none => (false, r)
  match litP ['d', 'e', 'f'] r1 with
  | none => none
  | some r2 =>
    match defTail r2 with
    | some (n, p, ret) => some (isAsync, n, p, ret)
    | none => none

/-- `/^(async\s+)?def\s+…/` (the top-level form, no leading whitespace). -/
def defTopM (line : String) : Option (Bool × String × String × Option String) :=
  let r := line.data
  let (isAsync, r1) :=
    match litP ['a', 's', 'y', 'n', 'c'] r with
    | some ra =>
      match ws1 ra with
      | some rb => (true, rb)
      | none => (false, r)
    | none => (false, r)
  match litP ['d', 'e', 'f'] r1 with
  | none => none
  | some r2 =>
    match defTail r2 with
    | some (n, p, ret) => some (isAsync, n, p, ret)
    | none => none

/-- `\s*(?::\s*(\w+))?\s*=` — the common tail of the self-attribute and
module-constant regexes: optional `: Type` annotation, then `=`;
returns the optional type group. -/
def optWordColonEq (r : List Char) : Option (Option String) :=
  let r1 := ws0 r
  match r1 with
  | ':' :: r2 =>
    (match word1 (ws0 r2) with
     | some (w, r3) => if (ws0 r3).head? == some '=' then some (some w.asString) else none
     | none => none)
  | '=' :: _ => some none
  | _ => none

/-- `/self\.(\w+)\s*(?::\s*(\w+))?\s*=/` searched anywhere in the line:
returns (attribute, optional type). -/
def selfAttrM (line : String) : Option (String × Option String) :=
  go line.data
where
  at1 (s : List Char) : Option (String × Option String) :=
    match litP ['s', 'e', 'l', 'f', '.'] s with
    | none => none
    | some r =>
      match word1 r with
      | none => none
      | some (attr, r2) =>
        match optWordColonEq r2 with
        | some ty => some (attr.asString, ty)
        | none => none
  go : List Char → Option (String × Option String)
    | [] => none
    | c :: cs =>
      match at1 (c :: cs) with
      | some x => some x
      | none => go cs

/-- `parseClassMethods` of src/pythonParser.ts: scan the class body
(indentation-delimited) for method definitions. -/
def parseClassMethodsAux (lines : List String) (classIndent methodIndent : Nat) :
    Nat → Nat → List MethodInfo
  | 0, _ => []
  | fuel + 1, i =>
    match lines.get? i with
    | none => []
    | some line =>
      if jsTrim line == "" then parseClassMethodsAux lines classIndent methodIndent fuel (i + 1)
      else if getIndent line ≤ classIndent then []
      else
        let rest := parseClassMethodsAux lines classIndent methodIndent fuel (i + 1)
        match defMethodM line with
        | some (isAsync, name, paramStr, ret) =>
          if getIndent line ≥ methodIndent then
            let params := parseParams paramStr
            let filteredParams := params.filter fun p => p.name ≠ "self" && p.name ≠ "cls"
            { name := name
              params := filteredParams
              returnType :=
                match ret with
                | some r0 => if jsTrim r0 == "" then "Any" else jsTrim r0
                | none => "Any"
              decorators := collectDecorators lines i
              lineNumber := i + 1
              isAsync := isAsync
              isPrivate := beginsS name "_"
              complexity := countBranches lines i } :: rest
          else rest
        | none => rest

/-- `parseClassMethods` of src/pythonParser.ts. -/
def parseClassMethods (lines : List String) (classLineIdx : Nat) : List MethodInfo :=
  let classIndent := getIndent (lines.getD classLineIdx "")
  parseClassMethodsAux lines classIndent (classIndent + 4) lines.length (classLineIdx + 1)

/-- `parseClassAttributes` of src/pythonParser.ts: collect `self.x = …`
assignments in the class body, first occurrence wins. -/
def parseClassAttributesAux (lines : List String) (classIndent : Nat) :
    Nat → Nat → List PortInfo → List PortInfo
  | 0, _, acc => acc
  | fuel + 1, i, acc =>
    match lines.get? i with
    | none => acc
    | some line =>
      if jsTrim line == "" then parseClassAttributesAux lines classIndent fuel (i + 1) acc
      else if getIndent line ≤ classIndent then acc
      else
        let acc2 :=
          match selfAttrM line with
          | some (n, ty) =>
            if acc.any (fun a => a.name == n) then acc
            else acc ++ [{ name := n, type := ty.getD "Any" }]
          | none => acc
        parseClassAttributesAux lines classIndent fuel (i + 1) acc2

/-- `parseClassAttributes` of src/pythonParser.ts. -/
def parseClassAttributes (lines : List String) (classLineIdx : Nat) : List PortInfo :=
  parseClassAttributesAux lines (getIndent (lines.getD classLineIdx "")) lines.length (classLineIdx + 1) []

/-- `parseClasses` of src/pythonParser.ts. -/
def parseClasses (lines : List String) : List ClassInfo :=
  (List.range lines.length).flatMap fun i =>
    match lines.get? i with
    | some line =>
      match classM line with
      | some (name, basesOpt) =>
        [{ name := name
           bases :=
             match basesOpt with
             | some b => ((splitCh ',' b).map jsTrim).filter (fun x => x ≠ "")
             | none => []
           methods := parseClassMethods lines i
           attributes := parseClassAttributes lines i
           decorators := collectDecorators lines i
           lineNumber := i + 1 }]
      | none => []
    | none => []

/-- `parseTopLevelFunctions` of src/pythonParser.ts. -/
def parseTopLevelFunctions (lines : List String) : List MethodInfo :=
  (List.range lines.length).flatMap fun i =>
    match lines.get? i with
    | some line =>
      match defTopM line with
      | some (isAsync, name, paramStr, ret) =>
        [{ name := name
           params := parseParams paramStr
           returnType :=
             match ret with
             | some r0 => if jsTrim r0 == "" then "Any" else jsTrim r0
             | none => "Any"
           decorators := collectDecorators lines i
           lineNumber := i + 1
           isAsync := isAsync
           isPrivate := beginsS name "_"
           complexity := countBranches lines i }]
      | none => []
    | none => []

/-- `inferType` of src/pythonParser.ts: coarse literal-shape type guess. -/
def inferType (value : String) : String :=
  let v := jsTrim value
  if v == "True" || v == "False" then "bool"
  else if (match v.data with
           | '-' :: rest => !rest.isEmpty && rest.all Char.isDigit
           | l => !l.isEmpty && l.all Char.isDigit) then "int"
  else if (let body := match v.data with | '-' :: rest => rest | l => l
           let ip := body.takeWhile Char.isDigit
           let rest := body.drop ip.length
           match rest with
           | '.' :: fl => !ip.isEmpty && !fl.isEmpty && fl.all Char.isDigit
           | _ => false) then "float"
  else if (match v.data.head? with
           | some c => c == '"' || c == sqC
           | none => false) then "str"
  else if beginsS v "[" then "list"
  else if beginsS v "\x7b" then "dict"
  else if beginsS v "(" then "tuple"
  else "Any"

/-- `/^([A-Z_][A-Z0-9_]*)\s*(?::\s*(\w+))?\s*=\s*(.+)$/`:
returns (name, optional declared type, value text). -/
def upperConstM (line : String) : Option (String × Option String × String) :=
  match line.data with
  | c :: rest =>
    if c.isUpper || c == '_' then
      let run := rest.takeWhile (fun x => x.isUpper || x.isDigit || x == '_')
      let name := (c :: run).asString
      let r := rest.drop run.length
      let r1 := ws0 r
      match r1 with
      | ':' :: r2 =>
        (match word1 (ws0 r2) with
         | some (w, r3) =>
           (match ws0 r3 with
            | '=' :: r4 =>
              match wsStarPlus r4 with
              | some v => some (name, some w.asString, v.asString)
              | none => none
            | _ => none)
         | none => none)
      | '=' :: r4 =>
        (match wsStarPlus r4 with
         | some v => some (name, none, v.asString)
         | none => none)
      | _ => none
    else none
  | [] => none

/-- `parseGlobalVars` of src/pythonParser.ts: zero-indentation
upper-snake-case assignments become typed module constants. -/
def parseGlobalVars (lines : List String) : List PortInfo :=
  (List.range lines.length).flatMap fun i =>
    match lines.get? i with
    | some line =>
      if getIndent line ≠ 0 then []
      else
        match upperConstM line with
        | some (name, ty, value) =>
          [{ name := name
             type := ty.getD (inferType value)
             default := some (jsTrim value) }]
        | none => []
    | none => []

/-- `/raise\s+(\w+)/` searched anywhere in the line. -/
def raiseM (line : String) : Option String :=
  go line.data
where
  at1 (s : List Char) : Option String :=
    match litP ['r', 'a', 'i', 's', 'e'] s with
    | none => none
    | some r =>
      match ws1 r with
      | none => none
      | some r1 =>
        match word1 r1 with
        | some (w, _) => some w.asString
        | none => none
  go : List Char → Option String
    | [] => none
    | c :: cs =>
      match at1 (c :: cs) with
      | some w => some w
      | none => go cs

/-- `/except\s+(\w+)/` searched anywhere in the line. -/
def exceptM (line : String) : Option String :=
  go line.data
where
  at1 (s : List Char) : Option String :=
    match litP ['e', 'x', 'c', 'e', 'p', 't'] s with
    | none => none
    | some r =>
      match ws1 r with
      | none => none
      | some r1 =>
        match word1 r1 with
        | some (w, _) => some w.asString
        | none => none
  go : List Char → Option String
    | [] => none
    | c :: cs =>
      match at1 (c :: cs) with
      | some w => some w
      | none => go cs

/-- `parseErrorTypes` of src/pythonParser.ts: harvest `raise X` names
(unconditionally) and `except X` names (excluding the generic
`Exception`), into a JS `Set` in insertion order. -/
def parseErrorTypes (lines : List String) : List String :=
  lines.foldl
    (fun acc line =>
      let acc1 :=
        match raiseM line with
        | some w => insertUniq acc w
        | none => acc
      match exceptM line with
      | some w => if w ≠ "Exception" then insertUniq acc1 w else acc1
      | none => acc1)
    []

/-- `parseDebugPoints` of src/pythonParser.ts: line numbers of `try:` and
`except` lines. -/
def parseDebugPoints (lines : List String) : List Nat :=
  (List.range lines.length).filterMap fun i =>
    match lines.get? i with
    | some line =>
      let trimmed := jsTrim line
      if beginsS trimmed "try:" || beginsS trimmed "except " || beginsS trimmed "except:" then
        some (i + 1)
      else none
    | none => none

/-- `buildConnections` of src/pythonParser.ts. -/
def buildConnections (imports : List ImportInfo) (_lines : List String) : List String :=
  imports.foldl
    (fun acc imp =>
      imp.names.foldl (fun a n => if n ≠ "*" then insertUniq a n else a)
        (insertUniq acc imp.module))
    []

/-- `countCodeLines` of src/pythonParser.ts: non-blank, non-comment,
non-docstring lines, via the in-docstring toggle of the source. -/
def countCodeLines (lines : List String) : Nat :=
  (lines.foldl
    (fun st line =>
      let trimmed := jsTrim line
      if beginsS trimmed "\"\"\"" || beginsS trimmed ([sqC, sqC, sqC].asString) then
        let quote := (trimmed.data.take 3).asString
        if st.2 then (st.1, false)
        else if trimmed.length > 3 && endsL quote.data trimmed.data then st
        else (st.1, true)
      else if st.2 then st
      else if trimmed == "" then st
      else if beginsS trimmed "#" then st
      else (st.1 + 1, st.2))
    ((0 : Nat), false)).1

/-- Characters that end a URL match in `/https?:\/\/[^\s"']+/`. -/
def urlStop (c : Char) : Bool := spaceC c || c == '"' || c == sqC

/-- `/https?:\/\/[^\s"']+/` searched anywhere: the first URL substring. -/
def urlM (line : String) : Option String :=
  go line.data
where
  at1 (s : List Char) : Option String :=
    match litP ['h', 't', 't', 'p'] s with
    | none => none
    | some r =>
      let r2opt :=
        if begins ['s', ':', '/', '/'] r then some (r.drop 4)
        else match litP [':', '/', '/'] r with
          | some x => some x
          | none => none
      match r2opt with
      | none => none
      | some r2 =>
        let run := r2.takeWhile (fun c => !urlStop c)
        if run.isEmpty then none
        else some (matchedPart s (r2.drop run.length)).asString
  go : List Char → Option String
    | [] => none
    | c :: cs =>
      match at1 (c :: cs) with
      | some v => some v
      | none => go cs

/-- One `\d{1,3}` segment of the dotted-quad pattern. -/
def ipSeg (t : List Char) : Option (List Char) :=
  let run := t.takeWhile Char.isDigit
  if run.length ≥ 1 && run.length ≤ 3 then some (t.drop run.length) else none

/-- `/\b\d{1,3}\.\d{1,3}\.\d{1,3}\.\d{1,3}\b/` searched anywhere. -/
def ipM (line : String) : Option String :=
  go none line.data
where
  at1 (s : List Char) : Option String :=
    match ipSeg s with
    | none => none
    | some r1 =>
      match r1 with
      | '.' :: t1 =>
        match ipSeg t1 with
        | none => none
        | some r2 =>
          match r2 with
          | '.' :: t2 =>
            match ipSeg t2 with
            | none => none
            | some r3 =>
              match r3 with
              | '.' :: t3 =>
                match ipSeg t3 with
                | none => none
                | some r4 =>
                  match r4.head? with
                  | some c => if wordC c then none else some (matchedPart s r4).asString
                  | none => some (matchedPart s r4).asString
              | _ => none
          | _ => none
      | _ => none
  go : Option Char → List Char → Option String
    | _, [] => none
    | prev, c :: cs =>
      let okLeft :=
        match prev with
        | some p => !wordC p
        | none => true
      match (if okLeft then at1 (c :: cs) else none) with
      | some v => some v
      | none => go (some c) cs

/-- The character class `[\w\-\/\.]` of the quoted-path pattern. -/
def pathC (c : Char) : Bool := wordC c || c == '-' || c == '/' || c == '.'

/-- `/["']\/[\w\-\/\.]+["']/` searched anywhere (quotes included in the
match value). -/
def pathM (line : String) : Option String :=
  go line.data
where
  at1 (s : List Char) : Option String :=
    match s with
    | q :: '/' :: r =>
      if q == '"' || q == sqC then
        let run := ('/' :: r).takeWhile pathC
        match r.drop (run.length - 1) with
        | q2 :: r2 =>
          if q2 == '"' || q2 == sqC then some (matchedPart s r2).asString else none
        | [] => none
      else none
    | _ => none
  go : List Char → Option String
    | [] => none
    | c :: cs =>
      match at1 (c :: cs) with
      | some v => some v
      | none => go cs

/-- The credential identifier alternatives of the Python scanner
(`detectHardcodedValues`); note: no `auth`. -/
def credAltsPy : List String :=
  ["password", "secret", "key", "token", "api_key", "apikey", "passwd", "credential"]

/-- `\s*=\s*["'][^"']+["']` — the tail of the Python credential pattern. -/
def credTailPy (r : List Char) : Option (List Char) :=
  match ws0 r with
  | '=' :: r2 =>
    (match ws0 r2 with
     | q :: r4 =>
       if q == '"' || q == sqC then
         let content := r4.takeWhile (fun c => !(c == '"' || c == sqC))
         if content.isEmpty then none
         else
           match r4.drop content.length with
           | q2 :: r5 => if q2 == '"' || q2 == sqC then some r5 else none
           | [] => none
       else none
     | [] => none)
  | _ => none

/-- `/(?:password|…|credential)\s*=\s*["'][^"']+["']/i` searched anywhere:
the full matched assignment text. -/
def credM (line : String) : Option String :=
  go line.data
where
  goAlts (s : List Char) : List String → Option (List Char)
    | [] => none
    | a :: rest =>
      match litCIP a.data s with
      | some r =>
        (match credTailPy r with
         | some r2 => some r2
         | none => goAlts s rest)
      | none => goAlts s rest
  go : List Char → Option String
    | [] => none
    | c :: cs =>
      match goAlts (c :: cs) credAltsPy with
      | some r2 => some (matchedPart (c :: cs) r2).asString
      | none => go cs

/-- `/(?:port)\s*=\s*\d+/i` test. -/
def portT (line : String) : Bool :=
  go line.data
where
  at1 (s : List Char) : Bool :=
    match litCIP ['p', 'o', 'r', 't'] s with
    | none => false
    | some r =>
      match ws0 r with
      | '=' :: r2 =>
        (match (ws0 r2).head? with
         | some c => c.isDigit
         | none => false)
      | _ => false
  go : List Char → Bool
    | [] => false
    | c :: cs => at1 (c :: cs) || go cs

/-- `/=\s*(\d+)/` searched anywhere: the first digit group after an `=`. -/
def eqNumM (line : String) : Option String :=
  go line.data
where
  at1 (s : List Char) : Option String :=
    match s with
    | '=' :: r =>
      (match digits1 (ws0 r) with
       | some (d, _) => some d.asString
       | none => none)
    | _ => none
  go : List Char → Option String
    | [] => none
    | c :: cs =>
      match at1 (c :: cs) with
      | some v => some v
      | none => go cs

/-- `/^(\w+)\s*=\s*["']([^"']{8,})["']\s*$/` on the trimmed line:
returns (identifier, literal body). -/
def assignStrM (trimmed : String) : Option (String × String) :=
  match word1 trimmed.data with
  | none => none
  | some (name, r) =>
    match ws0 r with
    | '=' :: r2 =>
      (match ws0 r2 with
       | q :: r4 =>
         if q == '"' || q == sqC then
           let content := r4.takeWhile (fun c => !(c == '"' || c == sqC))
           if content.length ≥ 8 then
             match r4.drop content.length with
             | q2 :: r5 =>
               if (q2 == '"' || q2 == sqC) && (ws0 r5).isEmpty then
                 some (name.asString, content.asString)
               else none
             | [] => none
           else none
         else none
       | [] => none)
    | _ => none

/-- `/^[A-Z_]+$/` test. -/
def isUpperSnake (s : String) : Bool :=
  !s.data.isEmpty && s.data.all (fun c => c.isUpper || c == '_')

/-- `trimmed.split('=')[0].trim()` — the recorded context. -/
def ctxEq (trimmed : String) : String :=
  jsTrim (trimmed.data.takeWhile (fun c => c ≠ '=')).asString

/-- The findings contributed by line index `i`: the loop body of
`detectHardcodedValues` in src/pythonParser.ts, including its unreachable
string-kind branch (outer guard demands an upper-snake name, the inner
guard the opposite). -/
def hardLine (i : Nat) (line : String) : List HardcodedValue :=
  let trimmed := jsTrim line
  if beginsS trimmed "#" || trimmed == "" then []
  else if beginsS trimmed "# ---meta" || beginsS trimmed "# ---" then []
  else if beginsS trimmed "import " || beginsS trimmed "from " then []
  else
    match credM line with
    | some v => [{ value := v, type := .credential, lineNumber := i + 1, context := ctxEq trimmed }]
    | none =>
      let url := urlM line
      let r1 :=
        match url with
        | some v => [{ value := v, type := HKind.url, lineNumber := i + 1, context := ctxEq trimmed }]
        | none => []
      let r2 :=
        match ipM line, url with
        | some v, none =>
          r1 ++ [{ value := v, type := HKind.ip, lineNumber := i + 1, context := ctxEq trimmed }]
        | _, _ => r1
      let r3 :=
        match pathM line, url with
        | some v, none =>
          r2 ++ [{ value := v, type := HKind.path, lineNumber := i + 1, context := ctxEq trimmed }]
        | _, _ => r2
      let r4 :=
        if portT line then
          match eqNumM line with
          | some v => r3 ++ [{ value := v, type := HKind.number, lineNumber := i + 1, context := "port" }]
          | none => r3
        else r3
      match assignStrM trimmed with
      | some (varName, content) =>
        if isUpperSnake varName then
          if !isUpperSnake varName then
            r4 ++ [{ value := content, type := HKind.string, lineNumber := i + 1, context := varName }]
          else r4
        else r4
      | none => r4

/-- `detectHardcodedValues` of src/pythonParser.ts. -/
def detectHardcodedValues (lines : List String) : List HardcodedValue :=
  (List.range lines.length).flatMap fun i =>
    match lines.get? i with
    | some l => hardLine i l
    | none => []

/-- `/def\s+\w+/` at the head of the text: the rest after the match. -/
def defM? (s : List Char) : Option (List Char) :=
  match litP ['d', 'e', 'f'] s with
  | none => none
  | some r =>
    match ws1 r with
    | none => none
    | some r1 =>
      match word1 r1 with
      | some (_, r2) => some r2
      | none => none

theorem defM?_len (s r : List Char) (h : defM? s = some r) : r.length < s.length := by
  unfold defM? at h
  cases h1 : litP ['d', 'e', 'f'] s with
  | none => rw [h1] at h; simp at h
  | some a =>
    rw [h1] at h
    dsimp only at h
    cases h2 : ws1 a with
    | none => rw [h2] at h; simp at h
    | some b =>
      rw [h2] at h
      dsimp only at h
      cases h3 : word1 b with
      | none => rw [h3] at h; simp at h
      | some wr =>
        rw [h3] at h
        simp at h
        have l1 := litP_len _ _ _ h1
        have l2 := ws1_len _ _ h2
        have l3 := word1_len b wr.1 wr.2 (by rw [h3])
        subst h
        omega

/-- Remove every `def name` occurrence (the defsRemoved replace of
`detectUnusedCode`).  Fuel as in `stripTripleF`. -/
def stripDefsLF : Nat → List Char → List Char
  | 0, s => s
  | _ + 1, [] => []
  | fuel + 1, c :: cs =>
    match defM? (c :: cs) with
    | some rest => stripDefsLF fuel rest
    | none => c :: stripDefsLF fuel cs

/-- `stripDefsLF` with its sufficient fuel. -/
def stripDefsL (s : List Char) : List Char := stripDefsLF s.length s

/-- String form of `stripDefsL`. -/
def stripDefs (text : String) : String := (stripDefsL text.data).asString

/-- One line of the comment/string strip of `detectUnusedCode`
(src/pythonParser.ts): `#`-comments, single-line triple-quoted strings,
double/single-quoted strings, then f-strings. -/
def pyStripLine (l : String) : String :=
  (stripFQuote sqC
    (stripFQuote '"'
      (stripQuote sqC
        (stripQuote '"'
          (stripTriple
            (cutFrom ['#'] l.data)))))).asString

/-- The `typingSkip` allow-list of `detectUnusedCode`. -/
def typingSkip : List String :=
  ["Dict", "List", "Set", "Tuple", "Optional", "Union", "Any", "Type",
   "Callable", "Iterator", "Generator", "Sequence", "Mapping", "Iterable",
   "ClassVar", "Final", "Literal", "TypeVar", "Generic", "Protocol",
   "Awaitable", "Coroutine", "AsyncIterator", "AsyncGenerator",
   "NamedTuple", "TypedDict", "Annotated", "TypeAlias", "Self"]

/-- `detectUnusedCode` of src/pythonParser.ts. -/
def detectUnusedCode (lines : List String) (imports : List ImportInfo)
    (classes : List ClassInfo) (functions : List MethodInfo) : List UnusedItem :=
  let importLineSet := imports.map fun imp => imp.lineNumber - 1
  let codeOnly := String.intercalate "\n"
    (lines.mapIdx fun idx l => if importLineSet.contains idx then "" else pyStripLine l)
  let unusedImports := imports.flatMap fun imp =>
    imp.names.filterMap fun name =>
      if name == "*" || name.length ≤ 1 then none
      else if beginsS imp.module "typing" || typingSkip.contains name then none
      else if wordOccursS name codeOnly then none
      else some { name := name, kind := UKind.uimport, lineNumber := imp.lineNumber }
  let allMethods :=
    functions.map (fun f => (f.name, f.lineNumber)) ++
    classes.flatMap fun c =>
      (c.methods.filter fun m => m.name ≠ "__init__" && !beginsS m.name "__").map
        fun m => (m.name, m.lineNumber)
  let unusedMethods := allMethods.filterMap fun nl =>
    let linesWithout := String.intercalate "\n" (lines.eraseIdx (nl.2 - 1))
    if callOccursS ["self."] nl.1 linesWithout then none
    else if wordOccursS nl.1 (stripDefs linesWithout) then none
    else some { name := nl.1, kind := UKind.umethod, lineNumber := nl.2 }
  unusedImports ++ unusedMethods

end PythonParser

namespace PythonParser

/-- `#?\s*---meta` at the current position (opening of the Python meta
regex). -/
def metaOpen (s : List Char) : Option (List Char) :=
  let r := if s.head? == some '#' then s.tail else s
  litP ['-', '-', '-', 'm', 'e', 't', 'a'] (ws0 r)

/-- `\s*\n` with JS backtracking: the greedy whitespace run must contain a
newline; it is consumed up to and including its last newline. -/
def wsNl (r : List Char) : Option (List Char) :=
  let w := r.takeWhile spaceC
  let k := (w.reverse.takeWhile (fun c => c ≠ '\n')).length
  if k == w.length then none else some (r.drop (w.length - k))

/-- Does `t` begin with the closing `\n#?\s*---` of the Python meta regex? -/
def metaEnd (t : List Char) : Bool :=
  match t with
  | '\n' :: u =>
    let u2 := if u.head? == some '#' then u.tail else u
    begins ['-', '-', '-'] (ws0 u2)
  | _ => false

/-- `([\s\S]*?)` — the lazy body group, grown until `metaEnd` holds. -/
def lazyBody (acc : List Char) : List Char → Option (List Char)
  | [] => none
  | c :: cs => if metaEnd (c :: cs) then some acc.reverse else lazyBody (c :: acc) cs

/-- Leftmost match of the Python meta regex
(hash? ws* `---meta` ws* newline, lazy body, newline hash? ws* `---`):
the captured body. -/
def metaFind : List Char → Option (List Char)
  | [] => none
  | c :: cs =>
    match
      (match metaOpen (c :: cs) with
       | some r =>
         (match wsNl r with
          | some r2 => lazyBody [] r2
          | none => none)
       | none => none)
    with
    | some g => some g
    | none => metaFind cs

/-- `/^(\w+)\s*:\s*(.+)$/` — a key/value line of the meta block. -/
def kvM (cleaned : String) : Option (String × String) :=
  match word1 cleaned.data with
  | none => none
  | some (k, r) =>
    match ws0 r with
    | ':' :: r2 =>
      (match wsStarPlus r2 with
       | some v => some (k.asString, v.asString)
       | none => none)
    | _ => none

/-- The `parseList` of the Python `parseMetaBlock`: strip one pair of
brackets, split on commas, trim, drop empties; a missing or empty value
gives the empty list. -/
def parseListPy (val : Option String) : List String :=
  match val with
  | none => []
  | some v =>
    if v == "" then []
    else
      let a := match v.data with
        | '[' :: t => t
        | t => t
      let b := match a.reverse with
        | ']' :: t => t.reverse
        | _ => a
      ((splitCh ',' b.asString).map jsTrim).filter (fun s => s ≠ "")

/-- `parseMetaBlock` of src/pythonParser.ts. -/
def parseMetaBlock (code : String) : Option MetaBlock :=
  match metaFind code.data with
  | none => none
  | some block =>
    let raw := (splitCh '\n' block.asString).foldl
      (fun raw line =>
        let cleaned :=
          match line.data with
          | '#' :: t => (ws0 t).asString
          | _ => line
        match kvM cleaned with
        | some (k, v) => setKey raw k (jsTrim v)
        | none => raw)
      []
    some { name := getKey raw "name"
           type := getKey raw "type"
           desc := getKey raw "desc"
           inputs := some (parseListPy (getKey raw "in"))
           outputs := some (parseListPy (getKey raw "out"))
           deps := some (parseListPy (getKey raw "deps"))
           methods := some (parseListPy (getKey raw "methods"))
           errors := some (parseListPy (getKey raw "errors"))
           raw := raw }

/-- `generateWarnings` of src/pythonParser.ts (always empty by design). -/
def generateWarnings (_meta : Option MetaBlock) (_imports : List ImportInfo)
    (_classes : List ClassInfo) (_functions : List MethodInfo)
    (_connections : List String) : List String := []

/-- The verb table of `describeMethod`. -/
def verbMap : List (String × String) :=
  [("get", "obtiene"), ("find", "busca"), ("search", "busca"),
   ("create", "crea"), ("add", "agrega"), ("insert", "inserta"),
   ("update", "actualiza"), ("edit", "edita"), ("modify", "modifica"),
   ("delete", "elimina"), ("remove", "remueve"), ("destroy", "destruye"),
   ("validate", "valida"), ("check", "verifica"), ("verify", "verifica"),
   ("send", "envía"), ("emit", "emite"), ("notify", "notifica"),
   ("save", "guarda"), ("store", "almacena"), ("persist", "persiste"),
   ("load", "carga"), ("fetch", "obtiene"), ("retrieve", "recupera"),
   ("process", "procesa"), ("handle", "maneja"), ("execute", "ejecuta"),
   ("convert", "convierte"), ("transform", "transforma"), ("parse", "parsea"),
   ("init", "inicializa"), ("setup", "configura"), ("configure", "configura"),
   ("login", "autentica"), ("logout", "cierra sesión"), ("auth", "autentica"),
   ("register", "registra"), ("signup", "registra"),
   ("list", "lista"), ("count", "cuenta"), ("filter", "filtra"),
   ("sort", "ordena"), ("group", "agrupa"), ("merge", "combina"),
   ("export", "exporta"), ("import", "importa"), ("download", "descarga"),
   ("upload", "sube"), ("sync", "sincroniza"), ("refresh", "refresca"),
   ("start", "inicia"), ("stop", "detiene"), ("run", "ejecuta"),
   ("open", "abre"), ("close", "cierra"), ("connect", "conecta"),
   ("disconnect", "desconecta"), ("reset", "reinicia"), ("clear", "limpia"),
   ("set", "establece"), ("enable", "habilita"), ("disable", "deshabilita"),
   ("show", "muestra"), ("hide", "oculta"), ("render", "renderiza"),
   ("build", "construye"), ("generate", "genera"), ("compute", "calcula"),
   ("calculate", "calcula"), ("compare", "compara"), ("format", "formatea"),
   ("log", "registra"), ("track", "rastrea"), ("monitor", "monitorea"),
   ("subscribe", "suscribe"), ("unsubscribe", "desuscribe"), ("publish", "publica"),
   ("map", "mapea"), ("reduce", "reduce"), ("collect", "recolecta"),
   ("assign", "asigna"), ("allocate", "asigna"), ("distribute", "distribuye"),
   ("lock", "bloquea"), ("unlock", "desbloquea"), ("encrypt", "encripta"),
   ("decrypt", "desencripta"), ("hash", "hashea"), ("sign", "firma"),
   ("schedule", "programa"), ("queue", "encola"), ("retry", "reintenta"),
   ("rollback", "revierte"), ("commit", "confirma"), ("migrate", "migra"),
   ("backup", "respalda"), ("restore", "restaura"), ("archive", "archiva"),
   ("test", "prueba"), ("mock", "simula"), ("stub", "simula"),
   ("assert", "verifica"), ("expect", "espera"), ("match", "coincide"),
   ("is", "verifica si es"), ("has", "verifica si tiene"), ("can", "verifica si puede")]

/-- `describeMethod` of src/pythonParser.ts. -/
def describeMethod (m : MethodInfo) : String :=
  let parts := splitCh '_' m.name
  let verb := parts.headD ""
  let subject := String.intercalate " " (parts.drop 1)
  match getKey verbMap (lowerS verb) with
  | some spanishVerb =>
    if subject ≠ "" then
      let retType :=
        if m.returnType ≠ "Any" && m.returnType ≠ "None" then
          " (retorna " ++ m.returnType ++ ")"
        else ""
      spanishVerb ++ " " ++ subject ++ retType
    else ""
  | none => ""

/-- `/Error|Exception/.test(b)` — is the base class name error-like? -/
def errorBase (b : String) : Bool := hasSubS b "Error" || hasSubS b "Exception"

/-- `generateFileDescription` of src/pythonParser.ts. -/
def generateFileDescription (meta : Option MetaBlock) (classes : List ClassInfo)
    (functions : List MethodInfo) (imports : List ImportInfo) (fileName : String) : String :=
  let name :=
    match meta.bind (fun m => m.name) with
    | some n => if n == "" then (if endsL ['.', 'p', 'y'] fileName.data then
        (fileName.data.take (fileName.data.length - 3)).asString else fileName) else n
    | none =>
      if endsL ['.', 'p', 'y'] fileName.data then
        (fileName.data.take (fileName.data.length - 3)).asString
      else fileName
  let ty :=
    match meta.bind (fun m => m.type) with
    | some t => if t == "" then "module" else t
    | none => "module"
  let parts0 : List String :=
    if ty == "service" then
      let mainClass :=
        match classes.find? (fun c => hasSubS (lowerS c.name) "service") with
        | some c => some c
        | none => classes.head?
      match mainClass with
      | some mc =>
        let actions := ((mc.methods.filter fun m =>
          m.name ≠ "__init__" && !m.isPrivate).map describeMethod).filter (fun s => s ≠ "")
        [name ++ " es un servicio que " ++
          (if actions.length > 0 then String.intercalate ", " actions
           else "gestiona operaciones de negocio") ++ "."]
      | none => [name ++ " es un servicio."]
    else if ty == "model" then
      let models := classes.filter fun c => !c.bases.any errorBase
      match models.head? with
      | some m0 =>
        let attrs := String.intercalate ", " (m0.attributes.map (fun a => a.name))
        [name ++ " define el modelo de datos " ++ m0.name ++
          (if attrs ≠ "" then " con atributos: " ++ attrs else "") ++ "."]
      | none => []
    else if ty == "controller" then
      [name ++ " maneja las rutas y peticiones HTTP del recurso."]
    else if ty == "util" then
      let fnNames := String.intercalate ", " (functions.map (fun f => f.name))
      [name ++ " provee funciones utilitarias: " ++ fnNames ++ "."]
    else
      [name ++ " es un módulo que contiene " ++ toString classes.length ++ " clase" ++
        (if classes.length ≠ 1 then "s" else "") ++ " y " ++ toString functions.length ++
        " función" ++ (if functions.length ≠ 1 then "es" else "") ++ "."]
  let externalDeps := (imports.filter fun i => !beginsS i.module ".").map (fun i => i.module)
  let parts1 := parts0 ++
    (if externalDeps.length > 0 then
      ["Depende de: " ++ String.intercalate ", " externalDeps ++ "."]
     else [])
  let asyncMethods :=
    (functions.filter fun f => f.isAsync) ++
    (classes.flatMap fun c => c.methods.filter fun m => m.isAsync)
  let parts2 := parts1 ++
    (if asyncMethods.length > 0 then
      ["Usa operaciones asíncronas (" ++ toString asyncMethods.length ++ " método" ++
        (if asyncMethods.length > 1 then "s" else "") ++ " async)."]
     else [])
  String.intercalate " " parts2

/-- `generateClassDescriptions` of src/pythonParser.ts. -/
def generateClassDescriptions (classes : List ClassInfo) (_imports : List ImportInfo) :
    List (String × String) :=
  classes.foldl
    (fun descs cls =>
      if cls.bases.any errorBase then
        setKey descs cls.name
          (cls.name ++ " es una excepción personalizada que extiende " ++
            String.intercalate ", " cls.bases ++ ".")
      else
        let publicMethods := cls.methods.filter fun m => m.name ≠ "__init__" && !m.isPrivate
        let main :=
          if publicMethods.isEmpty then
            if cls.attributes.length > 0 then
              cls.name ++ " es un modelo de datos con " ++ toString cls.attributes.length ++
                " atributo" ++ (if cls.attributes.length > 1 then "s" else "") ++ ": " ++
                String.intercalate ", " (cls.attributes.map (fun a => a.name)) ++ "."
            else cls.name ++ " es una clase base."
          else
            let actions := (publicMethods.map describeMethod).filter (fun s => s ≠ "")
            cls.name ++ " " ++
              (if actions.length > 0 then String.intercalate ", " actions
               else "contiene " ++ toString publicMethods.length ++ " método" ++
                 (if publicMethods.length > 1 then "s" else "") ++ " público" ++
                 (if publicMethods.length > 1 then "s" else "")) ++ "."
        let withInit :=
          match cls.methods.find? (fun m => m.name == "__init__") with
          | some init =>
            if init.params.length > 0 then
              [main, "Recibe " ++ String.intercalate ", " (init.params.map (fun p => p.name)) ++
                " en su constructor."]
            else [main]
          | none => [main]
        let withBases :=
          if cls.bases.length > 0 && !cls.bases.any errorBase then
            withInit ++ ["Extiende " ++ String.intercalate ", " cls.bases ++ "."]
          else withInit
        setKey descs cls.name (String.intercalate " " withBases))
    []

/-- `parsePythonCode` of src/pythonParser.ts: the indentation-based
extractor assembling the full `FileStats`. -/
def parsePythonCode (code fileName : String) : FileStats :=
  let lines := splitLines code
  let meta := parseMetaBlock code
  let imports := parseImports lines
  let classes := parseClasses lines
  let functions := parseTopLevelFunctions lines
  let globalVars := parseGlobalVars lines
  let errorTypes := parseErrorTypes lines
  let debugPoints := parseDebugPoints lines
  let connections := buildConnections imports lines
  let codeLines := countCodeLines lines
  let warnings := generateWarnings meta imports classes functions connections
  let description :=
    match meta.bind (fun m => m.desc) with
    | some d =>
      if d == "" then generateFileDescription meta classes functions imports fileName else d
    | none => generateFileDescription meta classes functions imports fileName
  let classDescriptions := generateClassDescriptions classes imports
  let hardcoded := detectHardcodedValues lines
  let unused := detectUnusedCode lines imports classes functions
  { fileName := fileName
    language := "python"
    meta := meta
    classes := classes
    functions := functions
    imports := imports
    globalVars := globalVars
    connections := connections
    errorTypes := errorTypes
    debugPoints := debugPoints
    totalLines := lines.length
    codeLines := codeLines
    warnings := warnings
    description := description
    classDescriptions := classDescriptions
    hardcoded := hardcoded
    unused := unused
    diagnostics := []
    depIssues := []
    todos := []
    externalUsage := [] }

end PythonParser

-- ══════════════════════════════════════════════
-- src/parserUtils.ts
-- ══════════════════════════════════════════════

namespace ParserUtils

/-- The opening comment-prefix alternation of the shared meta regex:
hash, double slash, optional-slash star, or HTML comment opener. -/
def metaPreOpen (s : List Char) : Option (List Char) :=
  match litP ['#'] s with
  | some r => some r
  | none =>
    match litP ['/', '/'] s with
    | some r => some r
    | none =>
      match litP ['/', '*'] s with
      | some r => some r
      | none =>
        match litP ['*'] s with
        | some r => some r
        | none => litP ['<', '!', '-', '-'] s

/-- Does `t` begin with the closing part of the shared meta regex
(newline, ws*, one of hash / double slash / star / HTML opener, ws*,
three dashes)? -/
def metaEndU (t : List Char) : Bool :=
  match t with
  | '\n' :: u =>
    let u1 := ws0 u
    let pre :=
      match litP ['#'] u1 with
      | some r => some r
      | none =>
        match litP ['/', '/'] u1 with
        | some r => some r
        | none =>
          match litP ['*'] u1 with
          | some r => some r
          | none => litP ['<', '!', '-', '-'] u1
    match pre with
    | some r => begins ['-', '-', '-'] (ws0 r)
    | none => false
  | _ => false

/-- The lazy body group of the shared meta regex. -/
def lazyBodyU (acc : List Char) : List Char → Option (List Char)
  | [] => none
  | c :: cs => if metaEndU (c :: cs) then some acc.reverse else lazyBodyU (c :: acc) cs

/-- Leftmost match of the shared meta regex: the captured body. -/
def metaFindU : List Char → Option (List Char)
  | [] => none
  | c :: cs =>
    match
      (match metaPreOpen (c :: cs) with
       | some r =>
         (match litP ['-', '-', '-', 'm', 'e', 't', 'a'] (ws0 r) with
          | some r1 =>
            (match PythonParser.wsNl r1 with
             | some r2 => lazyBodyU [] r2
             | none => none)
          | none => none)
       | none => none)
    with
    | some g => some g
    | none => metaFindU cs

/-- `line.replace(/^\s*(?:#|\/\/|\*|<!--)\s*/, '')` — strip one leading
comment prefix (with surrounding whitespace) when present. -/
def stripCommentPre (line : String) : String :=
  let r := ws0 line.data
  let pre :=
    match litP ['#'] r with
    | some x => some x
    | none =>
      match litP ['/', '/'] r with
      | some x => some x
      | none =>
        match litP ['*'] r with
        | some x => some x
        | none => litP ['<', '!', '-', '-'] r
  match pre with
  | some x => (ws0 x).asString
  | none => line

/-- The `parseList` of the shared `parseMetaBlock`: a bracketed value
is split on commas; any other value is a one-element list. -/
def parseListU (s : Option String) : Option (List String) :=
  match s with
  | none => none
  | some v =>
    if v == "" then none
    else
      let d := v.data
      let pre := d.takeWhile (fun c => c ≠ '[')
      if pre.length == d.length then some [v]
      else
        let inside := d.drop (pre.length + 1)
        let revRun := inside.reverse.takeWhile (fun c => c ≠ ']')
        if revRun.length == inside.length then some [v]
        else
          let content := (inside.take (inside.length - revRun.length - 1))
          if content.isEmpty then some [v]
          else some ((splitCh ',' content.asString).map jsTrim)

/-- `parseMetaBlock` of src/parserUtils.ts. -/
def parseMetaBlock (code : String) : Option MetaBlock :=
  match metaFindU code.data with
  | none => none
  | some block =>
    let raw := (splitCh '\n' block.asString).foldl
      (fun raw line =>
        let clean := jsTrim (stripCommentPre line)
        let sep := (clean.data.takeWhile (fun c => c ≠ ':')).length
        if sep > 0 && sep < clean.data.length then
          let key := jsTrim (clean.data.take sep).asString
          let val := jsTrim (clean.data.drop (sep + 1)).asString
          setKey raw key val
        else raw)
      []
    some { name := getKey raw "name"
           type := getKey raw "type"
           desc := getKey raw "desc"
           inputs := parseListU (getKey raw "in")
           outputs := parseListU (getKey raw "out")
           deps := parseListU (getKey raw "deps")
           methods := parseListU (getKey raw "methods")
           errors := parseListU (getKey raw "errors")
           raw := raw }

/-- The credential identifier alternatives of the shared scanner
(`detectHardcoded`); this list also accepts `auth`. -/
def credAltsU : List String :=
  ["password", "secret", "key", "token", "api_key", "apikey", "passwd",
   "credential", "auth"]

/-- A quote of the shared scanner: double quote, single quote or backtick. -/
def quoteU (c : Char) : Bool := c == '"' || c == sqC || c == btC

/-- `\s*[:=]\s*["'`][^"'`]+["'`]` — the tail of the shared credential
pattern. -/
def credTailU (r : List Char) : Option (List Char) :=
  match ws0 r with
  | c :: r2 =>
    if c == ':' || c == '=' then
      match ws0 r2 with
      | q :: r4 =>
        if quoteU q then
          let content := r4.takeWhile (fun x => !quoteU x)
          if content.isEmpty then none
          else
            match r4.drop content.length with
            | q2 :: r5 => if quoteU q2 then some r5 else none
            | [] => none
        else none
      | [] => none
    else none
  | [] => none

/-- The shared credential search (`credRe` of src/parserUtils.ts). -/
def credMU (line : String) : Option String :=
  go line.data
where
  goAlts (s : List Char) : List String → Option (List Char)
    | [] => none
    | a :: rest =>
      match litCIP a.data s with
      | some r =>
        (match credTailU r with
         | some r2 => some r2
         | none => goAlts s rest)
      | none => goAlts s rest
  go : List Char → Option String
    | [] => none
    | c :: cs =>
      match goAlts (c :: cs) credAltsU with
      | some r2 => some (matchedPart (c :: cs) r2).asString
      | none => go cs

/-- The shared URL search: `[^\s"'`]+` also stops at a backtick. -/
def urlMU (line : String) : Option String :=
  go line.data
where
  at1 (s : List Char) : Option String :=
    match litP ['h', 't', 't', 'p'] s with
    | none => none
    | some r =>
      let r2opt :=
        if begins ['s', ':', '/', '/'] r then some (r.drop 4)
        else match litP [':', '/', '/'] r with
          | some x => some x
          | none => none
      match r2opt with
      | none => none
      | some r2 =>
        let run := r2.takeWhile (fun c => !(spaceC c || quoteU c))
        if run.isEmpty then none
        else some (matchedPart s (r2.drop run.length)).asString
  go : List Char → Option String
    | [] => none
    | c :: cs =>
      match at1 (c :: cs) with
      | some v => some v
      | none => go cs

/-- `/(?:port)\s*[:=]\s*\d+/i` test of the shared scanner. -/
def portTU (line : String) : Bool :=
  go line.data
where
  at1 (s : List Char) : Bool :=
    match litCIP ['p', 'o', 'r', 't'] s with
    | none => false
    | some r =>
      match ws0 r with
      | c :: r2 =>
        if c == ':' || c == '=' then
          match (ws0 r2).head? with
          | some d => d.isDigit
          | none => false
        else false
      | [] => false
  go : List Char → Bool
    | [] => false
    | c :: cs => at1 (c :: cs) || go cs

/-- `/[:=]\s*(\d+)/` searched anywhere (shared scanner port value). -/
def eqNumMU (line : String) : Option String :=
  go line.data
where
  at1 (s : List Char) : Option String :=
    match s with
    | c :: r =>
      if c == ':' || c == '=' then
        match digits1 (ws0 r) with
        | some (d, _) => some d.asString
        | none => none
      else none
    | [] => none
  go : List Char → Option String
    | [] => none
    | c :: cs =>
      match at1 (c :: cs) with
      | some v => some v
      | none => go cs

/-- `trimmed.split(/[:=]/)[0].trim().slice(0, 30)` — the shared context. -/
def ctxU (trimmed : String) : String :=
  ((jsTrim (trimmed.data.takeWhile (fun c => !(c == ':' || c == '='))).asString).data.take
    30).asString

/-- The findings contributed by one line of the shared `detectHardcoded`
(src/parserUtils.ts): credential (with early continue), then URL, then IP
(only without a URL), then port number; no path or string rule exists
here. -/
def hardLineU (i : Nat) (line : String) (cMark : String) : List HardcodedValue :=
  let trimmed := jsTrim line
  if trimmed == "" || beginsS trimmed cMark || beginsS trimmed "#" then []
  else if hasSubS trimmed "---meta" || hasSubS trimmed "---" then []
  else if ["import ", "from ", "use ", "require", "include"].any (beginsS trimmed) then []
  else
    let ctx := ctxU trimmed
    match credMU line with
    | some v => [{ value := v, type := .credential, lineNumber := i + 1, context := ctx }]
    | none =>
      let url := urlMU line
      let r1 :=
        match url with
        | some v => [{ value := v, type := HKind.url, lineNumber := i + 1, context := ctx }]
        | none => []
      let r2 :=
        match PythonParser.ipM line, url with
        | some v, none =>
          r1 ++ [{ value := v, type := HKind.ip, lineNumber := i + 1, context := ctx }]
        | _, _ => r1
      if portTU line then
        match eqNumMU line with
        | some v => r2 ++ [{ value := v, type := HKind.number, lineNumber := i + 1, context := "port" }]
        | none => r2
      else r2

/-- `detectHardcoded` of src/parserUtils.ts (`cMark` is the
`commentPrefix` parameter of the source). -/
def detectHardcoded (lines : List String) (cMark : String) : List HardcodedValue :=
  (List.range lines.length).flatMap fun i =>
    match lines.get? i with
    | some l => hardLineU i l cMark
    | none => []

/-- The `typingNames` allow-list of the shared `detectUnused` (the Python
typing names plus React-style type names). -/
def typingNames : List String :=
  ["Dict", "List", "Set", "Tuple", "Optional", "Union", "Any", "Type",
   "Callable", "Iterator", "Generator", "Sequence", "Mapping", "Iterable",
   "ClassVar", "Final", "Literal", "TypeVar", "Generic", "Protocol",
   "Awaitable", "Coroutine", "AsyncIterator", "AsyncGenerator",
   "NamedTuple", "TypedDict", "Annotated", "TypeAlias", "Self",
   "FC", "ReactNode", "PropsWithChildren", "ComponentType",
   "CSSProperties", "MouseEvent", "ChangeEvent", "FormEvent"]

/-- Remove every single-line block comment (the replace of
`detectUnused` for slash-star regions, lazy close, removed entirely).
Fuel as in `stripTripleF`. -/
def stripBlockCmtF : Nat → List Char → List Char
  | 0, s => s
  | _ + 1, [] => []
  | fuel + 1, c :: cs =>
    if begins ['/', '*'] (c :: cs) then
      match findAfter ['*', '/'] ((c :: cs).drop 2) with
      | some after => stripBlockCmtF fuel after
      | none => c :: stripBlockCmtF fuel cs
    else c :: stripBlockCmtF fuel cs

/-- `stripBlockCmtF` with its sufficient fuel. -/
def stripBlockCmt (s : List Char) : List Char := stripBlockCmtF s.length s

/-- One line of the comment/string strip of the shared `detectUnused`
(src/parserUtils.ts): double-slash comments, hash comments, single-line
block comments, then double-quoted, single-quoted and backtick literals. -/
def uStripLine (l : String) : String :=
  (stripQuote btC
    (stripQuote sqC
      (stripQuote '"'
        (stripBlockCmt
          (cutFrom ['#']
            (cutFrom ['/', '/'] l.data)))))).asString

/-- `\s+\w+` — whitespace then a word, returning the rest. -/
def wsWordTail (r : List Char) : Option (List Char) :=
  match ws1 r with
  | none => none
  | some r1 =>
    match word1 r1 with
    | some (_, r2) => some r2
    | none => none

theorem wsWordTail_len (r r2 : List Char) (h : wsWordTail r = some r2) :
    r2.length < r.length := by
  unfold wsWordTail at h
  cases h1 : ws1 r with
  | none => rw [h1] at h; simp at h
  | some r1 =>
    rw [h1] at h
    dsimp only at h
    cases h2 : word1 r1 with
    | none => rw [h2] at h; simp at h
    | some wr =>
      rw [h2] at h
      simp at h
      have l1 := ws1_len _ _ h1
      have l2 := word1_len r1 wr.1 wr.2 (by rw [h2])
      subst h
      omega

/-- The pattern `(?:def|function|async function)\s+\w+` at the head of the
text: the rest after the match (alternatives tried in source order). -/
def jsDefM? (s : List Char) : Option (List Char) :=
  match litP ['d', 'e', 'f'] s with
  | some r =>
    (match wsWordTail r with
     | some r2 => some r2
     | none => altRest s)
  | none => altRest s
where
  altRest (s : List Char) : Option (List Char) :=
    match litP ['f', 'u', 'n', 'c', 't', 'i', 'o', 'n'] s with
    | some r3 =>
      (match wsWordTail r3 with
       | some r4 => some r4
       | none => altLast s)
    | none => altLast s
  altLast (s : List Char) : Option (List Char) :=
    match litP ['a', 's', 'y', 'n', 'c', ' ', 'f', 'u', 'n', 'c', 't', 'i', 'o', 'n'] s with
    | some r5 => wsWordTail r5
    | none => none

theorem jsDefM?_altLast_len (s r : List Char) (h : jsDefM?.altLast s = some r) :
    r.length < s.length := by
  unfold jsDefM?.altLast at h
  cases h1 : litP ['a', 's', 'y', 'n', 'c', ' ', 'f', 'u', 'n', 'c', 't', 'i', 'o', 'n'] s with
  | none => rw [h1] at h; simp at h
  | some r5 =>
    rw [h1] at h
    dsimp only at h
    have l1 := litP_len _ _ _ h1
    have l2 := wsWordTail_len _ _ h
    omega

theorem jsDefM?_altRest_len (s r : List Char) (h : jsDefM?.altRest s = some r) :
    r.length < s.length := by
  unfold jsDefM?.altRest at h
  cases h1 : litP ['f', 'u', 'n', 'c', 't', 'i', 'o', 'n'] s with
  | none =>
    rw [h1] at h
    exact jsDefM?_altLast_len s r h
  | some r3 =>
    rw [h1] at h
    dsimp only at h
    cases h2 : wsWordTail r3 with
    | none =>
      rw [h2] at h
      simp at h
      exact jsDefM?_altLast_len s r h
    | some r4 =>
      rw [h2] at h
      simp at h
      have l1 := litP_len _ _ _ h1
      have l2 := wsWordTail_len _ _ h2
      subst h
      omega

theorem jsDefM?_len (s r : List Char) (h : jsDefM? s = some r) : r.length < s.length := by
  unfold jsDefM? at h
  cases h1 : litP ['d', 'e', 'f'] s with
  | none =>
    rw [h1] at h
    exact jsDefM?_altRest_len s r h
  | some r0 =>
    rw [h1] at h
    dsimp only at h
    cases h2 : wsWordTail r0 with
    | none =>
      rw [h2] at h
      simp at h
      exact jsDefM?_altRest_len s r h
    | some r2 =>
      rw [h2] at h
      simp at h
      have l1 := litP_len _ _ _ h1
      have l2 := wsWordTail_len _ _ h2
      subst h
      omega

/-- Remove every `def`/`function`/`async function` plus name occurrence
(the defsRemoved replace of the shared `detectUnused`).  Fuel as in
`stripTripleF`. -/
def stripJsDefsLF : Nat → List Char → List Char
  | 0, s => s
  | _ + 1, [] => []
  | fuel + 1, c :: cs =>
    match jsDefM? (c :: cs) with
    | some rest => stripJsDefsLF fuel rest
    | none => c :: stripJsDefsLF fuel cs

/-- `stripJsDefsLF` with its sufficient fuel. -/
def stripJsDefsL (s : List Char) : List Char := stripJsDefsLF s.length s

/-- String form of `stripJsDefsL`. -/
def stripJsDefs (text : String) : String := (stripJsDefsL text.data).asString

/-- `detectUnused` of src/parserUtils.ts (`cMark` is the `commentPrefix`
parameter of the source; it is unused by the body, as in the source). -/
def detectUnused (lines : List String) (imports : List ImportInfo)
    (classes : List ClassInfo) (functions : List MethodInfo) (_cMark : String) :
    List UnusedItem :=
  let importLineSet := imports.map fun imp => imp.lineNumber - 1
  let codeOnly := String.intercalate "\n"
    (lines.mapIdx fun idx l => if importLineSet.contains idx then "" else uStripLine l)
  let unusedImports := imports.flatMap fun imp =>
    imp.names.filterMap fun name =>
      if name == "*" || name.length ≤ 1 then none
      else if beginsS imp.module "typing" || imp.module == "types" ||
              beginsS imp.module "collections.abc" || typingNames.contains name then none
      else if wordOccursS name codeOnly then none
      else some { name := name, kind := UKind.uimport, lineNumber := imp.lineNumber }
  let allMethods :=
    functions.map (fun f => (f.name, f.lineNumber)) ++
    classes.flatMap fun c =>
      (c.methods.filter fun m =>
        m.name ≠ "__init__" && m.name ≠ "constructor" && m.name ≠ "__construct" &&
        !beginsS m.name "__").map fun m => (m.name, m.lineNumber)
  let unusedMethods := allMethods.filterMap fun nl =>
    let linesWithout := String.intercalate "\n" (lines.eraseIdx (nl.2 - 1))
    if callOccursS ["self.", "this.", "$this->"] nl.1 linesWithout then none
    else if wordOccursS nl.1 (stripJsDefs linesWithout) then none
    else some { name := nl.1, kind := UKind.umethod, lineNumber := nl.2 }
  unusedImports ++ unusedMethods

/-- `fileName.replace(/\.\w+$/, '')` — drop a trailing dot-extension. -/
def dropExt (fileName : String) : String :=
  let rev := fileName.data.reverse
  let run := rev.takeWhile wordC
  if !run.isEmpty && (rev.drop run.length).head? == some '.' then
    (fileName.data.take (fileName.data.length - run.length - 1)).asString
  else fileName

/-- `genFileDesc` of src/parserUtils.ts. -/
def genFileDesc (meta : Option MetaBlock) (classes : List ClassInfo)
    (functions : List MethodInfo) (imports : List ImportInfo) (fileName : String) : String :=
  let name :=
    match meta.bind (fun m => m.name) with
    | some n => if n == "" then dropExt fileName else n
    | none => dropExt fileName
  let ty :=
    match meta.bind (fun m => m.type) with
    | some t => if t == "" then "module" else t
    | none => "module"
  let parts0 : List String :=
    if ty == "service" || ty == "controller" then
      match classes.head? with
      | some main =>
        let actions := main.methods.filter fun m =>
          !m.isPrivate && m.name ≠ "__init__" && m.name ≠ "constructor" && m.name ≠ "__construct"
        [name ++ " contiene " ++ toString actions.length ++ " método" ++
          (if actions.length ≠ 1 then "s" else "") ++ " público" ++
          (if actions.length ≠ 1 then "s" else "") ++ "."]
      | none => []
    else
      [name ++ " contiene " ++ toString classes.length ++ " clase" ++
        (if classes.length ≠ 1 then "s" else "") ++ " y " ++ toString functions.length ++
        " función" ++ (if functions.length ≠ 1 then "es" else "") ++ "."]
  let ext := (imports.filter fun i => !beginsS i.module ".").map (fun i => i.module)
  let parts1 := parts0 ++
    (if ext.length > 0 then
      ["Deps: " ++ String.intercalate ", " (ext.take 5) ++
        (if ext.length > 5 then "..." else "") ++ "."]
     else [])
  let asyncM :=
    (functions.filter fun f => f.isAsync) ++
    (classes.flatMap fun c => c.methods.filter fun m => m.isAsync)
  let parts2 := parts1 ++
    (if asyncM.length > 0 then
      [toString asyncM.length ++ " método" ++ (if asyncM.length > 1 then "s" else "") ++
        " async."]
     else [])
  String.intercalate " " parts2

/-- `genClassDescs` of src/parserUtils.ts. -/
def genClassDescs (classes : List ClassInfo) (_imports : List ImportInfo) :
    List (String × String) :=
  classes.foldl
    (fun d c =>
      let pub := c.methods.filter fun m =>
        !m.isPrivate && m.name ≠ "__init__" && m.name ≠ "constructor" && m.name ≠ "__construct"
      let desc :=
        if c.bases.any PythonParser.errorBase then
          c.name ++ " es una excepción que extiende " ++ String.intercalate ", " c.bases ++ "."
        else if pub.isEmpty && c.attributes.length > 0 then
          c.name ++ " es un modelo con " ++ toString c.attributes.length ++ " atributo" ++
            (if c.attributes.length > 1 then "s" else "") ++ ": " ++
            String.intercalate ", " (c.attributes.map (fun a => a.name)) ++ "."
        else
          c.name ++ " tiene " ++ toString pub.length ++ " método" ++
            (if pub.length ≠ 1 then "s" else "") ++ " público" ++
            (if pub.length ≠ 1 then "s" else "") ++
            (if c.bases.length ≠ 0 then ". Extiende " ++ String.intercalate ", " c.bases
             else "") ++ "."
      setKey d c.name desc)
    []

end ParserUtils

/-- Ordered choice over a list of candidates (regex backtracking:
first candidate whose continuation succeeds wins). -/
def firstSome {α β : Type} : List α → (α → Option β) → Option β
  | [], _ => none
  | x :: xs, f =>
    match f x with
    | some b => some b
    | none => firstSome xs f

-- ══════════════════════════════════════════════
-- src/jsParser.ts (src/unnamed/part_000)
-- ══════════════════════════════════════════════

namespace JsParser

/-- One iteration of `(?:(?:static|public|private|protected|readonly)\s+)*`:
a modifier keyword followed by whitespace. -/
def modStep (s : List Char) : Option (List Char) :=
  firstSome ["static", "public", "private", "protected", "readonly"] fun m =>
    match litP m.data s with
    | some r => ws1 r
    | none => none

theorem firstSome_pred {α β : Type} (P : β → Prop) (l : List α) (f : α → Option β)
    (hf : ∀ a b, f a = some b → P b) (b : β) (h : firstSome l f = some b) : P b := by
  induction l with
  | nil => simp [firstSome] at h
  | cons x xs ih =>
    simp only [firstSome] at h
    cases h2 : f x with
    | some y => rw [h2] at h; simp at h; subst h; exact hf x y h2
    | none => rw [h2] at h; exact ih h

theorem modAlt_len (m s r : List Char)
    (h : (match litP m s with | some x => ws1 x | none => none) = some r) :
    r.length < s.length := by
  cases h1 : litP m s with
  | none => rw [h1] at h; simp at h
  | some x =>
    rw [h1] at h
    dsimp only at h
    have l1 := litP_len _ _ _ h1
    have l2 := ws1_len _ _ h
    omega

theorem modStep_len (s r : List Char) (h : modStep s = some r) : r.length < s.length := by
  unfold modStep at h
  exact firstSome_pred (fun r => r.length < s.length) _ _
    (fun m r2 hm => modAlt_len m.data s r2 hm) r h

/-- The possible suffixes after the greedy modifier star, most-consumed
first (JS backtracking order).  Fuel as in `stripTripleF`. -/
def modRemsF : Nat → List Char → List (List Char)
  | 0, s => [s]
  | fuel + 1, s =>
    match modStep s with
    | some r => modRemsF fuel r ++ [s]
    | none => [s]

/-- `modRemsF` with its sufficient fuel. -/
def modRems (s : List Char) : List (List Char) := modRemsF s.length s

/-- The `(async\s+)?` suffix options: first with the group, then without. -/
def asyncRems (s : List Char) : List (Bool × List Char) :=
  match litP ['a', 's', 'y', 'n', 'c'] s with
  | some r =>
    (match ws1 r with
     | some r2 => [(true, r2), (false, s)]
     | none => [(false, s)])
  | none => [(false, s)]

/-- The `(?:get\s+|set\s+)?` suffix options in backtracking order. -/
def gsRems (s : List Char) : List (List Char) :=
  (match litP ['g', 'e', 't'] s with
   | some r =>
     (match ws1 r with
      | some r2 => [r2]
      | none => [])
   | none => []) ++
  (match litP ['s', 'e', 't'] s with
   | some r =>
     (match ws1 r with
      | some r2 => [r2]
      | none => [])
   | none => []) ++
  [s]

/-- `(\w+)\s*(?:<[^>]*>)?\s*\(([^)]*)\)(?:\s*:\s*([^\s{]+))?` — the
deterministic core of the class-method regex:
returns (name, params, return type). -/
def coreM (s : List Char) : Option (String × String × Option String) :=
  match word1 s with
  | none => none
  | some (name, r) =>
    let r1 := ws0 r
    let r2opt :=
      match r1 with
      | '<' :: rr =>
        let inner := rr.takeWhile (fun c => c ≠ '>')
        (match rr.drop inner.length with
         | '>' :: r3 => some (ws0 r3)
         | _ => none)
      | _ => some r1
    match r2opt with
    | none => none
    | some r2 =>
      match r2 with
      | '(' :: r3 =>
        let params := r3.takeWhile (fun c => c ≠ ')')
        (match r3.drop params.length with
         | ')' :: r4 =>
           let ret :=
             match ws0 r4 with
             | ':' :: r5 =>
               let run := (ws0 r5).takeWhile (fun c => !(spaceC c || c == '{'))
               if run.isEmpty then none else some run.asString
             | _ => none
           some (name.asString, params.asString, ret)
         | _ => none)
      | _ => none

/-- The full class-method regex of `parseJsClassMethods`
(src/unnamed/part_000 line 78): leading whitespace required, then
modifiers, optional `async`, optional `get`/`set`, then the core;
returns (isAsync, name, params, return type). -/
def methodM (line : String) : Option (Bool × String × String × Option String) :=
  match ws1 line.data with
  | none => none
  | some r =>
    firstSome (modRems r) fun mrem =>
      firstSome (asyncRems mrem) fun ar =>
        firstSome (gsRems ar.2) fun grem =>
          match coreM grem with
          | some (n, p, ret) => some (ar.1, n, p, ret)
          | none => none

/-- Per-line brace scan of the brace-based extractors: fold the depth
counter and the started flag over the characters of a line. -/
def braceScan (l : List Char) (d : Int) (started : Bool) : Int × Bool :=
  l.foldl
    (fun st ch =>
      if ch == '{' then (st.1 + 1, true)
      else if ch == '}' then (st.1 - 1, st.2)
      else st)
    (d, started)

/-- The branch keywords of `countJsBranches`
(`/^(if|else if|else|for|while|switch|case)\b/`). -/
def branchKwJs (t : String) : Bool :=
  ["if", "else if", "else", "for", "while", "switch", "case"].any fun kw =>
    begins kw.data t.data &&
    (match (t.data.drop kw.length).head? with
     | some c => !wordC c
     | none => true)

/-- `countJsBranches` of src/unnamed/part_000: brace-span walk from the
callable header counting branch keywords and ternaries; the span ends on
the line where the running depth returns to zero after having started. -/
def countJsBranchesAux (lines : List String) : Nat → Nat → Nat → Int → Bool → Nat
  | 0, _, b, _, _ => b
  | fuel + 1, i, b, d, started =>
    match lines.get? i with
    | none => b
    | some l =>
      let (d2, s2) := braceScan l.data d started
      if s2 && d2 ≤ 0 then b
      else
        let t := jsTrim l
        let b1 := if branchKwJs t then b + 1 else b
        let b2 := if hasSubS t "?" && hasSubS t ":" then b1 + 1 else b1
        countJsBranchesAux lines fuel (i + 1) b2 d2 s2

/-- `countJsBranches` of src/unnamed/part_000. -/
def countJsBranches (lines : List String) (start : Nat) : Nat :=
  countJsBranchesAux lines lines.length start 0 0 false

/-- `collectJsDecorators` of src/unnamed/part_000 (same walk as the Python
one). -/
def collectJsDecorators (lines : List String) (idx : Nat) : List String :=
  go idx []
where
  go : Nat → List String → List String
    | 0, acc => acc
    | j + 1, acc =>
      let p := jsTrim (lines.getD j "")
      if beginsS p "@" then go j (p :: acc)
      else if p == "" then go j acc
      else acc

/-- `splitJsParams` of src/unnamed/part_000: split on commas at zero
nesting depth (parens, braces, brackets and angle brackets all count). -/
def splitJsParamsAux : List Char → Int → List Char → List String
  | [], _, cur => if (trimL cur).isEmpty then [] else [cur.asString]
  | ch :: rest, d, cur =>
    let d1 := if ch == '(' || ch == '{' || ch == '[' || ch == '<' then d + 1 else d
    let d2 := if ch == ')' || ch == '}' || ch == ']' || ch == '>' then d1 - 1 else d1
    if ch == ',' && d2 == 0 then cur.asString :: splitJsParamsAux rest d2 []
    else splitJsParamsAux rest d2 (cur ++ [ch])

/-- `splitJsParams` of src/unnamed/part_000. -/
def splitJsParams (s : String) : List String := splitJsParamsAux s.data 0 []

/-- `parseJsParams` of src/unnamed/part_000. -/
def parseJsParams (s : String) : List PortInfo :=
  if jsTrim s == "" then []
  else
    (splitJsParams s).filterMap fun part =>
      let t := jsTrim part
      if t == "" then none
      else
        let eqPre := t.data.takeWhile (fun c => c ≠ '=')
        let (name0, def?) :=
          if eqPre.length == t.data.length then (t, none)
          else (jsTrim eqPre.asString, some (jsTrim (t.data.drop (eqPre.length + 1)).asString))
        let colPre := name0.data.takeWhile (fun c => c ≠ ':')
        let (name1, ty) :=
          if colPre.length == name0.data.length then (name0, "any")
          else (jsTrim colPre.asString, jsTrim (name0.data.drop (colPre.length + 1)).asString)
        -- name.replace(/^\.\.\.|[?]$/g, '') : leading spread marker and a
        -- trailing question mark are both removed (global alternation)
        let n1 :=
          if begins ['.', '.', '.'] name1.data then name1.data.drop 3 else name1.data
        let n2 :=
          match n1.reverse with
          | '?' :: rest => rest.reverse
          | _ => n1
        if n2.isEmpty then none
        else some { name := n2.asString, type := ty, default := def? }

/-- A JS string-literal quote of the import patterns: `['"]`. -/
def impQ (c : Char) : Bool := c == '"' || c == sqC

/-- `{([^}]+)}` or `(\w+)` — the names alternative of the import patterns:
returns (brace-group?, word?), mirroring the two capture groups. -/
def namesAlt (s : List Char) : Option (Option String × Option String × List Char) :=
  match s with
  | '{' :: r =>
    let inner := r.takeWhile (fun c => c ≠ '}')
    if inner.isEmpty then none
    else
      (match r.drop inner.length with
       | '}' :: r2 => some (some inner.asString, none, r2)
       | _ => none)
  | _ =>
    match word1 s with
    | some (w, r) => some (none, some w.asString, r)
    | none => none

/-- `/^import\s+(?:\{([^}]+)\}|(\w+))\s+from\s+['"]([^'"]+)['"]/`. -/
def im1M (l : String) : Option (Option String × Option String × String) :=
  match litP ['i', 'm', 'p', 'o', 'r', 't'] l.data with
  | none => none
  | some r =>
    match ws1 r with
    | none => none
    | some r1 =>
      match namesAlt r1 with
      | none => none
      | some (g1, g2, r2) =>
        match ws1 r2 with
        | none => none
        | some r3 =>
          match litP ['f', 'r', 'o', 'm'] r3 with
          | none => none
          | some r4 =>
            match ws1 r4 with
            | none => none
            | some r5 =>
              match r5 with
              | q :: r6 =>
                if impQ q then
                  let m := r6.takeWhile (fun c => !impQ c)
                  if m.isEmpty then none
                  else
                    match r6.drop m.length with
                    | q2 :: _ => if impQ q2 then some (g1, g2, m.asString) else none
                    | [] => none
                else none
              | [] => none

/-- `/^import\s+\*\s+as\s+(\w+)\s+from\s+['"]([^'"]+)['"]/`. -/
def im2M (l : String) : Option (String × String) :=
  match litP ['i', 'm', 'p', 'o', 'r', 't'] l.data with
  | none => none
  | some r =>
    match ws1 r with
    | none => none
    | some r1 =>
      match r1 with
      | '*' :: r2 =>
        (match ws1 r2 with
         | none => none
         | some r3 =>
           match litP ['a', 's'] r3 with
           | none => none
           | some r4 =>
             match ws1 r4 with
             | none => none
             | some r5 =>
               match word1 r5 with
               | none => none
               | some (w, r6) =>
                 match ws1 r6 with
                 | none => none
                 | some r7 =>
                   match litP ['f', 'r', 'o', 'm'] r7 with
                   | none => none
                   | some r8 =>
                     match ws1 r8 with
                     | none => none
                     | some r9 =>
                       match r9 with
                       | q :: r10 =>
                         if impQ q then
                           let m := r10.takeWhile (fun c => !impQ c)
                           if m.isEmpty then none
                           else
                             match r10.drop m.length with
                             | q2 :: _ =>
                               if impQ q2 then some (w.asString, m.asString) else none
                             | [] => none
                         else none
                       | [] => none)
      | _ => none

/-- `(?:const|let|var)\s+(?:\{([^}]+)\}|(\w+))\s*=\s*require\s*\(\s*['"]([^'"]+)['"]`
searched anywhere in the line. -/
def im3M (l : String) : Option (Option String × Option String × String) :=
  go l.data
where
  at1 (s : List Char) : Option (Option String × Option String × String) :=
    match firstSome [['c', 'o', 'n', 's', 't'], ['l', 'e', 't'], ['v', 'a', 'r']]
      (fun kw => match litP kw s with
        | some r => ws1 r
        | none => none) with
    | none => none
    | some r1 =>
      match namesAlt r1 with
      | none => none
      | some (g1, g2, r2) =>
        match ws0 r2 with
        | '=' :: r3 =>
          (match litP ['r', 'e', 'q', 'u', 'i', 'r', 'e'] (ws0 r3) with
           | none => none
           | some r4 =>
             match ws0 r4 with
             | '(' :: r5 =>
               (match ws0 r5 with
                | q :: r6 =>
                  if impQ q then
                    let m := r6.takeWhile (fun c => !impQ c)
                    if m.isEmpty then none
                    else
                      match r6.drop m.length with
                      | q2 :: _ => if impQ q2 then some (g1, g2, m.asString) else none
                      | [] => none
                  else none
                | [] => none)
             | _ => none)
        | _ => none
  go : List Char → Option (Option String × Option String × String)
    | [] => none
    | c :: cs =>
      match at1 (c :: cs) with
      | some x => some x
      | none => go cs

/-- `parseJsImports` of src/unnamed/part_000. -/
def parseJsImports (lines : List String) : List ImportInfo :=
  (List.range lines.length).flatMap fun i =>
    match lines.get? i with
    | none => []
    | some raw =>
      let l := jsTrim raw
      match im1M l with
      | some (g1, g2, m) =>
        let names :=
          match g1 with
          | some inner =>
            ((splitCh ',' inner).map
              (fun n => jsTrim (PythonParser.splitAsHead (jsTrim n)))).filter (fun n => n ≠ "")
          | none => [g2.getD ""]
        [{ module := m, names := names, isFrom := true, lineNumber := i + 1 }]
      | none =>
        match im2M l with
        | some (w, m) => [{ module := m, names := [w], isFrom := true, lineNumber := i + 1 }]
        | none =>
          match im3M l with
          | some (g1, g2, m) =>
            let names :=
              match g1 with
              | some inner => ((splitCh ',' inner).map jsTrim).filter (fun n => n ≠ "")
              | none => [g2.getD ""]
            [{ module := m, names := names, isFrom := false, lineNumber := i + 1 }]
          | none => []

/-- `/^(?:export\s+)?class\s+(\w+)(?:\s+extends\s+([\w.]+))?\s*\{/`:
returns (name, optional base). -/
def classJsM (line : String) : Option (String × Option String) :=
  let r0 := line.data
  let r1 :=
    match litP ['e', 'x', 'p', 'o', 'r', 't'] r0 with
    | some re =>
      (match ws1 re with
       | some x => x
       | none => r0)
    | none => r0
  match litP ['c', 'l', 'a', 's', 's'] r1 with
  | none => none
  | some r2 =>
    match ws1 r2 with
    | none => none
    | some r3 =>
      match word1 r3 with
      | none => none
      | some (name, r4) =>
        let withExt : Option (String × Option String) :=
          match ws1 r4 with
          | some r5 =>
            (match litP ['e', 'x', 't', 'e', 'n', 'd', 's'] r5 with
             | some r6 =>
               (match ws1 r6 with
                | some r7 =>
                  let run := r7.takeWhile (fun c => wordC c || c == '.')
                  if run.isEmpty then none
                  else if (ws0 (r7.drop run.length)).head? == some '{' then
                    some (name.asString, some run.asString)
                  else none
                | none => none)
             | none => none)
          | none => none
        match withExt with
        | some x => some x
        | none =>
          if (ws0 r4).head? == some '{' then some (name.asString, none) else none

/-- The excluded method-name keywords of `parseJsClassMethods`. -/
def mKwExcl (n : String) : Bool :=
  n == "if" || n == "for" || n == "while" || n == "switch"

/-- The scan loop of `parseJsClassMethods` (src/unnamed/part_000): walk the
class body tracking brace depth; a matching method line that is not a
control keyword is recorded. -/
def parseJsClassMethodsAux (lines : List String) (classLine : Nat) :
    Nat → Nat → Int → Bool → List MethodInfo
  | 0, _, _, _ => []
  | fuel + 1, i, d, started =>
    match lines.get? i with
    | none => []
    | some l =>
      let (d2, s2) := braceScan l.data d started
      if s2 && d2 ≤ 0 then []
      else if i == classLine then parseJsClassMethodsAux lines classLine fuel (i + 1) d2 s2
      else
        let rest := parseJsClassMethodsAux lines classLine fuel (i + 1) d2 s2
        match methodM l with
        | some (isAsync, name, params, ret) =>
          if !mKwExcl name then
            { name := name
              params := parseJsParams params
              returnType := ret.getD "any"
              decorators := collectJsDecorators lines i
              lineNumber := i + 1
              isAsync := isAsync
              isPrivate := hasSubS l "private" || beginsS name "_" || beginsS name "#"
              complexity := countJsBranches lines i } :: rest
          else rest
        | none => rest

/-- `parseJsClassMethods` of src/unnamed/part_000. -/
def parseJsClassMethods (lines : List String) (classLine : Nat) : List MethodInfo :=
  parseJsClassMethodsAux lines classLine lines.length classLine 0 false

/-- `/this\.(\w+)\s*=\s*/` searched anywhere. -/
def thisAttrM (line : String) : Option String :=
  go line.data
where
  at1 (s : List Char) : Option String :=
    match litP ['t', 'h', 'i', 's', '.'] s with
    | none => none
    | some r =>
      match word1 r with
      | none => none
      | some (w, r2) =>
        if (ws0 r2).head? == some '=' then some w.asString else none
  go : List Char → Option String
    | [] => none
    | c :: cs =>
      match at1 (c :: cs) with
      | some x => some x
      | none => go cs

/-- One step of `(?:public|private|protected|readonly|\s)*`: a visibility
keyword or a single whitespace character. -/
def cfStep (s : List Char) : Option (List Char) :=
  match firstSome [['p', 'u', 'b', 'l', 'i', 'c'], ['p', 'r', 'i', 'v', 'a', 't', 'e'],
      ['p', 'r', 'o', 't', 'e', 'c', 't', 'e', 'd'],
      ['r', 'e', 'a', 'd', 'o', 'n', 'l', 'y']]
    (fun kw => litP kw s) with
  | some r => some r
  | none =>
    match s with
    | c :: cs => if spaceC c then some cs else none
    | [] => none

theorem litP_len_lt (p s r : List Char) (hp : p ≠ []) (h : litP p s = some r) :
    r.length < s.length := by
  cases p with
  | nil => exact absurd rfl hp
  | cons a ps =>
    cases s with
    | nil => simp [litP] at h
    | cons c cs =>
      simp only [litP] at h
      by_cases hc : c == a
      · simp [hc] at h
        have := litP_len ps cs r h
        simp
        omega
      · simp [hc] at h

theorem firstSome_pred_mem {α β : Type} (P : β → Prop) (l : List α) (f : α → Option β)
    (hf : ∀ a ∈ l, ∀ b, f a = some b → P b) (b : β) (h : firstSome l f = some b) : P b := by
  induction l with
  | nil => simp [firstSome] at h
  | cons x xs ih =>
    simp only [firstSome] at h
    cases h2 : f x with
    | some y =>
      rw [h2] at h
      simp at h
      subst h
      exact hf x (List.mem_cons_self x xs) y h2
    | none =>
      rw [h2] at h
      exact ih (fun a ha => hf a (List.mem_cons_of_mem x ha)) h

theorem cfStep_len (s r : List Char) (h : cfStep s = some r) : r.length < s.length := by
  unfold cfStep at h
  cases h1 : firstSome [['p', 'u', 'b', 'l', 'i', 'c'], ['p', 'r', 'i', 'v', 'a', 't', 'e'],
      ['p', 'r', 'o', 't', 'e', 'c', 't', 'e', 'd'],
      ['r', 'e', 'a', 'd', 'o', 'n', 'l', 'y']] (fun kw => litP kw s) with
  | some x =>
    rw [h1] at h
    simp at h
    subst h
    refine firstSome_pred_mem (fun t => t.length < s.length) _ _ ?_ _ h1
    intro kw hkw b hm
    have hne : kw ≠ [] := by
      simp at hkw
      rcases hkw with rfl | rfl | rfl | rfl <;> simp
    exact litP_len_lt kw s b hne hm
  | none =>
    rw [h1] at h
    cases s with
    | nil => simp at h
    | cons c cs =>
      by_cases hc : spaceC c
      · simp [hc] at h; subst h; simp
      · simp [hc] at h

/-- The suffixes after the greedy visibility-or-whitespace star of the
class-field pattern, most-consumed first.  Fuel as in `stripTripleF`. -/
def cfRemsF : Nat → List Char → List (List Char)
  | 0, s => [s]
  | fuel + 1, s =>
    match cfStep s with
    | some r => cfRemsF fuel r ++ [s]
    | none => [s]

/-- `cfRemsF` with its sufficient fuel. -/
def cfRems (s : List Char) : List (List Char) := cfRemsF s.length s

/-- The class-field type class `[\w<>[\]|]`. -/
def cfTypeC (c : Char) : Bool :=
  wordC c || c == '<' || c == '>' || c == '[' || c == ']' || c == '|'

/-- `/^\s+(?:public|private|protected|readonly|\s)*(\w+)\s*(?:\?)?:\s*(\w[\w<>[\]|]*)/`:
returns (field name, type). -/
def classFieldM (line : String) : Option (String × String) :=
  match ws1 line.data with
  | none => none
  | some r =>
    firstSome (cfRems r) fun rem =>
      match word1 rem with
      | none => none
      | some (name, r2) =>
        let r3 := ws0 r2
        let r4 := if r3.head? == some '?' then r3.tail else r3
        match r4 with
        | ':' :: r5 =>
          (match ws0 r5 with
           | c :: r6 =>
             if wordC c then
               let run := r6.takeWhile cfTypeC
               some (name.asString, (c :: run).asString)
             else none
           | [] => none)
        | _ => none

/-- The scan loop of `parseJsClassAttrs` (src/unnamed/part_000). -/
def parseJsClassAttrsAux (lines : List String) :
    Nat → Nat → Int → Bool → List PortInfo → List PortInfo
  | 0, _, _, _, acc => acc
  | fuel + 1, i, d, started, acc =>
    match lines.get? i with
    | none => acc
    | some l =>
      let (d2, s2) := braceScan l.data d started
      if s2 && d2 ≤ 0 then acc
      else
        let acc1 :=
          match thisAttrM l with
          | some n =>
            if acc.any (fun a => a.name == n) then acc
            else acc ++ [{ name := n, type := "any" }]
          | none => acc
        let acc2 :=
          match classFieldM l with
          | some (n, ty) =>
            if hasSubS l "(" then acc1
            else if acc1.any (fun a => a.name == n) then acc1
            else acc1 ++ [{ name := n, type := ty }]
          | none => acc1
        parseJsClassAttrsAux lines fuel (i + 1) d2 s2 acc2

/-- `parseJsClassAttrs` of src/unnamed/part_000. -/
def parseJsClassAttrs (lines : List String) (classLine : Nat) : List PortInfo :=
  parseJsClassAttrsAux lines lines.length classLine 0 false []

/-- `parseJsClasses` of src/unnamed/part_000. -/
def parseJsClasses (lines : List String) : List ClassInfo :=
  (List.range lines.length).flatMap fun i =>
    match lines.get? i with
    | none => []
    | some l =>
      match classJsM l with
      | some (name, base) =>
        [{ name := name
           bases := match base with | some b => [b] | none => []
           methods := parseJsClassMethods lines i
           attributes := parseJsClassAttrs lines i
           decorators := collectJsDecorators lines i
           lineNumber := i + 1 }]
      | none => []

/-- Consume an optional keyword followed by whitespace (`(?:kw\s+)?`),
falling back to the input when either part fails. -/
def optKwWs (kw : List Char) (s : List Char) : List Char :=
  match litP kw s with
  | some r =>
    (match ws1 r with
     | some r2 => r2
     | none => s)
  | none => s

/-- `/^(?:export\s+)?(?:default\s+)?(async\s+)?function\s+(\w+)\s*(?:<[^>]*>)?\s*\(([^)]*)\)(?:\s*:\s*([^\s{]+))?/`:
returns (isAsync, name, params, return type). -/
def funcJsM (line : String) : Option (Bool × String × String × Option String) :=
  let r0 := optKwWs ['e', 'x', 'p', 'o', 'r', 't'] line.data
  let r1 := optKwWs ['d', 'e', 'f', 'a', 'u', 'l', 't'] r0
  let (isAsync, r2) :=
    match litP ['a', 's', 'y', 'n', 'c'] r1 with
    | some ra =>
      (match ws1 ra with
       | some rb => (true, rb)
       | none => (false, r1))
    | none => (false, r1)
  match litP ['f', 'u', 'n', 'c', 't', 'i', 'o', 'n'] r2 with
  | none => none
  | some r3 =>
    match ws1 r3 with
    | none => none
    | some r4 =>
      match coreM r4 with
      | some (n, p, ret) => some (isAsync, n, p, ret)
      | none => none

/-- `/^(?:export\s+)?(?:const|let|var)\s+(\w+)\s*=\s*(async\s+)?(?:\([^)]*\)|(\w+))\s*(?::\s*\([^)]*\)\s*=>\s*([^\s{]+))?\s*=>/`:
returns (name, isAsync, return type). -/
def arrowJsM (line : String) : Option (String × Bool × Option String) :=
  let r0 := optKwWs ['e', 'x', 'p', 'o', 'r', 't'] line.data
  match firstSome [['c', 'o', 'n', 's', 't'], ['l', 'e', 't'], ['v', 'a', 'r']]
    (fun kw => match litP kw r0 with
      | some r => ws1 r
      | none => none) with
  | none => none
  | some r1 =>
    match word1 r1 with
    | none => none
    | some (name, r2) =>
      match ws0 r2 with
      | '=' :: r3 =>
        firstSome (asyncRems (ws0 r3)) fun ar =>
          let altRem : Option (List Char) :=
            match ar.2 with
            | '(' :: rr =>
              let inner := rr.takeWhile (fun c => c ≠ ')')
              (match rr.drop inner.length with
               | ')' :: r4 => some r4
               | _ => none)
            | _ =>
              match word1 ar.2 with
              | some (_, r4) => some r4
              | none => none
          match altRem with
          | none => none
          | some r4 =>
            let r5 := ws0 r4
            let withTy : Option (String × Bool × Option String) :=
              match r5 with
              | ':' :: r6 =>
                (match ws0 r6 with
                 | '(' :: r7 =>
                   let inner := r7.takeWhile (fun c => c ≠ ')')
                   (match r7.drop inner.length with
                    | ')' :: r8 =>
                      (match litP ['=', '>'] (ws0 r8) with
                       | some r9 =>
                         let run := (ws0 r9).takeWhile (fun c => !(spaceC c || c == '{'))
                         if run.isEmpty then none
                         else
                           let r10 := (ws0 r9).drop run.length
                           if begins ['=', '>'] (ws0 r10) then
                             some (name.asString, ar.1, some run.asString)
                           else none
                       | none => none)
                    | _ => none)
                 | _ => none)
              | _ => none
            match withTy with
            | some x => some x
            | none =>
              if begins ['=', '>'] r5 then some (name.asString, ar.1, none) else none
      | _ => none

/-- `parseJsFunctions` of src/unnamed/part_000: top-level (indent at most
two) `function` declarations and arrow-function bindings. -/
def parseJsFunctions (lines : List String) : List MethodInfo :=
  (List.range lines.length).flatMap fun i =>
    match lines.get? i with
    | none => []
    | some l =>
      if searchNonWs l.data > 2 then []
      else
        match funcJsM l with
        | some (isAsync, name, params, ret) =>
          [{ name := name
             params := parseJsParams params
             returnType := ret.getD "any"
             decorators := collectJsDecorators lines i
             lineNumber := i + 1
             isAsync := isAsync
             isPrivate := beginsS name "_"
             complexity := countJsBranches lines i }]
        | none =>
          match arrowJsM l with
          | some (name, isAsync, ret) =>
            [{ name := name
               params := []
               returnType := ret.getD "any"
               decorators := []
               lineNumber := i + 1
               isAsync := isAsync
               isPrivate := beginsS name "_"
               complexity := countJsBranches lines i }]
          | none => []

/-- `inferJsType` of src/unnamed/part_000. -/
def inferJsType (val : String) : String :=
  let v0 := (jsTrim val).data
  let v := (match v0.reverse with
            | ';' :: rest => rest.reverse
            | _ => v0).asString
  if v == "true" || v == "false" then "boolean"
  else if (match v.data with
           | '-' :: rest => !rest.isEmpty && rest.all Char.isDigit
           | l => !l.isEmpty && l.all Char.isDigit) then "number"
  else if (let body := match v.data with | '-' :: rest => rest | l => l
           let ip := body.takeWhile Char.isDigit
           let rest := body.drop ip.length
           match rest with
           | '.' :: fl => !ip.isEmpty && !fl.isEmpty && fl.all Char.isDigit
           | _ => false) then "number"
  else if (match v.data.head? with
           | some c => c == '"' || c == sqC || c == btC
           | none => false) then "string"
  else if beginsS v "[" then "array"
  else if beginsS v "\x7b" then "object"
  else "any"

/-- `/^(?:export\s+)?const\s+([A-Z_][A-Z0-9_]*)\s*(?::\s*(\w+))?\s*=\s*(.+)/`
on the trimmed line. -/
def constJsM (l : String) : Option (String × Option String × String) :=
  let r0 := optKwWs ['e', 'x', 'p', 'o', 'r', 't'] l.data
  match litP ['c', 'o', 'n', 's', 't'] r0 with
  | none => none
  | some r1 =>
    match ws1 r1 with
    | none => none
    | some r2 =>
      match r2 with
      | c :: rest =>
        if c.isUpper || c == '_' then
          let run := rest.takeWhile (fun x => x.isUpper || x.isDigit || x == '_')
          let name := (c :: run).asString
          let r := rest.drop run.length
          match ws0 r with
          | ':' :: r3 =>
            (match word1 (ws0 r3) with
             | some (w, r4) =>
               (match ws0 r4 with
                | '=' :: r5 =>
                  (match wsStarPlus r5 with
                   | some v => some (name, some w.asString, v.asString)
                   | none => none)
                | _ => none)
             | none => none)
          | '=' :: r5 =>
            (match wsStarPlus r5 with
             | some v => some (name, none, v.asString)
             | none => none)
          | _ => none
        else none
      | [] => none

/-- `parseJsGlobals` of src/unnamed/part_000. -/
def parseJsGlobals (lines : List String) : List PortInfo :=
  (List.range lines.length).flatMap fun i =>
    match lines.get? i with
    | none => []
    | some raw =>
      let l := jsTrim raw
      match constJsM l with
      | some (name, ty, v) =>
        let defv := jsTrim (match v.data.reverse with
          | ';' :: rest => rest.reverse
          | _ => v.data).asString
        [{ name := name, type := ty.getD (inferJsType v), default := some defv }]
      | none => []

/-- `/throw\s+new\s+(\w+)/` searched anywhere. -/
def throwNewM (line : String) : Option String :=
  go line.data
where
  at1 (s : List Char) : Option String :=
    match litP ['t', 'h', 'r', 'o', 'w'] s with
    | none => none
    | some r =>
      match ws1 r with
      | none => none
      | some r1 =>
        match litP ['n', 'e', 'w'] r1 with
        | none => none
        | some r2 =>
          match ws1 r2 with
          | none => none
          | some r3 =>
            match word1 r3 with
            | some (w, _) => some w.asString
            | none => none
  go : List Char → Option String
    | [] => none
    | c :: cs =>
      match at1 (c :: cs) with
      | some w => some w
      | none => go cs

/-- `/catch\s*\(\s*(\w+)\s*(?::\s*(\w+))?\)/` searched anywhere:
returns (variable, optional annotated type). -/
def catchJsM (line : String) : Option (String × Option String) :=
  go line.data
where
  at1 (s : List Char) : Option (String × Option String) :=
    match litP ['c', 'a', 't', 'c', 'h'] s with
    | none => none
    | some r =>
      match ws0 r with
      | '(' :: r1 =>
        (match word1 (ws0 r1) with
         | none => none
         | some (v, r2) =>
           match ws0 r2 with
           | ':' :: r3 =>
             (match word1 (ws0 r3) with
              | some (ty, r4) =>
                if r4.head? == some ')' then some (v.asString, some ty.asString) else none
              | none => none)
           | ')' :: _ => some (v.asString, none)
           | _ => none)
      | _ => none
  go : List Char → Option (String × Option String)
    | [] => none
    | c :: cs =>
      match at1 (c :: cs) with
      | some x => some x
      | none => go cs

/-- `parseJsErrors` of src/unnamed/part_000: `throw new X` names and
annotated `catch (e: X)` types, into a JS `Set`. -/
def parseJsErrors (lines : List String) : List String :=
  lines.foldl
    (fun acc line =>
      let acc1 :=
        match throwNewM line with
        | some w => insertUniq acc w
        | none => acc
      match catchJsM line with
      | some (_, some ty) => insertUniq acc1 ty
      | _ => acc1)
    []

/-- `parseJsDebug` of src/unnamed/part_000. -/
def parseJsDebug (lines : List String) : List Nat :=
  (List.range lines.length).filterMap fun i =>
    match lines.get? i with
    | none => none
    | some l =>
      let t := jsTrim l
      if beginsS t "try" || beginsS t "catch" || beginsS t "\x7d catch" then some (i + 1)
      else none

/-- `countJsCodeLines` of src/unnamed/part_000. -/
def countJsCodeLines (lines : List String) : Nat :=
  (lines.foldl
    (fun st l =>
      let t := jsTrim l
      let inB1 := if beginsS t "/*" then true else st.2
      if inB1 then (st.1, if hasSubS t "*/" then false else inB1)
      else if t == "" || beginsS t "//" then st
      else (st.1 + 1, inB1))
    ((0 : Nat), false)).1

/-- `genWarnings` of src/unnamed/part_000: compare declared meta deps with
the actual imports (in both directions). -/
def genWarnings (meta : Option MetaBlock) (imports : List ImportInfo)
    (_connections : List String) : List String :=
  match meta with
  | none => []
  | some mb =>
    match mb.deps with
    | none => []
    | some deps =>
      let mods := imports.foldl (fun acc i => insertUniq acc i.module) []
      let w1 := deps.filterMap fun d =>
        if !mods.any (fun m => hasSubS m d || hasSubS d m) then
          some ("⚠ Meta declara dep \"" ++ d ++ "\" no encontrada en imports")
        else none
      let w2 := imports.filterMap fun i =>
        if !deps.any (fun d => hasSubS i.module d || hasSubS d i.module) then
          some ("⚠ Import \"" ++ i.module ++ "\" no declarado en meta.deps")
        else none
      w1 ++ w2

/-- `parseJsCode` of src/unnamed/part_000: the brace-based extractor for
the JavaScript/TypeScript family. -/
def parseJsCode (code fileName : String) : FileStats :=
  let lines := splitLines code
  let meta := ParserUtils.parseMetaBlock code
  let imports := parseJsImports lines
  let classes := parseJsClasses lines
  let functions := parseJsFunctions lines
  let globalVars := parseJsGlobals lines
  let errorTypes := parseJsErrors lines
  let debugPoints := parseJsDebug lines
  let connections := imports.map fun i => i.module
  let codeLines := countJsCodeLines lines
  let warnings := genWarnings meta imports connections
  let description :=
    match meta.bind (fun m => m.desc) with
    | some d =>
      if d == "" then ParserUtils.genFileDesc meta classes functions imports fileName else d
    | none => ParserUtils.genFileDesc meta classes functions imports fileName
  let classDescriptions := ParserUtils.genClassDescs classes imports
  let hardcoded := ParserUtils.detectHardcoded lines "//"
  let unused := ParserUtils.detectUnused lines imports classes functions "//"
  { fileName := fileName
    language := "javascript"
    meta := meta
    classes := classes
    functions := functions
    imports := imports
    globalVars := globalVars
    connections := connections
    errorTypes := errorTypes
    debugPoints := debugPoints
    totalLines := lines.length
    codeLines := codeLines
    warnings := warnings
    description := description
    classDescriptions := classDescriptions
    hardcoded := hardcoded
    unused := unused
    diagnostics := []
    depIssues := []
    todos := []
    externalUsage := [] }

end JsParser

-- ══════════════════════════════════════════════
-- src/phpParser.ts (src/unnamed/part_001)
-- ══════════════════════════════════════════════

namespace PhpParser

/-- `/^use\s+([\w\\]+)(?:\s+as\s+(\w+))?\s*;/`:
returns (namespace path, optional alias). -/
def useM (l : String) : Option (String × Option String) :=
  match litP ['u', 's', 'e'] l.data with
  | none => none
  | some r =>
    match ws1 r with
    | none => none
    | some r1 =>
      let run := r1.takeWhile (fun c => wordC c || c == '\\')
      if run.isEmpty then none
      else
        let r2 := r1.drop run.length
        let withAs : Option (String × Option String) :=
          match ws1 r2 with
          | some r3 =>
            (match litP ['a', 's'] r3 with
             | some r4 =>
               (match ws1 r4 with
                | some r5 =>
                  (match word1 r5 with
                   | some (w, r6) =>
                     if (ws0 r6).head? == some ';' then
                       some (run.asString, some w.asString)
                     else none
                   | none => none)
                | none => none)
             | none => none)
          | none => none
        match withAs with
        | some x => some x
        | none =>
          if (ws0 r2).head? == some ';' then some (run.asString, none) else none

/-- `/^(?:require|include|require_once|include_once)\s*\(?['"]([^'"]+)['"]\)?/`
(alternatives in source order, each completed by the tail). -/
def requireM (l : String) : Option String :=
  firstSome [['r', 'e', 'q', 'u', 'i', 'r', 'e'], ['i', 'n', 'c', 'l', 'u', 'd', 'e'],
    ['r', 'e', 'q', 'u', 'i', 'r', 'e', '_', 'o', 'n', 'c', 'e'],
    ['i', 'n', 'c', 'l', 'u', 'd', 'e', '_', 'o', 'n', 'c', 'e']] fun kw =>
    match litP kw l.data with
    | none => none
    | some r =>
      let r1 := ws0 r
      let r2 := if r1.head? == some '(' then r1.tail else r1
      match r2 with
      | q :: r3 =>
        if JsParser.impQ q then
          let m := r3.takeWhile (fun c => !JsParser.impQ c)
          if m.isEmpty then none
          else
            match r3.drop m.length with
            | q2 :: _ => if JsParser.impQ q2 then some m.asString else none
            | [] => none
        else none
      | [] => none

/-- `parsePhpImports` of src/unnamed/part_001. -/
def parsePhpImports (lines : List String) : List ImportInfo :=
  (List.range lines.length).flatMap fun i =>
    match lines.get? i with
    | none => []
    | some raw =>
      let l := jsTrim raw
      match useM l with
      | some (path, alias?) =>
        let parts := splitCh '\\' path
        let name := alias?.getD (parts.getLastD "")
        [{ module := path, names := [name], isFrom := true, lineNumber := i + 1 }]
      | none =>
        match requireM l with
        | some m => [{ module := m, names := [m], isFrom := false, lineNumber := i + 1 }]
        | none => []

/-- The class-header regex of `parsePhpClasses`:
optional `abstract`/`final`, `class`, name, optional `extends` base,
optional `implements` list; the trailing brace is optional. -/
def classPhpM (line : String) : Option (String × Option String × Option String) :=
  let r0 := line.data
  let r1 := JsParser.optKwWs ['a', 'b', 's', 't', 'r', 'a', 'c', 't'] r0
  let r2 := JsParser.optKwWs ['f', 'i', 'n', 'a', 'l'] r1
  match litP ['c', 'l', 'a', 's', 's'] r2 with
  | none => none
  | some r3 =>
    match ws1 r3 with
    | none => none
    | some r4 =>
      match word1 r4 with
      | none => none
      | some (name, r5) =>
        let (ext, r6) :=
          match ws1 r5 with
          | some ra =>
            (match litP ['e', 'x', 't', 'e', 'n', 'd', 's'] ra with
             | some rb =>
               (match ws1 rb with
                | some rc =>
                  (match word1 rc with
                   | some (w, rd) => (some w.asString, rd)
                   | none => (none, r5))
                | none => (none, r5))
             | none => (none, r5))
          | none => (none, r5)
        let impl :=
          match ws1 r6 with
          | some ra =>
            (match litP ['i', 'm', 'p', 'l', 'e', 'm', 'e', 'n', 't', 's'] ra with
             | some rb =>
               (match ws1 rb with
                | some rc =>
                  let run := rc.takeWhile (fun c => wordC c || c == ',' || spaceC c)
                  if run.isEmpty then none else some run.asString
                | none => none)
             | none => none)
          | none => none
        some (name.asString, ext, impl)

/-- `(?:\s*:\s*\??([\w\\|]+))?` — the optional PHP return-type tail. -/
def phpRetOpt (r : List Char) : Option String :=
  match ws0 r with
  | ':' :: r1 =>
    let r2 := ws0 r1
    let r3 := if r2.head? == some '?' then r2.tail else r2
    (match r3 with
     | c :: rest =>
       if wordC c || c == '\\' || c == '|' then
         let run := rest.takeWhile (fun x => wordC x || x == '\\' || x == '|')
         some ((c :: run).asString)
       else none
     | [] => none)
  | _ => none

/-- The method regex of `parsePhpClassMethods`: indented, optional
visibility, optional `static`, `function name(params)` and an optional
return type; returns (visibility?, isStatic, name, params, returnType?). -/
def methodPhpM (line : String) :
    Option (Option String × Bool × String × String × Option String) :=
  match ws1 line.data with
  | none => none
  | some r =>
    let (vis, r1) :=
      match firstSome
        [("public", ['p', 'u', 'b', 'l', 'i', 'c']),
         ("private", ['p', 'r', 'i', 'v', 'a', 't', 'e']),
         ("protected", ['p', 'r', 'o', 't', 'e', 'c', 't', 'e', 'd'])]
        (fun kw => match litP kw.2 r with
          | some rr =>
            (match ws1 rr with
             | some rr2 => some (kw.1, rr2)
             | none => none)
          | none => none) with
      | some (v, rr) => (some v, rr)
      | none => (none, r)
    let (isStatic, r2) :=
      match litP ['s', 't', 'a', 't', 'i', 'c'] r1 with
      | some rr =>
        (match ws1 rr with
         | some rr2 => (true, rr2)
         | none => (false, r1))
      | none => (false, r1)
    match litP ['f', 'u', 'n', 'c', 't', 'i', 'o', 'n'] r2 with
    | none => none
    | some r3 =>
      match ws1 r3 with
      | none => none
      | some r4 =>
        match word1 r4 with
        | none => none
        | some (name, r5) =>
          match ws0 r5 with
          | '(' :: r6 =>
            let params := r6.takeWhile (fun c => c ≠ ')')
            (match r6.drop params.length with
             | ')' :: r7 =>
               some (vis, isStatic, name.asString, params.asString, phpRetOpt r7)
             | _ => none)
          | _ => none

/-- `countPhpBranches` of src/unnamed/part_001. -/
def countPhpBranchesAux (lines : List String) : Nat → Nat → Nat → Int → Bool → Nat
  | 0, _, b, _, _ => b
  | fuel + 1, i, b, d, started =>
    match lines.get? i with
    | none => b
    | some l =>
      let (d2, s2) := JsParser.braceScan l.data d started
      if s2 && d2 ≤ 0 then b
      else
        let t := jsTrim l
        let b1 :=
          if ["if", "elseif", "else", "for", "foreach", "while", "switch", "case"].any
            (fun kw => begins kw.data t.data &&
              (match (t.data.drop kw.length).head? with
               | some c => !wordC c
               | none => true)) then b + 1
          else b
        countPhpBranchesAux lines fuel (i + 1) b1 d2 s2

/-- `countPhpBranches` of src/unnamed/part_001. -/
def countPhpBranches (lines : List String) (start : Nat) : Nat :=
  countPhpBranchesAux lines lines.length start 0 0 false

/-- `parsePhpParams` of src/unnamed/part_001 (plain comma split). -/
def parsePhpParams (s : String) : List PortInfo :=
  if jsTrim s == "" then []
  else
    (splitCh ',' s).filterMap fun part =>
      let t := jsTrim part
      if t == "" then none
      else
        let eqPre := t.data.takeWhile (fun c => c ≠ '=')
        let (name0, def?) :=
          if eqPre.length == t.data.length then (t, none)
          else (jsTrim eqPre.asString, some (jsTrim (t.data.drop (eqPre.length + 1)).asString))
        -- type-and-variable form: optional question mark, a word-class
        -- run (with backslash and pipe), whitespace, then a dollar name,
        -- anchored at both ends
        let tyPart : Option (List Char × List Char) :=
          match name0.data with
          | '?' :: c1 :: rest2 =>
            if wordC c1 then
              let run := rest2.takeWhile (fun x => wordC x || x == '\\' || x == '|')
              some ('?' :: c1 :: run, rest2.drop run.length)
            else none
          | c0 :: rest0 =>
            if wordC c0 then
              let run := rest0.takeWhile (fun x => wordC x || x == '\\' || x == '|')
              some (c0 :: run, rest0.drop run.length)
            else none
          | [] => none
        let tp : Option (String × String) :=
          match tyPart with
          | none => none
          | some (tyChars, rest1) =>
            match ws1 rest1 with
            | some r2 =>
              (match r2 with
               | '$' :: r3 =>
                 (match word1 r3 with
                  | some (w, r4) =>
                    if r4.isEmpty then some (tyChars.asString, "$" ++ w.asString)
                    else none
                  | none => none)
               | _ => none)
            | none => none
        match tp with
        | some (ty, nm) => some { name := nm, type := ty, default := def? }
        | none =>
          if beginsS name0 "$" then some { name := name0, type := "mixed", default := def? }
          else
            let dollarName : Option String :=
              let rec findD : List Char → Option String
                | [] => none
                | '$' :: rest =>
                  (match word1 rest with
                   | some (w, _) => some ("$" ++ w.asString)
                   | none => findD rest)
                | _ :: rest => findD rest
              findD name0.data
            match dollarName with
            | some nm => some { name := nm, type := "mixed", default := def? }
            | none => some { name := name0, type := "mixed", default := def? }

/-- The scan loop of `parsePhpClassMethods` (src/unnamed/part_001). -/
def parsePhpClassMethodsAux (lines : List String) :
    Nat → Nat → Int → Bool → List MethodInfo
  | 0, _, _, _ => []
  | fuel + 1, i, d, started =>
    match lines.get? i with
    | none => []
    | some l =>
      let (d2, s2) := JsParser.braceScan l.data d started
      if s2 && d2 ≤ 0 then []
      else
        let rest := parsePhpClassMethodsAux lines fuel (i + 1) d2 s2
        match methodPhpM l with
        | some (vis, isStatic, name, params, ret) =>
          let v := vis.getD "public"
          { name := name
            params := parsePhpParams params
            returnType := ret.getD "mixed"
            decorators := if isStatic then ["static"] else []
            lineNumber := i + 1
            isAsync := false
            isPrivate := v == "private" || v == "protected"
            complexity := countPhpBranches lines i } :: rest
        | none => rest

/-- `parsePhpClassMethods` of src/unnamed/part_001. -/
def parsePhpClassMethods (lines : List String) (classLine : Nat) : List MethodInfo :=
  parsePhpClassMethodsAux lines lines.length classLine 0 false

/-- The property-declaration regex of `parsePhpClassAttrs`: indented
visibility, optional `static`, optional nullable type, then a dollar name;
returns (type?, name). -/
def propPhpM (line : String) : Option (Option String × String) :=
  match ws1 line.data with
  | none => none
  | some r =>
    match firstSome
      [['p', 'u', 'b', 'l', 'i', 'c'], ['p', 'r', 'i', 'v', 'a', 't', 'e'],
       ['p', 'r', 'o', 't', 'e', 'c', 't', 'e', 'd']]
      (fun kw => match litP kw r with
        | some rr => ws1 rr
        | none => none) with
    | none => none
    | some r1 =>
      let r2 :=
        match litP ['s', 't', 'a', 't', 'i', 'c'] r1 with
        | some rr =>
          (match ws1 rr with
           | some rr2 => rr2
           | none => r1)
        | none => r1
      let withTy : Option (Option String × String) :=
        let tyPart : Option (List Char × List Char) :=
          match r2 with
          | '?' :: c1 :: rest2 =>
            if wordC c1 then
              let run := rest2.takeWhile (fun x => wordC x || x == '\\')
              some ('?' :: c1 :: run, rest2.drop run.length)
            else none
          | c0 :: rest0 =>
            if wordC c0 then
              let run := rest0.takeWhile (fun x => wordC x || x == '\\')
              some (c0 :: run, rest0.drop run.length)
            else none
          | [] => none
        match tyPart with
        | none => none
        | some (tyChars, rest1) =>
          match ws1 rest1 with
          | some r3 =>
            (match r3 with
             | '$' :: r4 =>
               (match word1 r4 with
                | some (w, _) => some (some tyChars.asString, w.asString)
                | none => none)
             | _ => none)
          | none => none
      match withTy with
      | some x => some x
      | none =>
        match r2 with
        | '$' :: r4 =>
          (match word1 r4 with
           | some (w, _) => some (none, w.asString)
           | none => none)
        | _ => none

/-- `/\$this->(\w+)\s*=/` searched anywhere. -/
def thisArrowM (line : String) : Option String :=
  go line.data
where
  at1 (s : List Char) : Option String :=
    match litP ['$', 't', 'h', 'i', 's', '-', '>'] s with
    | none => none
    | some r =>
      match word1 r with
      | none => none
      | some (w, r2) =>
        if (ws0 r2).head? == some '=' then some w.asString else none
  go : List Char → Option String
    | [] => none
    | c :: cs =>
      match at1 (c :: cs) with
      | some x => some x
      | none => go cs

/-- The scan loop of `parsePhpClassAttrs` (src/unnamed/part_001): property
declarations are pushed unconditionally, `$this->x =` assignments only
when not already present. -/
def parsePhpClassAttrsAux (lines : List String) :
    Nat → Nat → Int → Bool → List PortInfo → List PortInfo
  | 0, _, _, _, acc => acc
  | fuel + 1, i, d, started, acc =>
    match lines.get? i with
    | none => acc
    | some l =>
      let (d2, s2) := JsParser.braceScan l.data d started
      if s2 && d2 ≤ 0 then acc
      else
        let acc1 :=
          match propPhpM l with
          | some (ty, n) => acc ++ [{ name := "$" ++ n, type := ty.getD "mixed" }]
          | none => acc
        let acc2 :=
          match thisArrowM l with
          | some n =>
            if acc1.any (fun a => a.name == "$" ++ n) then acc1
            else acc1 ++ [{ name := "$" ++ n, type := "mixed" }]
          | none => acc1
        parsePhpClassAttrsAux lines fuel (i + 1) d2 s2 acc2

/-- `parsePhpClassAttrs` of src/unnamed/part_001. -/
def parsePhpClassAttrs (lines : List String) (classLine : Nat) : List PortInfo :=
  parsePhpClassAttrsAux lines lines.length classLine 0 false []

/-- `parsePhpClasses` of src/unnamed/part_001. -/
def parsePhpClasses (lines : List String) : List ClassInfo :=
  (List.range lines.length).flatMap fun i =>
    match lines.get? i with
    | none => []
    | some l =>
      match classPhpM l with
      | some (name, ext, impl) =>
        let bases :=
          (match ext with
           | some b => [b]
           | none => []) ++
          (match impl with
           | some s => (splitCh ',' s).map jsTrim
           | none => [])
        [{ name := name
           bases := bases
           methods := parsePhpClassMethods lines i
           attributes := parsePhpClassAttrs lines i
           decorators := []
           lineNumber := i + 1 }]
      | none => []

/-- `/^function\s+(\w+)\s*\(([^)]*)\)(?:\s*:\s*\??([\w\\|]+))?\s*/`
(top-level function header). -/
def funcPhpM (line : String) : Option (String × String × Option String) :=
  match litP ['f', 'u', 'n', 'c', 't', 'i', 'o', 'n'] line.data with
  | none => none
  | some r =>
    match ws1 r with
    | none => none
    | some r1 =>
      match word1 r1 with
      | none => none
      | some (name, r2) =>
        match ws0 r2 with
        | '(' :: r3 =>
          let params := r3.takeWhile (fun c => c ≠ ')')
          (match r3.drop params.length with
           | ')' :: r4 => some (name.asString, params.asString, phpRetOpt r4)
           | _ => none)
        | _ => none

/-- `parsePhpFunctions` of src/unnamed/part_001. -/
def parsePhpFunctions (lines : List String) : List MethodInfo :=
  (List.range lines.length).flatMap fun i =>
    match lines.get? i with
    | none => []
    | some l =>
      if searchNonWs l.data > 2 then []
      else
        match funcPhpM l with
        | some (name, params, ret) =>
          [{ name := name
             params := parsePhpParams params
             returnType := ret.getD "mixed"
             decorators := []
             lineNumber := i + 1
             isAsync := false
             isPrivate := beginsS name "_"
             complexity := countPhpBranches lines i }]
        | none => []

/-- The `define('NAME', value)` matcher of `parsePhpGlobals`: name and the
greedy value up to the last closing parenthesis. -/
def defineM (l : String) : Option (String × String) :=
  match litP ['d', 'e', 'f', 'i', 'n', 'e'] l.data with
  | none => none
  | some r =>
    match ws0 r with
    | '(' :: r1 =>
      (match ws0 r1 with
       | q :: r2 =>
         if JsParser.impQ q then
           match word1 r2 with
           | none => none
           | some (name, r3) =>
             match r3 with
             | q2 :: r4 =>
               if JsParser.impQ q2 then
                 match ws0 r4 with
                 | ',' :: r5 =>
                   let rest := ws0 r5
                   -- `(.+)\)` : greedy, so the value runs to the last
                   -- closing parenthesis of the line
                   let revAfter := rest.reverse.takeWhile (fun c => c ≠ ')')
                   if revAfter.length == rest.length then none
                   else
                     let v := rest.take (rest.length - revAfter.length - 1)
                     if v.isEmpty then none else some (name.asString, v.asString)
                 | _ => none
               else none
             | [] => none
         else none
       | [] => none)
    | _ => none

/-- The `const NAME = value;` matcher of `parsePhpGlobals` (greedy value up
to the last semicolon). -/
def constPhpM (l : String) : Option (String × String) :=
  match litP ['c', 'o', 'n', 's', 't'] l.data with
  | none => none
  | some r =>
    match ws1 r with
    | none => none
    | some r1 =>
      match word1 r1 with
      | none => none
      | some (name, r2) =>
        match ws0 r2 with
        | '=' :: r3 =>
          let rest := ws0 r3
          let revAfter := rest.reverse.takeWhile (fun c => c ≠ ';')
          if revAfter.length == rest.length then none
          else
            let v := rest.take (rest.length - revAfter.length - 1)
            if v.isEmpty then none else some (name.asString, v.asString)
        | _ => none

/-- `cm[2].replace(/\);?$/, '')` — drop one trailing `)` or `);`. -/
def dropCloseParen (v : String) : String :=
  match v.data.reverse with
  | ';' :: ')' :: rest => rest.reverse.asString
  | ')' :: rest => rest.reverse.asString
  | _ => v

/-- `parsePhpGlobals` of src/unnamed/part_001. -/
def parsePhpGlobals (lines : List String) : List PortInfo :=
  (List.range lines.length).flatMap fun i =>
    match lines.get? i with
    | none => []
    | some raw =>
      let l := jsTrim raw
      let a :=
        match defineM l with
        | some (name, v) =>
          [{ name := name, type := "const", default := some (jsTrim (dropCloseParen v)) }]
        | none => []
      let b :=
        match constPhpM l with
        | some (name, v) =>
          [{ name := name, type := "const", default := some (jsTrim v) }]
        | none => []
      a ++ b

/-- `/catch\s*\(\s*(\w[\w\\|]*)\s/` searched anywhere: the caught type
(a following whitespace character is required). -/
def catchPhpM (line : String) : Option String :=
  go line.data
where
  at1 (s : List Char) : Option String :=
    match litP ['c', 'a', 't', 'c', 'h'] s with
    | none => none
    | some r =>
      match ws0 r with
      | '(' :: r1 =>
        (match ws0 r1 with
         | c :: r2 =>
           if wordC c then
             let run := r2.takeWhile (fun x => wordC x || x == '\\' || x == '|')
             match (r2.drop run.length).head? with
             | some w => if spaceC w then some ((c :: run).asString) else none
             | none => none
           else none
         | [] => none)
      | _ => none
  go : List Char → Option String
    | [] => none
    | c :: cs =>
      match at1 (c :: cs) with
      | some x => some x
      | none => go cs

/-- `parsePhpErrors` of src/unnamed/part_001: `throw new X` names and
`catch (X …)` types (no generic-name exclusion), into a JS `Set`. -/
def parsePhpErrors (lines : List String) : List String :=
  lines.foldl
    (fun acc line =>
      let acc1 :=
        match JsParser.throwNewM line with
        | some w => insertUniq acc w
        | none => acc
      match catchPhpM line with
      | some ty => insertUniq acc1 ty
      | none => acc1)
    []

/-- `parsePhpDebug` of src/unnamed/part_001. -/
def parsePhpDebug (lines : List String) : List Nat :=
  (List.range lines.length).filterMap fun i =>
    match lines.get? i with
    | none => none
    | some l =>
      let t := jsTrim l
      if beginsS t "try" || catchParen t || braceCatch t then some (i + 1)
      else none
where
  /-- `t.match` with catch-then-open-paren -/
  catchParen (t : String) : Bool :=
    go t.data
  go : List Char → Bool
    | [] => false
    | c :: cs =>
      (match litP ['c', 'a', 't', 'c', 'h'] (c :: cs) with
       | some r => (ws0 r).head? == some '('
       | none => false) || go cs
  /-- `t.match(/}\s*catch/)` -/
  braceCatch (t : String) : Bool :=
    go2 t.data
  go2 : List Char → Bool
    | [] => false
    | c :: cs =>
      (match c :: cs with
       | '}' :: r => begins ['c', 'a', 't', 'c', 'h'] (ws0 r)
       | _ => false) || go2 cs

/-- `countPhpCodeLines` of src/unnamed/part_001. -/
def countPhpCodeLines (lines : List String) : Nat :=
  (lines.foldl
    (fun st l =>
      let t := jsTrim l
      let inB1 := if beginsS t "/*" then true else st.2
      if inB1 then (st.1, if hasSubS t "*/" then false else inB1)
      else if t == "" || beginsS t "//" || beginsS t "#" || t == "<?php" || t == "?>" then st
      else (st.1 + 1, inB1))
    ((0 : Nat), false)).1

/-- `genWarnings` of src/unnamed/part_001 (deps direction only). -/
def genWarningsPhp (meta : Option MetaBlock) (imports : List ImportInfo) : List String :=
  match meta with
  | none => []
  | some mb =>
    match mb.deps with
    | none => []
    | some deps =>
      let mods := imports.foldl (fun acc i => insertUniq acc i.module) []
      deps.filterMap fun d =>
        if !mods.any (fun m => hasSubS m d || hasSubS d m) then
          some ("⚠ Meta declara dep \"" ++ d ++ "\" no encontrada en imports")
        else none

/-- `parsePhpCode` of src/unnamed/part_001. -/
def parsePhpCode (code fileName : String) : FileStats :=
  let lines := splitLines code
  let meta := ParserUtils.parseMetaBlock code
  let imports := parsePhpImports lines
  let classes := parsePhpClasses lines
  let functions := parsePhpFunctions lines
  let globalVars := parsePhpGlobals lines
  let errorTypes := parsePhpErrors lines
  let debugPoints := parsePhpDebug lines
  let connections := imports.map fun i => i.module
  let codeLines := countPhpCodeLines lines
  let warnings := genWarningsPhp meta imports
  let description :=
    match meta.bind (fun m => m.desc) with
    | some d =>
      if d == "" then ParserUtils.genFileDesc meta classes functions imports fileName else d
    | none => ParserUtils.genFileDesc meta classes functions imports fileName
  let classDescriptions := ParserUtils.genClassDescs classes imports
  let hardcoded := ParserUtils.detectHardcoded lines "//"
  let unused := ParserUtils.detectUnused lines imports classes functions "//"
  { fileName := fileName
    language := "php"
    meta := meta
    classes := classes
    functions := functions
    imports := imports
    globalVars := globalVars
    connections := connections
    errorTypes := errorTypes
    debugPoints := debugPoints
    totalLines := lines.length
    codeLines := codeLines
    warnings := warnings
    description := description
    classDescriptions := classDescriptions
    hardcoded := hardcoded
    unused := unused
    diagnostics := []
    depIssues := []
    todos := []
    externalUsage := [] }

end PhpParser

-- ══════════════════════════════════════════════
-- src/analyzers.ts (embedded in src/src/types.ts bundle)
-- ══════════════════════════════════════════════

namespace Analyzers

/-- `PY_STDLIB` of src/analyzers.ts (a JS `Set`; repeated entries collapse,
membership is what matters). -/
def PY_STDLIB : List String :=
  ["os", "sys", "re", "json", "math", "datetime", "typing", "pathlib", "collections",
   "abc", "functools", "itertools", "hashlib", "logging", "unittest", "io", "time",
   "random", "string", "copy", "enum", "dataclasses", "contextlib", "asyncio",
   "subprocess", "shutil", "glob", "tempfile", "threading", "multiprocessing",
   "socket", "http", "urllib", "base64", "csv", "xml", "html", "sqlite3", "struct",
   "argparse", "textwrap", "uuid", "decimal", "fractions", "statistics", "operator",
   "pprint", "warnings", "traceback", "inspect", "dis", "gc", "weakref", "array",
   "queue", "heapq", "bisect", "configparser", "secrets", "hmac", "pickle",
   "shelve", "dbm", "gzip", "zipfile", "tarfile", "lzma", "bz2", "zlib", "signal",
   "mmap", "ctypes", "platform", "sysconfig", "site", "venv", "compileall",
   "py_compile", "profile", "cProfile", "timeit", "trace", "pdb", "faulthandler",
   "atexit", "builtins", "importlib", "pkgutil", "modulefinder", "runpy",
   "_thread", "concurrent", "types", "codecs", "unicodedata", "stringprep",
   "readline", "rlcompleter",
   "tkinter", "turtle", "idlelib", "turtledemo", "test", "distutils", "ensurepip",
   "lib2to3", "xmlrpc", "email", "mailbox", "mimetypes", "webbrowser",
   "cgi", "cgitb", "wsgiref", "ftplib", "poplib", "imaplib", "smtplib",
   "telnetlib", "socketserver", "select", "selectors", "ssl"]

/-- `NODE_BUILTINS` of src/analyzers.ts. -/
def NODE_BUILTINS : List String :=
  ["fs", "path", "os", "http", "https", "url", "querystring", "stream", "buffer",
   "events", "util", "crypto", "zlib", "net", "dns", "tls", "child_process",
   "cluster", "readline", "repl", "vm", "assert", "console", "process",
   "timers", "worker_threads", "perf_hooks", "async_hooks", "inspector",
   "v8", "string_decoder", "punycode", "module",
   "node:fs", "node:path", "node:os", "node:http", "node:https", "node:url",
   "node:crypto", "node:stream", "node:events", "node:util", "node:child_process",
   "node:worker_threads", "node:net", "node:dns", "node:tls", "node:zlib",
   "node:assert", "node:buffer", "node:readline", "node:cluster"]

/-- The Python standard-library set consulted inside `normalizeDep`
(a second copy in the source). -/
def normStdlib : List String :=
  ["os", "sys", "re", "json", "math", "datetime", "typing", "pathlib", "collections",
   "abc", "functools", "itertools", "hashlib", "logging", "unittest", "io", "time",
   "random", "string", "copy", "enum", "dataclasses", "contextlib", "asyncio",
   "subprocess", "shutil", "glob", "tempfile", "threading", "multiprocessing",
   "socket", "http", "urllib", "base64", "csv", "xml", "html", "sqlite3", "struct",
   "argparse", "textwrap", "uuid", "decimal", "fractions", "statistics", "operator",
   "pprint", "warnings", "traceback", "inspect", "dis", "gc", "weakref", "array",
   "queue", "heapq", "bisect", "configparser", "secrets", "hmac", "pickle",
   "shelve", "dbm", "gzip", "zipfile", "tarfile", "lzma", "bz2", "zlib", "signal",
   "mmap", "ctypes", "platform", "sysconfig", "site", "venv", "compileall",
   "py_compile", "profile", "cProfile", "timeit", "trace", "pdb", "faulthandler",
   "atexit", "builtins", "importlib", "pkgutil", "modulefinder", "runpy",
   "_thread", "concurrent", "types", "codecs", "unicodedata", "stringprep",
   "readline", "rlcompleter"]

/-- `isExternalImport` of src/analyzers.ts. -/
def isExternalImport (imp : ImportInfo) (lang : String) : Bool :=
  if lang == "python" then !beginsS imp.module "."
  else if beginsS lang "javascript" || beginsS lang "typescript" then
    !beginsS imp.module "." && !beginsS imp.module "/"
  else if lang == "php" then !beginsS imp.module "." && !beginsS imp.module "/"
  else true

/-- `normalizeDep` of src/analyzers.ts: `none` models the JS `null`. -/
def normalizeDep (module : String) (lang : String) : Option String :=
  if lang == "python" then
    let base := (splitCh '.' module).headD ""
    if normStdlib.contains base then none else some base
  else if beginsS lang "javascript" || beginsS lang "typescript" then
    if beginsS module "@" then
      some (String.intercalate "/" ((splitCh '/' module).take 2))
    else some ((splitCh '/' module).headD "")
  else if lang == "php" then
    let parts := splitCh '\\' module
    let p0 := parts.headD ""
    if p0 == "App" || p0 == "Database" || p0 == "Tests" then none
    else some (lowerS (String.intercalate "/" (parts.take 2)))
  else some module

/-- `imp.module.split(/[./\\]/)[0]` — the root segment of a module path. -/
def rootSeg (module : String) : String :=
  (module.data.takeWhile (fun c => !(c == '.' || c == '/' || c == '\\'))).asString

/-- `checkDependencies` of src/analyzers.ts.  The file-system walk
`getInstalledPackages(filePath, language)` is I/O; its result (the
lower-cased installed-package set, or JS `null`) is therefore passed in as
the explicit `installed` parameter, and the pure remainder of the source
is modelled faithfully: when no install signal is available the status
stays `unknown`, and an install command is generated whenever the status
is not `installed`. -/
def checkDependencies (imports : List ImportInfo) (language : String)
    (installed : Option (List String)) : List DepIssue :=
  let externalImports := imports.filter fun imp =>
    if !isExternalImport imp language then false
    else if language == "python" && PY_STDLIB.contains (rootSeg imp.module) then false
    else if (beginsS language "javascript" || beginsS language "typescript") &&
        NODE_BUILTINS.contains imp.module then false
    else if language == "php" &&
        (let ns := (splitCh '\\' imp.module).headD ""
         ns == "App" || ns == "Database" || ns == "Tests") then false
    else true
  if externalImports.isEmpty then []
  else
    externalImports.flatMap fun imp =>
      match normalizeDep imp.module language with
      | none => []
      | some depName =>
        if depName == "" then []
        else
          let status : DepStatus :=
            match installed with
            | some inst =>
              if !inst.isEmpty then
                let lower := lowerS depName
                if inst.contains lower || inst.contains (replCh '-' '_' lower) ||
                    inst.contains (replCh '_' '-' lower) then .installed
                else .missing
              else .unknown
            | none => .unknown
          let installCmd :=
            if status ≠ .installed then
              if language == "python" then "pip install " ++ depName
              else if beginsS language "javascript" || beginsS language "typescript" then
                "npm install " ++ depName
              else if language == "php" then "composer require " ++ depName
              else ""
            else ""
          [{ name := depName, status := status, lineNumber := imp.lineNumber,
             installCmd := installCmd }]

/-- The marker words of `scanTodos`, in alternation order. -/
def todoWords : List String := ["TODO", "FIXME", "HACK", "BUG", "NOTE", "XXX"]

/-- `/\b(TODO|FIXME|HACK|BUG|NOTE|XXX)\b[:\s]*(.*)/i` searched in a line:
returns (matched marker text, rest-of-line group). -/
def todoM (line : String) : Option (String × String) :=
  go none line.data
where
  at1 (prev : Option Char) (s : List Char) : Option (String × String) :=
    let okLeft :=
      match prev with
      | some p => !wordC p
      | none => true
    if !okLeft then none
    else
      firstSome todoWords fun w =>
        match litCIP w.data s with
        | none => none
        | some r =>
          let okRight :=
            match r.head? with
            | some c => !wordC c
            | none => true
          if !okRight then none
          else
            let r2 := r.dropWhile (fun c => c == ':' || spaceC c)
            some ((matchedPart s r).asString, r2.asString)
  go : Option Char → List Char → Option (String × String)
    | _, [] => none
    | prev, c :: cs =>
      match at1 prev (c :: cs) with
      | some x => some x
      | none => go (some c) cs

/-- `text.replace` of the trailing close-comment: remove the first `*\/`
whose tail is all whitespace. -/
def dropTrailStar (t : List Char) : List Char :=
  match t with
  | [] => []
  | c :: cs =>
    if begins ['*', '/'] (c :: cs) && (ws0 ((c :: cs).drop 2)).isEmpty then []
    else c :: dropTrailStar cs

/-- `scanTodos` of src/analyzers.ts. -/
def scanTodos (lines : List String) : List TodoItem :=
  (List.range lines.length).filterMap fun i =>
    match lines.get? i with
    | none => none
    | some l =>
      match todoM l with
      | none => none
      | some (marker, rest) =>
        let up := upperS marker
        let ty : TKind :=
          if up == "TODO" then .todo
          else if up == "FIXME" then .fixme
          else if up == "HACK" then .hack
          else if up == "BUG" then .bug
          else if up == "NOTE" then .note
          else .hack  -- XXX is remapped to HACK by the source
        let t1 := jsTrim rest
        let t2 := (dropTrailStar t1.data).asString
        let t3 :=
          if endsL ['-', '-', '>'] t2.data then
            (t2.data.take (t2.data.length - 3)).asString
          else t2
        let text := jsTrim t3
        some { text := if text == "" then "(sin descripción)" else text
               type := ty
               lineNumber := i + 1 }

end Analyzers

-- ══════════════════════════════════════════════
-- src/htmlParser.ts (bundled in src/src/extension.ts) and src/languageRouter.ts
-- ══════════════════════════════════════════════

namespace HtmlParser

-- src/htmlParser.ts is bundled in src/src/extension.ts (the section between
-- its opening marker and the end-of-htmlParser marker); the definitions of
-- this namespace are translated from that code.

/-- A quote of the html regexes: double or single quote. -/
def qC (c : Char) : Bool := c == '"' || c == sqC

/-- An attribute pattern tail of the import regexes: the literal (for example
src= or href=), a quote, the nonempty non-quote value, a closing quote;
returns the captured value and the rest. -/
def attrValM (pat : List Char) (t : List Char) : Option (List Char × List Char) :=
  match litP pat t with
  | none => none
  | some t2 =>
    match t2 with
    | q :: rest =>
      if qC q then
        let content := rest.takeWhile (fun c => !qC c)
        if content.isEmpty then none
        else
          match rest.drop content.length with
          | q2 :: r2 => if qC q2 then some (content, r2) else none
          | [] => none
      else none
    | [] => none

/-- Greedy backtracking of the gap quantifier of the import regexes: consume
k characters (longest first, at least one, never past a closing angle
bracket because the caller bounds the fuel by the non-bracket run), then the
attribute tail must match. -/
def gapTry (pat : List Char) (r : List Char) : Nat → Option (List Char × List Char)
  | 0 => none
  | k + 1 =>
    match attrValM pat (r.drop (k + 1)) with
    | some res => some res
    | none => gapTry pat r k

/-- The script-src search of parseHtmlImports in src/src/extension.ts
(htmlParser.ts section): the src value of a script tag. -/
def scriptSrcM (line : String) : Option String :=
  go line.data
where
  at1 (s : List Char) : Option String :=
    match litP "<script".data s with
    | none => none
    | some r =>
      let run := r.takeWhile (fun c => c ≠ '>')
      match gapTry "src=".data r run.length with
      | some (content, _) => some content.asString
      | none => none
  go : List Char → Option String
    | [] => none
    | c :: cs =>
      match at1 (c :: cs) with
      | some v => some v
      | none => go cs

/-- The link-href search of parseHtmlImports: the href value of a link tag
that still closes with an angle bracket. -/
def linkHrefM (line : String) : Option String :=
  go line.data
where
  at1 (s : List Char) : Option String :=
    match litP "<link".data s with
    | none => none
    | some r =>
      let run := r.takeWhile (fun c => c ≠ '>')
      match gapTry "href=".data r run.length with
      | some (content, r2) =>
        let run2 := r2.takeWhile (fun c => c ≠ '>')
        (match r2.drop run2.length with
         | '>' :: _ => some content.asString
         | _ => none)
      | none => none
  go : List Char → Option String
    | [] => none
    | c :: cs =>
      match at1 (c :: cs) with
      | some v => some v
      | none => go cs

/-- The at-import search shared by parseHtmlImports and parseCssImports:
the quoted module after the import keyword, with an optional url-open. -/
def atImportM (line : String) : Option String :=
  go line.data
where
  quoted (t : List Char) : Option String :=
    match t with
    | q :: rest =>
      if qC q then
        let content := rest.takeWhile (fun c => !qC c)
        if content.isEmpty then none
        else
          match rest.drop content.length with
          | q2 :: _ => if qC q2 then some content.asString else none
          | [] => none
      else none
    | [] => none
  at1 (s : List Char) : Option String :=
    match litP "@import".data s with
    | none => none
    | some r =>
      match ws1 r with
      | none => none
      | some r1 =>
        match litP "url(".data r1 with
        | some r2 =>
          (match quoted r2 with
           | some v => some v
           | none => quoted r1)
        | none => quoted r1
  go : List Char → Option String
    | [] => none
    | c :: cs =>
      match at1 (c :: cs) with
      | some v => some v
      | none => go cs

/-- parseHtmlImports of src/src/extension.ts (htmlParser.ts section): script
sources, stylesheet links, at-imports; all three checks run on every line. -/
def parseHtmlImports (lines : List String) : List ImportInfo :=
  (List.range lines.length).flatMap fun i =>
    match lines.get? i with
    | none => []
    | some l =>
      let r1 : List ImportInfo :=
        match scriptSrcM l with
        | some m => [{ module := m, names := ["script"], isFrom := true, lineNumber := i + 1 }]
        | none => []
      let r2 :=
        match linkHrefM l with
        | some m =>
          if hasSubS l "stylesheet" || endsL ".css".data m.data then
            r1 ++ [{ module := m, names := ["stylesheet"], isFrom := true, lineNumber := i + 1 }]
          else r1
        | none => r1
      match atImportM l with
      | some m => r2 ++ [{ module := m, names := ["css"], isFrom := true, lineNumber := i + 1 }]
      | none => r2

/-- The major structural tags of parseHtmlComponents, in alternation
order. -/
def majorTags : List String :=
  ["header", "nav", "main", "section", "article", "aside", "footer", "form", "table", "div"]

/-- The case-insensitive tag alternation with its trailing word boundary:
a tag whose boundary fails lets the next alternative try (no tag of the
list is a prefix of another, so at most one can match the text). -/
def tagAltM (s : List Char) : Option (String × List Char) :=
  go majorTags
where
  go : List String → Option (String × List Char)
    | [] => none
    | tg :: rest =>
      match litCIP tg.data s with
      | some r =>
        if (match r.head? with | some c => wordC c | none => false) then go rest
        else some (tg, r)
      | none => go rest

/-- All characters are whitespace. -/
def allWs (cs : List Char) : Bool := cs.all spaceC

/-- The lazy attribute group of the major-tag regex, followed by an optional
closing angle bracket and trailing whitespace up to the end of the trimmed
line: shortest capture first; a closing bracket succeeds only when nothing
but whitespace follows it. -/
def attrsLazy : List Char → List Char → Option (List Char)
  | acc, [] => some acc.reverse
  | acc, c :: cs =>
    if c == '>' then (if allWs cs then some acc.reverse else none)
    else if allWs (c :: cs) then some acc.reverse
    else attrsLazy (c :: acc) cs

/-- The anchored major-tag match of parseHtmlComponents on a trimmed line:
returns the (lower-case) tag and the raw attribute text. -/
def majorTagM (t : String) : Option (String × String) :=
  match t.data with
  | '<' :: rest =>
    (match tagAltM rest with
     | none => none
     | some (tag, r2) =>
       match attrsLazy [] r2 with
       | some attrs => some (tag, attrs.asString)
       | none => none)
  | _ => none

/-- The attribute-name class of parseHtmlAttrs (word characters and the
hyphen). -/
def attrC (c : Char) : Bool := wordC c || c == '-'

/-- One attribute match of the global regex of parseHtmlAttrs: name, equals
sign, quote, possibly empty non-quote value, closing quote; returns the pair
and the rest of the input. -/
def attrAt (s : List Char) : Option ((String × String) × List Char) :=
  match s with
  | [] => none
  | c :: cs =>
    if wordC c then
      let run := cs.takeWhile attrC
      let name := (c :: run).asString
      match cs.drop run.length with
      | '=' :: t =>
        (match t with
         | q :: rest =>
           if qC q then
             let v := rest.takeWhile (fun x => !qC x)
             match rest.drop v.length with
             | q2 :: r2 => if qC q2 then some ((name, v.asString), r2) else none
             | [] => none
           else none
         | [] => none)
      | _ => none
    else none

/-- The global attribute scan of parseHtmlAttrs, fuel-bounded (each step
consumes at least one character). -/
def parseHtmlAttrsF : Nat → List Char → List PortInfo
  | 0, _ => []
  | _ + 1, [] => []
  | fuel + 1, c :: cs =>
    match attrAt (c :: cs) with
    | some ((n, v), rest) => { name := n, type := v } :: parseHtmlAttrsF fuel rest
    | none => parseHtmlAttrsF fuel cs

/-- parseHtmlAttrs of src/src/extension.ts (htmlParser.ts section). -/
def parseHtmlAttrs (s : String) : List PortInfo := parseHtmlAttrsF s.data.length s.data

/-- parseHtmlComponents of src/src/extension.ts (htmlParser.ts section):
major structural tags become class records named by id, first class, or
tag. -/
def parseHtmlComponents (lines : List String) : List ClassInfo :=
  (List.range lines.length).flatMap fun i =>
    match lines.get? i with
    | none => []
    | some l =>
      match majorTagM (jsTrim l) with
      | none => []
      | some (tag, attrStr) =>
        let attrs := parseHtmlAttrs attrStr
        let name :=
          match attrs.find? (fun a => a.name == "id") with
          | some idAttr => tag ++ "#" ++ idAttr.type
          | none =>
            match attrs.find? (fun a => a.name == "class") with
            | some classAttr => tag ++ "." ++ (splitCh ' ' classAttr.type).headD ""
            | none => tag
        [{ name := name, bases := [tag], methods := [], attributes := attrs,
           decorators := [], lineNumber := i + 1 }]

/-- The function-declaration search of parseInlineScriptFunctions: optional
async keyword (retried without it when the rest fails), the function
keyword, the name, and the parenthesised parameter text. -/
def htmlFuncM (t : List Char) : Option (String × String) :=
  go t
where
  tail (u : List Char) : Option (String × String) :=
    match litP "function".data u with
    | none => none
    | some r =>
      match ws1 r with
      | none => none
      | some r1 =>
        match word1 r1 with
        | none => none
        | some (nm, r2) =>
          match ws0 r2 with
          | '(' :: r3 =>
            let ps := r3.takeWhile (fun c => c ≠ ')')
            (match r3.drop ps.length with
             | ')' :: _ => some (nm.asString, ps.asString)
             | _ => none)
          | _ => none
  at1 (s : List Char) : Option (String × String) :=
    match litP "async".data s with
    | some r =>
      (match ws1 r with
       | some r1 =>
         (match tail r1 with
          | some v => some v
          | none => tail s)
       | none => tail s)
    | none => tail s
  go : List Char → Option (String × String)
    | [] => none
    | c :: cs =>
      match at1 (c :: cs) with
      | some v => some v
      | none => go cs

/-- The arrow-assignment search of parseInlineScriptFunctions: a declaration
keyword, the name, an equals sign, an optional async keyword, an opening
parenthesis. -/
def htmlArrowM (t : List Char) : Option String :=
  go t
where
  opensParen (u : List Char) : Bool := u.head? == some '('
  tryKw (kw : String) (s : List Char) : Option String :=
    match litP kw.data s with
    | none => none
    | some r =>
      match ws1 r with
      | none => none
      | some r1 =>
        match word1 r1 with
        | none => none
        | some (nm, r2) =>
          match ws0 r2 with
          | '=' :: r3 =>
            let r4 := ws0 r3
            let ok :=
              match litP "async".data r4 with
              | some r5 =>
                (match ws1 r5 with
                 | some r6 => opensParen r6 || opensParen r4
                 | none => opensParen r4)
              | none => opensParen r4
            if ok then some nm.asString else none
          | _ => none
  at1 (s : List Char) : Option String :=
    match tryKw "const" s with
    | some v => some v
    | none =>
      match tryKw "let" s with
      | some v => some v
      | none => tryKw "var" s
  go : List Char → Option String
    | [] => none
    | c :: cs =>
      match at1 (c :: cs) with
      | some v => some v
      | none => go cs

/-- parseInlineScriptFunctions of src/src/extension.ts (htmlParser.ts
section): toggle the in-script flag on script tags (an opener without a src
attribute enters, a closer leaves and skips the line) and harvest function
declarations and arrow assignments from in-script lines; isAsync is the
async substring test on the whole trimmed line. -/
def parseInlineScriptFunctions (lines : List String) : List MethodInfo :=
  ((List.range lines.length).foldl
    (fun (st : Bool × List MethodInfo) i =>
      match lines.get? i with
      | none => st
      | some line =>
        let t := jsTrim line
        let inS := if hasSubS t "<script" && !hasSubS t "src=" then true else st.1
        if hasSubS t "</script>" then (false, st.2)
        else if !inS then (inS, st.2)
        else
          let fns1 :=
            match htmlFuncM t.data with
            | some (nm, ps) =>
              st.2 ++ [{ name := nm,
                         params := ((splitCh ',' ps).filter (fun p => p ≠ "")).map
                           (fun p => { name := jsTrim p, type := "any" }),
                         returnType := "any", decorators := [], lineNumber := i + 1,
                         isAsync := hasSubS t "async", isPrivate := false,
                         complexity := 0 }]
            | none => st.2
          let fns2 :=
            match htmlArrowM t.data with
            | some nm =>
              fns1 ++ [{ name := nm, params := [], returnType := "any",
                         decorators := [], lineNumber := i + 1,
                         isAsync := hasSubS t "async", isPrivate := false,
                         complexity := 0 }]
            | none => fns1
          (inS, fns2))
    (false, [])).2

/-- countHtmlCodeLines of src/src/extension.ts (htmlParser.ts section):
non-blank lines outside comment regions; the lines opening and closing a
comment region are both skipped. -/
def countHtmlCodeLines (lines : List String) : Nat :=
  (lines.foldl
    (fun (st : Nat × Bool) l =>
      let t := jsTrim l
      let inC := if hasSubS t "<!--" then true else st.2
      if inC then (st.1, if hasSubS t "-->" then false else true)
      else if t == "" then (st.1, inC)
      else (st.1 + 1, inC))
    (0, false)).1

/-- The attribute-url search of detectHtmlHardcoded: one of href, src or
action, an equals sign, a quoted http or https url; returns the url and the
matched attribute name (the context the source records). -/
def urlHtmlM (line : String) : Option (String × String) :=
  go line.data
where
  urlTail (rest : List Char) : Option String :=
    match litP "http".data rest with
    | none => none
    | some r =>
      let r2opt :=
        match litP "s://".data r with
        | some x => some x
        | none =>
          match litP "://".data r with
          | some x => some x
          | none => none
      match r2opt with
      | none => none
      | some r2 =>
        let run := r2.takeWhile (fun c => !qC c)
        if run.isEmpty then none
        else some (matchedPart rest (r2.drop run.length)).asString
  tryAttr (kw : String) (s : List Char) : Option (String × String) :=
    match litP (kw ++ "=").data s with
    | none => none
    | some t =>
      match t with
      | q :: rest =>
        if qC q then
          match urlTail rest with
          | some v =>
            (match rest.drop v.length with
             | q2 :: _ => if qC q2 then some (v, kw) else none
             | [] => none)
          | none => none
        else none
      | [] => none
  at1 (s : List Char) : Option (String × String) :=
    match tryAttr "href" s with
    | some v => some v
    | none =>
      match tryAttr "src" s with
      | some v => some v
      | none => tryAttr "action" s
  go : List Char → Option (String × String)
    | [] => none
    | c :: cs =>
      match at1 (c :: cs) with
      | some v => some v
      | none => go cs

/-- detectHtmlHardcoded of src/src/extension.ts (htmlParser.ts section):
a quoted attribute url per line, else an ip literal with the inline
context. -/
def detectHtmlHardcoded (lines : List String) : List HardcodedValue :=
  (List.range lines.length).flatMap fun i =>
    match lines.get? i with
    | none => []
    | some l =>
      let r1 :=
        match urlHtmlM l with
        | some (v, ctx) =>
          [{ value := v, type := HKind.url, lineNumber := i + 1, context := ctx }]
        | none => []
      match PythonParser.ipM l, urlHtmlM l with
      | some v, none =>
        r1 ++ [{ value := v, type := HKind.ip, lineNumber := i + 1, context := "inline" }]
      | _, _ => r1

/-- detectHtmlUnused of src/src/extension.ts (htmlParser.ts section): its
loop body is empty, so the function always returns the empty list. -/
def detectHtmlUnused (_lines : List String) (_imports : List ImportInfo)
    (_classes : List ClassInfo) : List UnusedItem := []

/-- genHtmlDesc of src/src/extension.ts (htmlParser.ts section). -/
def genHtmlDesc (_lines : List String) (classes : List ClassInfo)
    (imports : List ImportInfo) (fileName : String) : String :=
  let scripts := (imports.filter (fun i => i.names.contains "script")).length
  let styles := (imports.filter
    (fun i => i.names.contains "stylesheet" || i.names.contains "css")).length
  let sections := classes.length
  fileName ++ " tiene " ++ toString sections ++ " secciones principales, " ++
    toString scripts ++ " script" ++ (if scripts ≠ 1 then "s" else "") ++ " y " ++
    toString styles ++ " stylesheet" ++ (if styles ≠ 1 then "s" else "") ++ "."

/-- parseHtmlCode of src/src/extension.ts (htmlParser.ts section). -/
def parseHtmlCode (code fileName : String) : FileStats :=
  let lines := splitLines code
  let meta := ParserUtils.parseMetaBlock code
  let imports := parseHtmlImports lines
  let classes := parseHtmlComponents lines
  let functions := parseInlineScriptFunctions lines
  let connections := imports.map (fun i => i.module)
  let codeLines := countHtmlCodeLines lines
  let hardcoded := detectHtmlHardcoded lines
  let unused := detectHtmlUnused lines imports classes
  let description :=
    match meta.bind (fun m => m.desc) with
    | some d => if d == "" then genHtmlDesc lines classes imports fileName else d
    | none => genHtmlDesc lines classes imports fileName
  let classDescriptions := classes.foldl
    (fun m c => setKey m c.name
      ("Secci\u00F3n <" ++ c.name ++ "> con " ++ toString c.attributes.length ++
       " atributo" ++ (if c.attributes.length ≠ 1 then "s" else "") ++ "."))
    []
  { fileName := fileName
    language := "html"
    meta := meta
    classes := classes
    functions := functions
    imports := imports
    globalVars := []
    connections := connections
    errorTypes := []
    debugPoints := []
    totalLines := lines.length
    codeLines := codeLines
    warnings := []
    description := description
    classDescriptions := classDescriptions
    hardcoded := hardcoded
    unused := unused
    diagnostics := []
    depIssues := []
    todos := []
    externalUsage := [] }

/-- The selector character class of parseCssSelectors. -/
def cssSelC (c : Char) : Bool :=
  wordC c || c == '-' || c == ':' || c == '[' || c == ']' || c == '=' || c == '*' ||
  c == '>' || c == '~' || c == '+' || c == ',' || c == ' ' || c == '.' || c == '#'

/-- The anchored selector match of parseCssSelectors on a trimmed line: an
optional at sign (dot and hash already belong to the class), a nonempty run
of selector characters, then the opening brace; the raw capture is returned
(the caller trims it). -/
def cssSelM (t : String) : Option String :=
  match t.data with
  | '@' :: tl =>
    let run := tl.takeWhile cssSelC
    if run.isEmpty then none
    else
      (match tl.drop run.length with
       | '{' :: _ => some ('@' :: run).asString
       | _ => none)
  | other =>
    let run := other.takeWhile cssSelC
    if run.isEmpty then none
    else
      match other.drop run.length with
      | '{' :: _ => some run.asString
      | _ => none

/-- The per-line brace delta of parseCssProps. -/
def cssBraces : List Char → Int → Int
  | [], d => d
  | c :: cs, d => cssBraces cs (if c == '{' then d + 1 else if c == '}' then d - 1 else d)

/-- The anchored property match of parseCssProps on a trimmed line: the
hyphenated name, a colon, then the lazy value group ending before a
semicolon or at the end of the line (when only whitespace follows the
colon, the backtracked value is its last whitespace character); the value
is trimmed as the source does. -/
def propM (t : String) : Option (String × String) :=
  let run := t.data.takeWhile attrC
  if run.isEmpty then none
  else
    match ws0 (t.data.drop run.length) with
    | ':' :: r3 =>
      let w := r3.takeWhile spaceC
      let rest := r3.drop w.length
      (match rest with
       | c :: cs => some (run.asString, jsTrim (c :: cs.takeWhile (fun x => x ≠ ';')).asString)
       | [] =>
         match w.reverse with
         | [] => none
         | c :: _ => some (run.asString, jsTrim [c].asString))
    | _ => none

/-- The body walk of parseCssProps: count braces on each line, record
properties after the selector line, stop once the depth returns to zero.
Fuel as elsewhere (each step advances one line). -/
def parseCssPropsAux (lines : List String) (start : Nat) :
    Nat → Nat → Int → List PortInfo → List PortInfo
  | 0, _, _, acc => acc
  | fuel + 1, i, d, acc =>
    match lines.get? i with
    | none => acc
    | some l =>
      let d2 := cssBraces l.data d
      let acc2 :=
        if i > start then
          match propM (jsTrim l) with
          | some (n, v) => acc ++ [{ name := n, type := v }]
          | none => acc
        else acc
      if d2 ≤ 0 ∧ i > start then acc2
      else parseCssPropsAux lines start fuel (i + 1) d2 acc2

/-- parseCssProps of src/src/extension.ts (htmlParser.ts section). -/
def parseCssProps (lines : List String) (start : Nat) : List PortInfo :=
  parseCssPropsAux lines start lines.length start 0 []

/-- parseCssSelectors of src/src/extension.ts (htmlParser.ts section). -/
def parseCssSelectors (lines : List String) : List ClassInfo :=
  (List.range lines.length).flatMap fun i =>
    match lines.get? i with
    | none => []
    | some l =>
      let t := jsTrim l
      match cssSelM t with
      | some sel =>
        if !beginsS t "/*" then
          [{ name := jsTrim sel, bases := [], methods := [],
             attributes := parseCssProps lines i, decorators := [], lineNumber := i + 1 }]
        else []
      | none => []

/-- parseCssImports of src/src/extension.ts (htmlParser.ts section). -/
def parseCssImports (lines : List String) : List ImportInfo :=
  (List.range lines.length).flatMap fun i =>
    match lines.get? i with
    | none => []
    | some l =>
      match atImportM l with
      | some m => [{ module := m, names := ["css"], isFrom := true, lineNumber := i + 1 }]
      | none => []

/-- parseCssCode of src/src/extension.ts (htmlParser.ts section). -/
def parseCssCode (code fileName : String) : FileStats :=
  let lines := splitLines code
  let meta := ParserUtils.parseMetaBlock code
  let selectors := parseCssSelectors lines
  let imports := parseCssImports lines
  let codeLines := countHtmlCodeLines lines
  let hardcoded := detectHtmlHardcoded lines
  let fallbackDesc :=
    "Hoja de estilos con " ++ toString selectors.length ++ " selectores. " ++
    (if imports.length ≠ 0 then
      "Importa: " ++ String.intercalate ", " (imports.map (fun i => i.module)) ++ "."
     else "")
  let description :=
    match meta.bind (fun m => m.desc) with
    | some d => if d == "" then fallbackDesc else d
    | none => fallbackDesc
  { fileName := fileName
    language := "css"
    meta := meta
    classes := selectors
    functions := []
    imports := imports
    globalVars := []
    connections := imports.map (fun i => i.module)
    errorTypes := []
    debugPoints := []
    totalLines := lines.length
    codeLines := codeLines
    warnings := []
    description := description
    classDescriptions := []
    hardcoded := hardcoded
    unused := []
    diagnostics := []
    depIssues := []
    todos := []
    externalUsage := [] }

end HtmlParser

namespace LanguageRouter

/-- `parseCode` of src/languageRouter.ts: dispatch on the language tag
(unsupported tags fall back to the Python extractor), then enrich the
result with the marker-comment scan; diagnostics and dependency issues are
left for the host editor (the arrays are already present, so the falsy
guards of the source do nothing). -/
def parseCode (code fileName languageId : String) : FileStats :=
  let stats :=
    match languageId with
    | "python" => PythonParser.parsePythonCode code fileName
    | "javascript" => JsParser.parseJsCode code fileName
    | "typescript" => JsParser.parseJsCode code fileName
    | "javascriptreact" => JsParser.parseJsCode code fileName
    | "typescriptreact" => JsParser.parseJsCode code fileName
    | "php" => PhpParser.parsePhpCode code fileName
    | "html" => HtmlParser.parseHtmlCode code fileName
    | "css" => HtmlParser.parseCssCode code fileName
    | _ => PythonParser.parsePythonCode code fileName
  let lines := splitLines code
  { stats with todos := Analyzers.scanTodos lines }

end LanguageRouter

-- ══════════════════════════════════════════════
-- Claims
-- ══════════════════════════════════════════════

/-- C1: for every input string and every language tag (supported or not),
the top-level entry point `parseCode` returns a complete summary — in the
embedding it is a total function whose result always carries the full line
count of the unmodified input, the requested file name, and an empty
diagnostics list (no error channel is ever populated by extraction);
constructs that match nothing simply contribute no records. -/
theorem claim_C1 (code fileName languageId : String) :
    (LanguageRouter.parseCode code fileName languageId).totalLines =
      (splitLines code).length ∧
    (LanguageRouter.parseCode code fileName languageId).diagnostics = [] ∧
    (LanguageRouter.parseCode code fileName languageId).fileName = fileName := by
  unfold LanguageRouter.parseCode
  split <;> exact ⟨rfl, rfl, rfl⟩

/-- C2: extraction is deterministic — two runs of `parseCode` on identical
source text, file name and language tag agree on every field that is not
populated by external enrichment (diagnostics, depIssues, externalUsage). -/
theorem claim_C2 (code fileName languageId : String) (s₁ s₂ : FileStats)
    (h₁ : s₁ = LanguageRouter.parseCode code fileName languageId)
    (h₂ : s₂ = LanguageRouter.parseCode code fileName languageId) :
    s₁.fileName = s₂.fileName ∧ s₁.language = s₂.language ∧ s₁.meta = s₂.meta ∧
    s₁.classes = s₂.classes ∧ s₁.functions = s₂.functions ∧ s₁.imports = s₂.imports ∧
    s₁.globalVars = s₂.globalVars ∧ s₁.connections = s₂.connections ∧
    s₁.errorTypes = s₂.errorTypes ∧ s₁.debugPoints = s₂.debugPoints ∧
    s₁.totalLines = s₂.totalLines ∧ s₁.codeLines = s₂.codeLines ∧
    s₁.warnings = s₂.warnings ∧ s₁.description = s₂.description ∧
    s₁.classDescriptions = s₂.classDescriptions ∧ s₁.hardcoded = s₂.hardcoded ∧
    s₁.unused = s₂.unused ∧ s₁.todos = s₂.todos := by
  subst h₁; subst h₂
  exact ⟨rfl, rfl, rfl, rfl, rfl, rfl, rfl, rfl, rfl, rfl, rfl, rfl, rfl, rfl, rfl,
    rfl, rfl, rfl⟩

/-- Witness for C2 at a concrete input. -/
theorem claim_C2_witness :
    (LanguageRouter.parseCode "x = 1" "a.py" "python").imports =
      (LanguageRouter.parseCode "x = 1" "a.py" "python").imports ∧
    (LanguageRouter.parseCode "x = 1" "a.py" "python").hardcoded =
      (LanguageRouter.parseCode "x = 1" "a.py" "python").hardcoded :=
  ⟨(claim_C2 "x = 1" "a.py" "python" _ _ rfl rfl).2.2.2.2.2.1,
   (claim_C2 "x = 1" "a.py" "python" _ _ rfl rfl).2.2.2.2.2.2.2.2.2.2.2.2.2.2.2.1⟩

/-- C8 (code bug): the string-kind rule of hardcoded-value detection never
fires.  A plain non-constant assignment of a quoted literal of length at
least eight yields no finding from the Python scanner (whose string-kind
push sits under contradictory guards), and none from the shared scanner
(which has no string rule at all). -/
theorem claim_C8 :
    PythonParser.detectHardcodedValues ["msg = \"abcdefghij\""] = [] ∧
    ParserUtils.detectHardcoded ["msg = \"abcdefghij\""] "//" = [] := by
  exact ⟨rfl, rfl⟩

/-- C6 counterexample: `raise Exception` puts the generic base name
`Exception` into the extraction result, so the errorTypes list does not
always exclude it. -/
theorem claim_C6_counterexample :
    "Exception" ∈ (PythonParser.parsePythonCode "raise Exception" "a.py").errorTypes := by
  have h : (PythonParser.parsePythonCode "raise Exception" "a.py").errorTypes =
      ["Exception"] := rfl
  rw [h]
  exact List.mem_singleton.2 rfl

/-- C3 counterexample: the line `auth = "s3cr3t123"` matches the credential
pattern described by the claim (identifier `auth`, quoted literal), but the
Python scanner — whose regex lacks the `auth` alternative — emits no
finding at all for it, not one credential finding. -/
theorem claim_C3_counterexample :
    PythonParser.detectHardcodedValues ["auth = \"s3cr3t123\""] = [] := rfl

/-- C4 counterexample: with no manifest or verification signal
(`installed = none`), the resolver reports status `unknown` but still
attaches the install hint, contradicting the claim that no hint is
produced. -/
theorem claim_C4_counterexample :
    Analyzers.checkDependencies
      [{ module := "requests", names := ["requests"], isFrom := false, lineNumber := 3 }]
      "python" none =
      [{ name := "requests", status := .unknown, lineNumber := 3,
         installCmd := "pip install requests" }] := rfl

/-- C5 counterexample: the imported name `jsonx` occurs (outside its import
line) only inside the string literal `"jsonx # something"`, yet it is not
reported unused: comment stripping runs before string stripping, the `#`
inside the literal truncates the line, and the name survives in the
unterminated literal. -/
theorem claim_C5_counterexample :
    PythonParser.detectUnusedCode
      ["from foo import jsonx", "x = \"jsonx # something\""]
      [{ module := "foo", names := ["jsonx"], isFrom := true, lineNumber := 1 }] [] [] =
      [] := rfl

/-- The spec scenario input for C7: a brace-delimited callable whose body
contains the string literal with an (balanced) brace pair inside it,
followed by the real closing braces and, after them, arbitrary further
lines. -/
def c7Lines : List String :=
  ["class A \x7b",
   "  m() \x7b",
   "    const s = \"{ not a real brace }\";",
   "    if (x) { y(); }",
   "  \x7d",
   "\x7d"]

/-- C7: for the brace-delimited callable whose body contains the literal
`"{ not a real brace }"`, the body-span computation ends at the real
closing brace (the first line where the running depth returns to zero
after going positive): whatever lines follow the class, the branch count
of the callable stays 1 (the single `if` inside the body; the `if` lines
in `rest` are never reached), and the extracted method record is exactly
the one callable with complexity 1. -/
theorem claim_C7 (rest : List String) :
    JsParser.countJsBranches (c7Lines ++ rest) 1 = 1 ∧
    JsParser.parseJsClassMethods (c7Lines ++ rest) 0 =
      [{ name := "m", params := [], returnType := "any", decorators := [],
         lineNumber := 2, isAsync := false, isPrivate := false, complexity := 1 }] :=
  ⟨rfl, rfl⟩

/-- Inserting into a JS `Set` keeps the element list duplicate-free. -/
theorem insertUniq_nodup (l : List String) (s : String) (h : l.Nodup) :
    (insertUniq l s).Nodup := by
  unfold insertUniq
  by_cases hs : s ∈ l
  · simp [hs, h]
  · simp [hs]
    exact List.Nodup.append h (List.nodup_singleton s)
      (by simp [List.Disjoint]; intro a ha hEq; exact hs (hEq ▸ ha))

/-- A fold whose step preserves an invariant preserves it overall. -/
theorem foldl_inv {α β : Type} (P : β → Prop) (step : β → α → β)
    (hstep : ∀ b a, P b → P (step b a)) :
    ∀ (l : List α) (b : β), P b → P (l.foldl step b) := by
  intro l
  induction l with
  | nil => intro b hb; exact hb
  | cons x xs ih => intro b hb; exact ih (step b x) (hstep b x hb)

/-- Membership in an insertion is membership before or equality. -/
theorem mem_insertUniq (l : List String) (s x : String) :
    x ∈ insertUniq l s ↔ x ∈ l ∨ x = s := by
  unfold insertUniq
  by_cases hs : s ∈ l
  · simp [hs]
    intro hx; rw [hx]; exact hs
  · simp [hs]

/-- C10: the errorTypes lists produced by the three error harvesters
(Python, JavaScript, PHP) never contain duplicates — each one accumulates
into a JS `Set`. -/
theorem claim_C10 (lines : List String) :
    (PythonParser.parseErrorTypes lines).Nodup ∧
    (JsParser.parseJsErrors lines).Nodup ∧
    (PhpParser.parsePhpErrors lines).Nodup := by
  refine ⟨?_, ?_, ?_⟩
  · unfold PythonParser.parseErrorTypes
    apply foldl_inv (List.Nodup)
    · intro acc line hacc
      cases PythonParser.raiseM line with
      | none =>
        simp only
        cases PythonParser.exceptM line with
        | none => exact hacc
        | some w =>
          simp only
          split
          · exact insertUniq_nodup _ _ hacc
          · exact hacc
      | some w =>
        simp only
        cases PythonParser.exceptM line with
        | none => exact insertUniq_nodup _ _ hacc
        | some w2 =>
          simp only
          split
          · exact insertUniq_nodup _ _ (insertUniq_nodup _ _ hacc)
          · exact insertUniq_nodup _ _ hacc
    · exact List.nodup_nil
  · unfold JsParser.parseJsErrors
    apply foldl_inv (List.Nodup)
    · intro acc line hacc
      rcases JsParser.throwNewM line with _ | w <;>
        rcases JsParser.catchJsM line with _ | ⟨v, _ | ty⟩ <;>
        try dsimp only
      · exact hacc
      · exact hacc
      · exact insertUniq_nodup _ _ hacc
      · exact insertUniq_nodup _ _ hacc
      · exact insertUniq_nodup _ _ hacc
      · exact insertUniq_nodup _ _ (insertUniq_nodup _ _ hacc)
    · exact List.nodup_nil
  · unfold PhpParser.parsePhpErrors
    apply foldl_inv (List.Nodup)
    · intro acc line hacc
      cases JsParser.throwNewM line with
      | none =>
        simp only
        cases PhpParser.catchPhpM line with
        | none => exact hacc
        | some ty => exact insertUniq_nodup _ _ hacc
      | some w =>
        simp only
        cases PhpParser.catchPhpM line with
        | none => exact insertUniq_nodup _ _ hacc
        | some ty => exact insertUniq_nodup _ _ (insertUniq_nodup _ _ hacc)
    · exact List.nodup_nil

/-- One step of the fold inside PythonParser.parseErrorTypes, named so the
accumulation can be reasoned about. -/
def pyErrStep (acc : List String) (line : String) : List String :=
  let acc1 :=
    match PythonParser.raiseM line with
    | some w => insertUniq acc w
    | none => acc
  match PythonParser.exceptM line with
  | some w => if w ≠ "Exception" then insertUniq acc1 w else acc1
  | none => acc1

/-- The string Exception enters a single errorTypes step exactly through the
raise branch: the except branch filters it out. -/
theorem mem_pyErrStep (acc : List String) (line : String) :
    "Exception" ∈ pyErrStep acc line ↔
      "Exception" ∈ acc ∨ PythonParser.raiseM line = some "Exception" := by
  unfold pyErrStep
  cases hr : PythonParser.raiseM line with
  | none =>
    cases he : PythonParser.exceptM line with
    | none => simp
    | some w =>
      dsimp only
      split
      · rename_i hw
        rw [mem_insertUniq]
        constructor
        · rintro (h | h)
          · exact Or.inl h
          · exact absurd h.symm hw
        · rintro (h | h)
          · exact Or.inl h
          · exact Option.noConfusion h
      · simp
  | some w =>
    cases he : PythonParser.exceptM line with
    | none =>
      dsimp only
      rw [mem_insertUniq]
      constructor
      · rintro (h | h)
        · exact Or.inl h
        · exact Or.inr (congrArg Option.some h.symm)
      · rintro (h | h)
        · exact Or.inl h
        · exact Or.inr (Option.some.inj h).symm
    | some w2 =>
      dsimp only
      split
      · rename_i hw
        rw [mem_insertUniq, mem_insertUniq]
        constructor
        · rintro ((h | h) | h)
          · exact Or.inl h
          · exact Or.inr (congrArg Option.some h.symm)
          · exact absurd h.symm hw
        · rintro (h | h)
          · exact Or.inl (Or.inl h)
          · exact Or.inl (Or.inr (Option.some.inj h).symm)
      · rw [mem_insertUniq]
        constructor
        · rintro (h | h)
          · exact Or.inl h
          · exact Or.inr (congrArg Option.some h.symm)
        · rintro (h | h)
          · exact Or.inl h
          · exact Or.inr (Option.some.inj h).symm

/-- Folding pyErrStep over a list of lines: Exception is present iff it was
already present or some line carries raise Exception. -/
theorem mem_pyErrFold (lines : List String) :
    ∀ acc, "Exception" ∈ lines.foldl pyErrStep acc ↔
      "Exception" ∈ acc ∨ ∃ l ∈ lines, PythonParser.raiseM l = some "Exception" := by
  induction lines with
  | nil => intro acc; simp
  | cons x xs ih =>
    intro acc
    rw [List.foldl_cons, ih (pyErrStep acc x), mem_pyErrStep]
    constructor
    · rintro ((h | h) | h)
      · exact Or.inl h
      · exact Or.inr ⟨x, List.mem_cons_self x xs, h⟩
      · rcases h with ⟨l, hl, hr⟩
        exact Or.inr ⟨l, List.mem_cons_of_mem x hl, hr⟩
    · rintro (h | ⟨l, hl, hr⟩)
      · exact Or.inl (Or.inl h)
      · rcases List.mem_cons.mp hl with h1 | h1
        · exact Or.inl (Or.inr (h1 ▸ hr))
        · exact Or.inr ⟨l, h1, hr⟩

/-- C6: corrected form of the claim that parseErrorTypes excludes the generic
Exception. The except branch does filter the word Exception out, but the raise
branch does not: Exception appears in the result exactly when some line matches
raise Exception. The unrestricted exclusion claimed by the spec is refuted by
claim_C6_counterexample. -/
theorem claim_C6 (lines : List String) :
    "Exception" ∈ PythonParser.parseErrorTypes lines ↔
      ∃ l ∈ lines, PythonParser.raiseM l = some "Exception" := by
  have h : PythonParser.parseErrorTypes lines = lines.foldl pyErrStep [] := rfl
  rw [h, mem_pyErrFold]
  simp

/-- C4: corrected form of the claim about unresolved dependency status. When no
install signal is available (the installed-package walk returned null or an
empty set), every emitted DependencyIssue indeed has status unknown — but it
does NOT carry an empty install hint: checkDependencies fills installCmd with
the language-specific install command whenever the status is not installed,
including unknown. The spec sentence that no install hint is produced is
refuted by claim_C4_counterexample. -/
theorem claim_C4 (imports : List ImportInfo) (language : String)
    (installed : Option (List String))
    (h : installed = none ∨ installed = some []) :
    ∀ issue ∈ Analyzers.checkDependencies imports language installed,
      issue.status = DepStatus.unknown ∧
      issue.installCmd =
        (if language == "python" then "pip install " ++ issue.name
         else if beginsS language "javascript" || beginsS language "typescript" then
           "npm install " ++ issue.name
         else if language == "php" then "composer require " ++ issue.name
         else "") := by
  intro issue hmem
  unfold Analyzers.checkDependencies at hmem
  dsimp only at hmem
  split at hmem
  · exact absurd hmem (List.not_mem_nil issue)
  · rw [List.mem_flatMap] at hmem
    rcases hmem with ⟨imp, himp, hin⟩
    cases hnorm : Analyzers.normalizeDep imp.module language with
    | none =>
      rw [hnorm] at hin
      exact absurd hin (List.not_mem_nil issue)
    | some depName =>
      rw [hnorm] at hin
      dsimp only at hin
      split at hin
      · exact absurd hin (List.not_mem_nil issue)
      · rw [List.mem_singleton] at hin
        subst hin
        rcases h with h | h <;> subst h <;> exact ⟨rfl, by simp⟩

/-- The single dependency issue produced in the claim_C4 witness scenario. -/
def c4Issue : DepIssue :=
  { name := "requests", status := DepStatus.unknown, lineNumber := 1,
    installCmd := "pip install requests" }

/-- Concrete instance of claim_C4: a single external Python import with no
install signal yields an unknown-status issue carrying a pip install hint. -/
theorem claim_C4_witness :
    c4Issue.status = DepStatus.unknown ∧
    c4Issue.installCmd =
      (if "python" == "python" then "pip install " ++ c4Issue.name
       else if beginsS "python" "javascript" || beginsS "python" "typescript" then
         "npm install " ++ c4Issue.name
       else if "python" == "php" then "composer require " ++ c4Issue.name
       else "") :=
  claim_C4 [{ module := "requests", names := ["requests"], isFrom := true, lineNumber := 1 }]
    "python" none (Or.inl rfl) c4Issue (by decide)

/-- Filtering distributes over flatMap. -/
theorem filter_flatMap_list {α β : Type} (l : List α) (f : α → List β) (p : β → Bool) :
    (l.flatMap f).filter p = l.flatMap fun a => (f a).filter p := by
  induction l with
  | nil => rfl
  | cons x xs ih => simp [List.flatMap_cons, List.filter_append, ih]

/-- A flatMap all of whose pieces are empty is empty. -/
theorem flatMap_nil_of_all {α β : Type} (l : List α) (f : α → List β)
    (h : ∀ a ∈ l, f a = []) : l.flatMap f = [] := by
  induction l with
  | nil => rfl
  | cons x xs ih =>
    rw [List.flatMap_cons, h x (List.mem_cons_self x xs), List.nil_append]
    exact ih (fun a ha => h a (List.mem_cons_of_mem x ha))

/-- A flatMap over an index range in which only index i contributes equals
the contribution of i. -/
theorem flatMap_range_single {β : Type} (g : Nat → List β) :
    ∀ (n i : Nat), i < n → (∀ j, j < n → j ≠ i → g j = []) →
      (List.range n).flatMap g = g i := by
  intro n
  induction n with
  | zero => intro i hi _; omega
  | succ m ih =>
    intro i hi h0
    rw [List.range_succ, List.flatMap_append, List.flatMap_cons, List.flatMap_nil,
      List.append_nil]
    by_cases him : i = m
    · subst him
      have hnil : (List.range i).flatMap g = [] := by
        apply flatMap_nil_of_all
        intro j hj
        have hjm := List.mem_range.mp hj
        exact h0 j (by omega) (by omega)
      rw [hnil, List.nil_append]
    · have hrec : (List.range m).flatMap g = g i :=
        ih i (by omega) (fun j hj hne => h0 j (by omega) hne)
      rw [hrec, h0 m (by omega) (fun he => him he.symm), List.append_nil]

/-- Every finding contributed by line index j of the shared hardcoded-value
scanner carries the 1-based line number j + 1. -/
theorem hardLineU_lineNumber (j : Nat) (l cMark : String) :
    ∀ hv ∈ ParserUtils.hardLineU j l cMark, hv.lineNumber = j + 1 := by
  intro hv hmem
  unfold ParserUtils.hardLineU at hmem
  dsimp only at hmem
  split at hmem
  · exact absurd hmem (List.not_mem_nil hv)
  split at hmem
  · exact absurd hmem (List.not_mem_nil hv)
  split at hmem
  · exact absurd hmem (List.not_mem_nil hv)
  repeat' split at hmem
  all_goals
    simp only [List.mem_append, List.mem_singleton, List.not_mem_nil, or_false,
      false_or] at hmem
  all_goals try casesm* _ ∨ _
  all_goals subst_vars
  all_goals rfl

/-- C3: amended per-line credential property, stated for the shared scanner
of src/parserUtils.ts, whose alternation does include auth. On any line that
survives the blank/comment/meta/import guards and matches the credential
pattern, the scanner emits exactly one finding for that line, of kind
credential (the url/ip/number rules being behind the early credential
return). The Python scanner of src/pythonParser.ts lacks the auth
alternative, so the claim as stated over auth lines is refuted there by
claim_C3_counterexample. -/
theorem claim_C3 (lines : List String) (cMark : String) (i : Nat) (line v : String)
    (hget : lines.get? i = some line)
    (hg1 : (jsTrim line == "" || beginsS (jsTrim line) cMark || beginsS (jsTrim line) "#") = false)
    (hg2 : (hasSubS (jsTrim line) "---meta" || hasSubS (jsTrim line) "---") = false)
    (hg3 : (["import ", "from ", "use ", "require", "include"].any (beginsS (jsTrim line))) = false)
    (hcred : ParserUtils.credMU line = some v) :
    (ParserUtils.detectHardcoded lines cMark).filter (fun r => r.lineNumber == i + 1) =
      [{ value := v, type := HKind.credential, lineNumber := i + 1,
         context := ParserUtils.ctxU (jsTrim line) }] := by
  have hlt : i < lines.length := by
    rcases List.get?_eq_some.mp hget with ⟨h, _⟩
    exact h
  have hline : ParserUtils.hardLineU i line cMark =
      [{ value := v, type := HKind.credential, lineNumber := i + 1,
         context := ParserUtils.ctxU (jsTrim line) }] := by
    unfold ParserUtils.hardLineU
    dsimp only
    rw [hg1, hg2, hg3, hcred]
    simp
  unfold ParserUtils.detectHardcoded
  rw [filter_flatMap_list]
  rw [flatMap_range_single _ lines.length i hlt]
  · rw [hget]
    dsimp only
    rw [hline]
    simp [List.filter]
  · intro j hj hne
    cases hj2 : lines.get? j with
    | none => rfl
    | some lj =>
      dsimp only
      apply List.filter_eq_nil_iff.mpr
      intro hv hmem
      have hln := hardLineU_lineNumber j lj cMark hv hmem
      simp only [hln]
      simp
      omega

/-- The line of the C3 witness scenario (the scenario named by the spec). -/
def c3Line : String := "password = \"s3cr3t123\""

/-- Concrete instance of claim_C3: the spec scenario line, fed to the shared
scanner, yields exactly one credential finding for its line. -/
theorem claim_C3_witness :
    ([c3Line].get? 0 = some c3Line) ∧
    ((jsTrim c3Line == "" || beginsS (jsTrim c3Line) "//" || beginsS (jsTrim c3Line) "#") = false) ∧
    ((hasSubS (jsTrim c3Line) "---meta" || hasSubS (jsTrim c3Line) "---") = false) ∧
    ((["import ", "from ", "use ", "require", "include"].any (beginsS (jsTrim c3Line))) = false) ∧
    (ParserUtils.credMU c3Line = some c3Line) ∧
    (ParserUtils.detectHardcoded [c3Line] "//").filter (fun r => r.lineNumber == 0 + 1) =
      [{ value := c3Line, type := HKind.credential, lineNumber := 0 + 1,
         context := ParserUtils.ctxU (jsTrim c3Line) }] :=
  ⟨rfl, rfl, rfl, rfl, rfl,
    claim_C3 [c3Line] "//" 0 c3Line c3Line rfl rfl rfl rfl rfl⟩

/-- 1-based line number within a file of `total` lines. -/
def lnOk (total n : Nat) : Bool := Nat.ble 1 n && Nat.ble n total

theorem lnOk_iff (total n : Nat) : lnOk total n = true ↔ 1 ≤ n ∧ n ≤ total := by
  simp [lnOk, Nat.ble_eq]

/-- Checker for the spec invariant: every lineNumber field of every record of
an extraction result (imports, classes, methods, findings, unused items,
debug points, todos, dependency issues) is between 1 and totalLines. -/
def lineNumsOk (fs : FileStats) : Bool :=
  fs.imports.all (fun im => lnOk fs.totalLines im.lineNumber) &&
  fs.classes.all (fun c =>
    lnOk fs.totalLines c.lineNumber &&
    c.methods.all (fun m => lnOk fs.totalLines m.lineNumber)) &&
  fs.functions.all (fun m => lnOk fs.totalLines m.lineNumber) &&
  fs.hardcoded.all (fun h => lnOk fs.totalLines h.lineNumber) &&
  fs.unused.all (fun u => lnOk fs.totalLines u.lineNumber) &&
  fs.debugPoints.all (fun d => lnOk fs.totalLines d) &&
  fs.todos.all (fun t => lnOk fs.totalLines t.lineNumber) &&
  fs.depIssues.all (fun d => lnOk fs.totalLines d.lineNumber)

/-- Every import record contributed by line index i carries line number
i + 1. -/
theorem importsAt_lineNumber (i : Nat) (raw : String) :
    ∀ im ∈ PythonParser.importsAt i raw, im.lineNumber = i + 1 := by
  intro im hmem
  unfold PythonParser.importsAt at hmem
  dsimp only at hmem
  split at hmem
  · rw [List.mem_singleton] at hmem
    subst hmem
    rfl
  · split at hmem
    · rcases List.mem_map.mp hmem with ⟨mod, _, hEq⟩
      subst hEq
      rfl
    · exact absurd hmem (List.not_mem_nil im)

/-- Import records of the Python extractor carry in-range line numbers. -/
theorem parseImports_lineNumber (lines : List String) :
    ∀ im ∈ PythonParser.parseImports lines,
      1 ≤ im.lineNumber ∧ im.lineNumber ≤ lines.length := by
  intro im hmem
  unfold PythonParser.parseImports at hmem
  rcases List.mem_flatMap.mp hmem with ⟨i, hi, hx⟩
  have hilt := List.mem_range.mp hi
  cases hg : lines.get? i with
  | none => rw [hg] at hx; exact absurd hx (List.not_mem_nil im)
  | some l =>
    rw [hg] at hx
    have := importsAt_lineNumber i l im hx
    omega

/-- Method records found by the class-body scanner carry in-range line
numbers. -/
theorem parseClassMethodsAux_lineNumber (lines : List String) (ci mi : Nat) :
    ∀ (fuel i : Nat), ∀ m ∈ PythonParser.parseClassMethodsAux lines ci mi fuel i,
      1 ≤ m.lineNumber ∧ m.lineNumber ≤ lines.length := by
  intro fuel
  induction fuel with
  | zero => intro i m hm; exact absurd hm (List.not_mem_nil m)
  | succ f ih =>
    intro i m hm
    unfold PythonParser.parseClassMethodsAux at hm
    cases hg : lines.get? i with
    | none => rw [hg] at hm; exact absurd hm (List.not_mem_nil m)
    | some line =>
      rw [hg] at hm
      dsimp only at hm
      split at hm
      · exact ih (i + 1) m hm
      · split at hm
        · exact absurd hm (List.not_mem_nil m)
        · split at hm
          · split at hm
            · rcases List.mem_cons.mp hm with h | h
              · subst h
                have hilt : i < lines.length := by
                  rcases List.get?_eq_some.mp hg with ⟨hh, _⟩
                  exact hh
                exact ⟨Nat.succ_le_succ (Nat.zero_le i), hilt⟩
              · exact ih (i + 1) m h
            · exact ih (i + 1) m hm
          · exact ih (i + 1) m hm

/-- Class records of the Python extractor, and the methods inside them,
carry in-range line numbers. -/
theorem parseClasses_lineNumber (lines : List String) :
    ∀ c ∈ PythonParser.parseClasses lines,
      (1 ≤ c.lineNumber ∧ c.lineNumber ≤ lines.length) ∧
      ∀ m ∈ c.methods, 1 ≤ m.lineNumber ∧ m.lineNumber ≤ lines.length := by
  intro c hmem
  unfold PythonParser.parseClasses at hmem
  rcases List.mem_flatMap.mp hmem with ⟨i, hi, hx⟩
  have hilt := List.mem_range.mp hi
  cases hg : lines.get? i with
  | none => rw [hg] at hx; exact absurd hx (List.not_mem_nil c)
  | some line =>
    rw [hg] at hx
    dsimp only at hx
    split at hx
    · rw [List.mem_singleton] at hx
      subst hx
      refine ⟨⟨Nat.succ_le_succ (Nat.zero_le i), hilt⟩, ?_⟩
      intro m hm
      exact parseClassMethodsAux_lineNumber lines _ _ lines.length (i + 1) m hm
    · exact absurd hx (List.not_mem_nil c)

/-- Top-level function records of the Python extractor carry in-range line
numbers. -/
theorem parseTopLevelFunctions_lineNumber (lines : List String) :
    ∀ f ∈ PythonParser.parseTopLevelFunctions lines,
      1 ≤ f.lineNumber ∧ f.lineNumber ≤ lines.length := by
  intro f hmem
  unfold PythonParser.parseTopLevelFunctions at hmem
  rcases List.mem_flatMap.mp hmem with ⟨i, hi, hx⟩
  have hilt := List.mem_range.mp hi
  cases hg : lines.get? i with
  | none => rw [hg] at hx; exact absurd hx (List.not_mem_nil f)
  | some line =>
    rw [hg] at hx
    dsimp only at hx
    split at hx
    · rw [List.mem_singleton] at hx
      subst hx
      exact ⟨Nat.succ_le_succ (Nat.zero_le i), hilt⟩
    · exact absurd hx (List.not_mem_nil f)

/-- The url/ip/path/port tail of the Python hardcoded-value line scan only
produces records numbered j + 1. -/
theorem hardLine_r4_ln (j : Nat) (l : String) (hv : HardcodedValue)
    (hmem : hv ∈ (
      let url := PythonParser.urlM l
      let r1 : List HardcodedValue :=
        match url with
        | some v => [{ value := v, type := HKind.url, lineNumber := j + 1,
                       context := PythonParser.ctxEq (jsTrim l) }]
        | none => []
      let r2 : List HardcodedValue :=
        match PythonParser.ipM l, url with
        | some v, none =>
          r1 ++ [{ value := v, type := HKind.ip, lineNumber := j + 1,
                   context := PythonParser.ctxEq (jsTrim l) }]
        | _, _ => r1
      let r3 : List HardcodedValue :=
        match PythonParser.pathM l, url with
        | some v, none =>
          r2 ++ [{ value := v, type := HKind.path, lineNumber := j + 1,
                   context := PythonParser.ctxEq (jsTrim l) }]
        | _, _ => r2
      (if PythonParser.portT l then
        match PythonParser.eqNumM l with
        | some v => r3 ++ [{ value := v, type := HKind.number, lineNumber := j + 1,
                             context := "port" }]
        | none => r3
      else r3 : List HardcodedValue))) : hv.lineNumber = j + 1 := by
  dsimp only at hmem
  cases hu : PythonParser.urlM l <;> rw [hu] at hmem <;>
    cases hip : PythonParser.ipM l <;> rw [hip] at hmem <;>
    cases hp : PythonParser.pathM l <;> rw [hp] at hmem <;>
    try dsimp only at hmem
  all_goals
    by_cases hpt : PythonParser.portT l = true
  all_goals first
    | rw [if_pos hpt] at hmem
    | rw [if_neg hpt] at hmem
  all_goals
    try (cases hn : PythonParser.eqNumM l <;> rw [hn] at hmem <;> try dsimp only at hmem)
  all_goals
    simp only [List.mem_append, List.mem_singleton, List.not_mem_nil, or_false,
      false_or] at hmem
  all_goals try casesm* _ ∨ _
  all_goals subst_vars
  all_goals rfl

/-- Every finding contributed by line index j of the Python hardcoded-value
scanner carries the 1-based line number j + 1. -/
theorem hardLine_lineNumber (j : Nat) (l : String) :
    ∀ hv ∈ PythonParser.hardLine j l, hv.lineNumber = j + 1 := by
  intro hv hmem
  unfold PythonParser.hardLine at hmem
  dsimp only at hmem
  by_cases h1 : (beginsS (jsTrim l) "#" || jsTrim l == "") = true
  · rw [if_pos h1] at hmem
    exact absurd hmem (List.not_mem_nil hv)
  rw [if_neg h1] at hmem
  by_cases h2 : (beginsS (jsTrim l) "# ---meta" || beginsS (jsTrim l) "# ---") = true
  · rw [if_pos h2] at hmem
    exact absurd hmem (List.not_mem_nil hv)
  rw [if_neg h2] at hmem
  by_cases h3 : (beginsS (jsTrim l) "import " || beginsS (jsTrim l) "from ") = true
  · rw [if_pos h3] at hmem
    exact absurd hmem (List.not_mem_nil hv)
  rw [if_neg h3] at hmem
  cases hc : PythonParser.credM l with
  | some v =>
    rw [hc] at hmem
    try dsimp only at hmem
    rw [List.mem_singleton] at hmem
    subst hmem
    rfl
  | none =>
    rw [hc] at hmem
    try dsimp only at hmem
    cases ha : PythonParser.assignStrM (jsTrim l) with
    | some p =>
      rw [ha] at hmem
      obtain ⟨varName, content⟩ := p
      try dsimp only at hmem
      by_cases hup : PythonParser.isUpperSnake varName = true
      · rw [if_pos hup] at hmem
        rw [if_neg (by simp [hup])] at hmem
        exact hardLine_r4_ln j l hv hmem
      · rw [if_neg hup] at hmem
        exact hardLine_r4_ln j l hv hmem
    | none =>
      rw [ha] at hmem
      try dsimp only at hmem
      exact hardLine_r4_ln j l hv hmem

/-- Hardcoded-value findings of the Python extractor carry in-range line
numbers. -/
theorem detectHardcodedValues_lineNumber (lines : List String) :
    ∀ hv ∈ PythonParser.detectHardcodedValues lines,
      1 ≤ hv.lineNumber ∧ hv.lineNumber ≤ lines.length := by
  intro hv hmem
  unfold PythonParser.detectHardcodedValues at hmem
  rcases List.mem_flatMap.mp hmem with ⟨i, hi, hx⟩
  have hilt := List.mem_range.mp hi
  cases hg : lines.get? i with
  | none => rw [hg] at hx; exact absurd hx (List.not_mem_nil hv)
  | some l =>
    rw [hg] at hx
    have := hardLine_lineNumber i l hv hx
    omega

/-- Debug points of the Python extractor are in-range 1-based line
numbers. -/
theorem parseDebugPoints_bound (lines : List String) :
    ∀ d ∈ PythonParser.parseDebugPoints lines, 1 ≤ d ∧ d ≤ lines.length := by
  intro d hmem
  unfold PythonParser.parseDebugPoints at hmem
  rcases List.mem_filterMap.mp hmem with ⟨i, hi, hx⟩
  have hilt := List.mem_range.mp hi
  cases hg : lines.get? i with
  | none => rw [hg] at hx; exact Option.noConfusion hx
  | some line =>
    rw [hg] at hx
    dsimp only at hx
    split at hx
    · have := Option.some.inj hx
      omega
    · exact Option.noConfusion hx

/-- Unused-code items inherit their line numbers from the import, function
and method records, so they stay in range whenever those are. -/
theorem detectUnusedCode_bound (lines : List String) (imports : List ImportInfo)
    (classes : List ClassInfo) (functions : List MethodInfo)
    (hi : ∀ im ∈ imports, 1 ≤ im.lineNumber ∧ im.lineNumber ≤ lines.length)
    (hc : ∀ c ∈ classes, ∀ m ∈ c.methods, 1 ≤ m.lineNumber ∧ m.lineNumber ≤ lines.length)
    (hf : ∀ f ∈ functions, 1 ≤ f.lineNumber ∧ f.lineNumber ≤ lines.length) :
    ∀ u ∈ PythonParser.detectUnusedCode lines imports classes functions,
      1 ≤ u.lineNumber ∧ u.lineNumber ≤ lines.length := by
  intro u hmem
  unfold PythonParser.detectUnusedCode at hmem
  dsimp only at hmem
  rw [List.mem_append] at hmem
  rcases hmem with hmem | hmem
  · rcases List.mem_flatMap.mp hmem with ⟨imp, himp, hx⟩
    rcases List.mem_filterMap.mp hx with ⟨name, _, hres⟩
    try dsimp only at hres
    split at hres
    · exact Option.noConfusion hres
    split at hres
    · exact Option.noConfusion hres
    split at hres
    · exact Option.noConfusion hres
    · have h2 := Option.some.inj hres
      subst h2
      exact hi imp himp
  · rcases List.mem_filterMap.mp hmem with ⟨nl, hnl, hres⟩
    try dsimp only at hres
    split at hres
    · exact Option.noConfusion hres
    split at hres
    · exact Option.noConfusion hres
    · have h2 := Option.some.inj hres
      subst h2
      rw [List.mem_append] at hnl
      rcases hnl with h | h
      · rcases List.mem_map.mp h with ⟨f, hf2, hEq⟩
        rw [← hEq]
        exact hf f hf2
      · rcases List.mem_flatMap.mp h with ⟨c, hc2, hx2⟩
        rcases List.mem_map.mp hx2 with ⟨m, hm2, hEq⟩
        have hm3 : m ∈ c.methods := (List.mem_filter.mp hm2).1
        rw [← hEq]
        exact hc c hc2 m hm3

/-- C9: in the indentation-based extractor (the Python parser, the extractor
the cited invariant sources describe), every lineNumber field of every record
of the extraction result — imports, classes, methods, top-level functions,
hardcoded findings, unused items, debug points, todos, dependency issues —
is between 1 and totalLines inclusive. -/
theorem claim_C9 (code fileName : String) :
    lineNumsOk (PythonParser.parsePythonCode code fileName) = true := by
  unfold lineNumsOk
  dsimp only [PythonParser.parsePythonCode]
  simp only [Bool.and_eq_true, List.all_eq_true]
  refine ⟨⟨⟨⟨⟨⟨⟨?_, ?_⟩, ?_⟩, ?_⟩, ?_⟩, ?_⟩, ?_⟩, ?_⟩
  · intro im hx
    rw [lnOk_iff]
    exact parseImports_lineNumber (splitLines code) im hx
  · intro c hx
    rcases parseClasses_lineNumber (splitLines code) c hx with ⟨hb, hms⟩
    exact ⟨(lnOk_iff _ _).mpr hb, fun m hm => (lnOk_iff _ _).mpr (hms m hm)⟩
  · intro f hx
    rw [lnOk_iff]
    exact parseTopLevelFunctions_lineNumber (splitLines code) f hx
  · intro hv hx
    rw [lnOk_iff]
    exact detectHardcodedValues_lineNumber (splitLines code) hv hx
  · intro u hx
    rw [lnOk_iff]
    exact detectUnusedCode_bound (splitLines code) _ _ _
      (parseImports_lineNumber (splitLines code))
      (fun c hc => (parseClasses_lineNumber (splitLines code) c hc).2)
      (parseTopLevelFunctions_lineNumber (splitLines code)) u hx
  · intro d hx
    rw [lnOk_iff]
    exact parseDebugPoints_bound (splitLines code) d hx
  · intro t hx
    exact absurd hx (List.not_mem_nil t)
  · intro d hx
    exact absurd hx (List.not_mem_nil d)

/-- A single-character comment cut leaves a line without that character
unchanged. -/
theorem cutFrom_id (p : Char) : ∀ cs : List Char, (∀ c ∈ cs, c ≠ p) →
    cutFrom [p] cs = cs := by
  intro cs
  induction cs with
  | nil => intro _; rfl
  | cons c rest ih =>
    intro h
    unfold cutFrom
    have hb : begins [p] (c :: rest) = false := by
      simp [begins]
      exact h c (List.mem_cons_self c rest)
    rw [hb]
    simp only [Bool.false_eq_true, if_false]
    rw [ih (fun x hx => h x (List.mem_cons_of_mem c hx))]

/-- No suffix of the list opens a triple-quoted region. -/
def noTriB : List Char → Bool
  | [] => true
  | c :: cs =>
    !begins ['"', '"', '"'] (c :: cs) && (!begins [sqC, sqC, sqC] (c :: cs) && noTriB cs)

/-- The triple-quote strip leaves a triple-free list unchanged. -/
theorem stripTripleF_id : ∀ (fuel : Nat) (cs : List Char), noTriB cs = true →
    stripTripleF fuel cs = cs := by
  intro fuel
  induction fuel with
  | zero => intro cs _; rfl
  | succ f ih =>
    intro cs hno
    cases cs with
    | nil => rfl
    | cons c cs2 =>
      simp only [noTriB, Bool.and_eq_true, Bool.not_eq_true'] at hno
      rcases hno with ⟨h1, h2, h3⟩
      unfold stripTripleF
      rw [if_neg (by simp [h1]), if_neg (by simp [h2]), ih cs2 h3]

theorem stripTriple_id (cs : List Char) (h : noTriB cs = true) : stripTriple cs = cs :=
  stripTripleF_id cs.length cs h

/-- Prepending a non-quote character preserves triple-freeness. -/
theorem noTriB_cons_nq (c : Char) (cs : List Char) (h1 : c ≠ '"') (h2 : c ≠ sqC)
    (h : noTriB cs = true) : noTriB (c :: cs) = true := by
  simp [noTriB, begins, h1, h2, h]

/-- A quote-free list followed by one closing double quote is triple-free. -/
theorem noTriB_tail (s : List Char) (hq : ∀ c ∈ s, c ≠ '"') (hsq : ∀ c ∈ s, c ≠ sqC) :
    noTriB (s ++ ['"']) = true := by
  induction s with
  | nil => decide
  | cons c rest ih =>
    rw [List.cons_append]
    exact noTriB_cons_nq c _ (hq c (List.mem_cons_self c rest))
      (hsq c (List.mem_cons_self c rest))
      (ih (fun x hx => hq x (List.mem_cons_of_mem c hx))
        (fun x hx => hsq x (List.mem_cons_of_mem c hx)))

/-- One double quote, quote-free content, one double quote: triple-free. -/
theorem noTriB_q_tail (s : List Char) (hq : ∀ c ∈ s, c ≠ '"') (hsq : ∀ c ∈ s, c ≠ sqC) :
    noTriB ('"' :: (s ++ ['"'])) = true := by
  have htail := noTriB_tail s hq hsq
  have a1 : begins ['"', '"', '"'] ('"' :: (s ++ ['"'])) = false := by
    cases s with
    | nil => decide
    | cons c rest =>
      have hc : (c == '"') = false := by simp [hq c (List.mem_cons_self c rest)]
      simp [begins, hc]
  have a2 : begins [sqC, sqC, sqC] ('"' :: (s ++ ['"'])) = false := by
    have hx : ('"' == sqC) = false := by decide
    simp [begins, hx]
  show (!begins ['"', '"', '"'] ('"' :: (s ++ ['"'])) &&
    (!begins [sqC, sqC, sqC] ('"' :: (s ++ ['"'])) && noTriB (s ++ ['"']))) = true
  rw [a1, a2, htail]
  rfl

/-- A quote-free escape-free body followed by the closing quote closes with
nothing left over. -/
theorem qClose_append_close (q : Char) :
    ∀ s : List Char, (∀ c ∈ s, c ≠ q) → (∀ c ∈ s, c ≠ '\\') →
    qClose q (s ++ [q]) = some [] := by
  intro s
  induction s with
  | nil =>
    intro _ _
    simp [qClose]
  | cons c rest ih =>
    intro hq hb
    have h1 : (c == q) = false := by simp [hq c (List.mem_cons_self c rest)]
    have h2 : (c == '\\') = false := by simp [hb c (List.mem_cons_self c rest)]
    rw [List.cons_append]
    unfold qClose
    rw [if_neg (by simp [h1]), if_neg (by simp [h2])]
    exact ih (fun x hx => hq x (List.mem_cons_of_mem c hx))
      (fun x hx => hb x (List.mem_cons_of_mem c hx))

/-- The quote strip steps over a non-quote head character. -/
theorem stripQuoteF_cons_nq (q c : Char) (hc : (c == q) = false) (fuel : Nat)
    (cs : List Char) :
    stripQuoteF q (fuel + 1) (c :: cs) = c :: stripQuoteF q fuel cs := by
  conv_lhs => unfold stripQuoteF
  rw [if_neg (by simp [hc])]

/-- The quote strip replaces a closable literal by an empty quote pair. -/
theorem stripQuoteF_open (q : Char) (fuel : Nat) (cs after : List Char)
    (h : qClose q cs = some after) :
    stripQuoteF q (fuel + 1) (q :: cs) = q :: q :: stripQuoteF q fuel after := by
  conv_lhs => unfold stripQuoteF
  rw [if_pos (by simp), h]

/-- The quote strip leaves an empty list empty, whatever the fuel. -/
theorem stripQuoteF_nil (q : Char) : ∀ fuel : Nat, stripQuoteF q fuel [] = [] := by
  intro fuel
  cases fuel <;> rfl

/-- The full comment/string strip of the scenario line: the quoted literal
body disappears, leaving the empty quote pair. -/
theorem pyStrip_concrete (s : String)
    (hq : ∀ c ∈ s.data, c ≠ '"')
    (hsq : ∀ c ∈ s.data, c ≠ sqC)
    (hhash : ∀ c ∈ s.data, c ≠ '#')
    (hbs : ∀ c ∈ s.data, c ≠ '\\') :
    PythonParser.pyStripLine ("x = \"" ++ s ++ "\"") = "x = \"\"" := by
  unfold PythonParser.pyStripLine
  have hdata : ("x = \"" ++ s ++ "\"").data =
      'x' :: ' ' :: '=' :: ' ' :: '"' :: (s.data ++ ['"']) := by
    rw [String.data_append, String.data_append]
    simp
  rw [hdata]
  have hcut : cutFrom ['#'] ('x' :: ' ' :: '=' :: ' ' :: '"' :: (s.data ++ ['"'])) =
      'x' :: ' ' :: '=' :: ' ' :: '"' :: (s.data ++ ['"']) := by
    apply cutFrom_id
    intro c hc
    simp only [List.mem_cons, List.mem_append, List.mem_singleton, List.not_mem_nil,
      or_false] at hc
    rcases hc with rfl | rfl | rfl | rfl | rfl | hc | rfl
    · decide
    · decide
    · decide
    · decide
    · decide
    · exact hhash c hc
    · decide
  rw [hcut]
  have htri : stripTriple ('x' :: ' ' :: '=' :: ' ' :: '"' :: (s.data ++ ['"'])) =
      'x' :: ' ' :: '=' :: ' ' :: '"' :: (s.data ++ ['"']) := by
    apply stripTriple_id
    apply noTriB_cons_nq _ _ (by decide) (by decide)
    apply noTriB_cons_nq _ _ (by decide) (by decide)
    apply noTriB_cons_nq _ _ (by decide) (by decide)
    apply noTriB_cons_nq _ _ (by decide) (by decide)
    exact noTriB_q_tail s.data hq hsq
  rw [htri]
  have hclose : qClose '"' (s.data ++ ['"']) = some [] :=
    qClose_append_close '"' s.data hq hbs
  have hquote : stripQuote '"' ('x' :: ' ' :: '=' :: ' ' :: '"' :: (s.data ++ ['"'])) =
      ['x', ' ', '=', ' ', '"', '"'] := by
    unfold stripQuote
    simp only [List.length_cons]
    rw [stripQuoteF_cons_nq '"' 'x' (by decide)]
    rw [stripQuoteF_cons_nq '"' ' ' (by decide)]
    rw [stripQuoteF_cons_nq '"' '=' (by decide)]
    rw [stripQuoteF_cons_nq '"' ' ' (by decide)]
    rw [stripQuoteF_open '"' _ _ [] hclose]
    rw [stripQuoteF_nil]
  rw [hquote]
  rfl

/-- C5: amended form of the unused-import claim. When the string literal
containing the imported name is clean — no quotes, hash marks or backslashes
inside it — the stripping pipeline does erase it and the name is reported as
an unused import, whatever the literal says. The unrestricted claim fails
when the literal contains a hash: comment cutting runs before string
stripping, so the line is truncated inside the literal and the name survives
(claim_C5_counterexample). -/
theorem claim_C5 (l0 mod n s : String)
    (hq : ∀ c ∈ s.data, c ≠ '"')
    (hsq : ∀ c ∈ s.data, c ≠ sqC)
    (hhash : ∀ c ∈ s.data, c ≠ '#')
    (hbs : ∀ c ∈ s.data, c ≠ '\\')
    (hstar : n ≠ "*")
    (hlen : 1 < n.length)
    (hty : beginsS mod "typing" = false)
    (hskip : PythonParser.typingSkip.contains n = false)
    (hocc : wordOccursS n "\nx = \"\"" = false) :
    PythonParser.detectUnusedCode [l0, "x = \"" ++ s ++ "\""]
      [{ module := mod, names := [n], isFrom := true, lineNumber := 1 }] [] [] =
      [{ name := n, kind := UKind.uimport, lineNumber := 1 }] := by
  have hstrip := pyStrip_concrete s hq hsq hhash hbs
  have hlen2 : ¬(n.length ≤ 1) := by omega
  have hint2 : String.intercalate "\n" ["", ("x = \"\"" : String)] = "\nx = \"\"" := rfl
  have hskip2 : ¬(n ∈ PythonParser.typingSkip) := by simpa using hskip
  unfold PythonParser.detectUnusedCode
  simp [List.mapIdx_cons, hstrip, hint2, hstar, hlen2, hty, hskip2, hocc]

/-- Concrete instance of claim_C5: `jsonx` occurring only inside the clean
literal `"jsonx something"` is reported as an unused import. -/
theorem claim_C5_witness :
    PythonParser.detectUnusedCode
      ["from foo import jsonx", "x = \"" ++ "jsonx something" ++ "\""]
      [{ module := "foo", names := ["jsonx"], isFrom := true, lineNumber := 1 }] [] [] =
      [{ name := "jsonx", kind := UKind.uimport, lineNumber := 1 }] :=
  claim_C5 "from foo import jsonx" "foo" "jsonx" "jsonx something"
    (by decide) (by decide) (by decide) (by decide) (by decide) (by decide) rfl rfl rfl
